import Mathlib

/-!
VINS-Multi feature tracker: a shallow embedding of `feature_tracker.cpp`

The definitions follow `vins_estimator/src/featureTracker/feature_tracker.cpp`.

Modelling conventions.

* `cv::Point2f` coordinates, `double` values and time stamps are rationals; arithmetic on
  them is exact.  `sqrt(d) <= c` is written `d <= c * c`.
* `std::vector<T>` is `List T`; `std::map<int, T>` is an association list with at most one
  entry per key; `std::set<int>` is a `Finset Int`.
* `int` values (`n_id`, `track_cnt`, identities) are integers and `trackImage` computes on
  them exactly.  `trackImageInt32` is the same function with the two increments (`n++`,
  `n_id++`) on 32-bit `int`; the two agree as long as no increment leaves the range of
  `int`, and the statements on identities and track counts carry that as a hypothesis.
* The OpenCV and camera routines are parameters, gathered in `Env`.
* Reading `v[i]` with `i` beyond the end of a vector has no defined value in C++.  The
  model makes the value read there a parameter (`Env.oobStatus` and its siblings, indexed by
  the place of the read and by `i`), so a statement that quantifies over `Env` holds whatever
  is read.  A write beyond the end is dropped.
-/

namespace vins_multi

/-! ## Points, images, maps -/

/-- A pixel or normalised-plane coordinate pair (`cv::Point2f`). -/
structure Point2f where
  x : ℚ
  y : ℚ
deriving DecidableEq

/-- An integer pixel position (`cv::Point`). -/
structure Point where
  x : Int
  y : Int
deriving DecidableEq

/-- A three-vector (`Eigen::Vector3d`). -/
structure Vector3d where
  x : ℚ
  y : ℚ
  z : ℚ
deriving DecidableEq

/-- A single-channel image (`cv::Mat`): its size and the sample at row `r`, column `c`. -/
structure Mat where
  rows : Int
  cols : Int
  px : Int → Int → Nat

/-- The image an instance holds before anything was assigned to it. -/
def Mat.none : Mat := ⟨0, 0, fun _ _ => 0⟩

/-- Whether the image has no pixels, `cv::Mat::empty()`. -/
def Mat.empty (m : Mat) : Bool := decide (m.rows ≤ 0 ∨ m.cols ≤ 0)

/-- Rounding `cvRound`: round to the nearest integer, ties to the even one. -/
def cvRound (v : ℚ) : Int :=
  if v - ⌊v⌋ < 1 / 2 then ⌊v⌋
  else if 1 / 2 < v - ⌊v⌋ then ⌊v⌋ + 1
  else if ⌊v⌋ % 2 = 0 then ⌊v⌋ else ⌊v⌋ + 1

/-- The conversion of a floating value to `int` where C++ applies it implicitly:
truncation toward zero. -/
def truncToInt (v : ℚ) : Int := if 0 ≤ v then ⌊v⌋ else ⌈v⌉

/-- The conversion `cv::Point2f` to `cv::Point` (`saturate_cast`, which rounds). -/
def Point2f.toPoint (p : Point2f) : Point := ⟨cvRound p.x, cvRound p.y⟩

/-- The read `v[i]`, with the value `oob i` where `i` is beyond the end. -/
def readAt {α : Type} (oob : Nat → α) (v : List α) (i : Nat) : α := v.getD i (oob i)

/-- A `std::map<int, T>` as an association list. -/
abbrev IdMap (α : Type) := List (Int × α)

/-- Lookup `m.find(k)`: the value under `k`, if any. -/
def IdMap.find {α : Type} (m : IdMap α) (k : Int) : Option α :=
  match m with
  | [] => Option.none
  | (k', v) :: rest => if k' = k then some v else IdMap.find rest k

/-- Insertion `m.insert(make_pair(k, v))`: adds the pair unless `k` is already a key. -/
def IdMap.insert {α : Type} (m : IdMap α) (k : Int) (v : α) : IdMap α :=
  match m.find k with
  | some _ => m
  | Option.none => m ++ [(k, v)]

/-- Assignment `m[k] = v`: replaces the value under `k`, or adds the pair. -/
def IdMap.assign {α : Type} (m : IdMap α) (k : Int) (v : α) : IdMap α :=
  match m with
  | [] => [(k, v)]
  | (k', v') :: rest => if k' = k then (k, v) :: rest else (k', v') :: IdMap.assign rest k v

/-- The keys of a map. -/
def IdMap.keys {α : Type} (m : IdMap α) : List Int := m.map Prod.fst

/-! ## Configuration and external routines -/

/-- The process-wide knobs of `parameters.h` read by the tracker. -/
structure Params where
  EQUALIZE : Bool
  FLOW_BACK : Bool
  SHOW_TRACK : Bool
  MIN_DIST : Int
  FOCAL_LENGTH : ℚ
  F_THRESHOLD : ℚ
  DEPTH_MIN : ℚ
  DEPTH_MAX : ℚ

/-- A `(track_cnt, (point, id))` entry of `cnt_pts_id` in `setMask`. -/
abbrev CntPtId := Int × Point2f × Int

/-- The routines the tracker calls and does not define, and the values read beyond the
end of a vector. -/
structure Env where
  /-- Contrast-limited equalisation, `cv::CLAHE::apply`. -/
  clahe : Mat → Mat
  /-- Sparse pyramidal Lucas-Kanade, `cv::calcOpticalFlowPyrLK(prevImg, nextImg, prevPts, nextPts, status, ..., maxLevel,
  useInitialFlow)`: the resulting `nextPts` and `status`. -/
  calcOpticalFlowPyrLK : Mat → Mat → List Point2f → List Point2f → Int → Bool →
    List Point2f × List Nat
  /-- Device-side Lucas-Kanade, `cv::cuda::SparsePyrLKOpticalFlow::calc` on two pyramids,
  then the download of points and status. -/
  sparsePyrLK : List Mat → List Mat → List Point2f → List Point2f → Bool →
    List Point2f × List Nat
  /-- One pyramid level down, `cv::cuda::pyrDown`. -/
  pyrDown : Mat → Mat
  /-- RANSAC inlier mask of `cv::findFundamentalMat(pts1, pts2, FM_RANSAC, threshold, 0.99, status)`: `status`. -/
  findFundamentalMat : List Point2f → List Point2f → ℚ → List Nat
  /-- Corner detection, `cv::goodFeaturesToTrack(img, corners, maxCorners, 0.01, minDistance, mask)`. -/
  goodFeaturesToTrack : Mat → Int → Int → Mat → List Point2f
  /-- The CUDA corner detector, `detect(img)` with `maxCorners` and `minDistance`. -/
  detectGPU : Mat → Int → Int → List Point2f
  /-- The `std::sort` of `cnt_pts_id` with the comparator `a.first > b.first`. -/
  stdSort : List CntPtId → List CntPtId
  /-- Camera `k` lifting a pixel to a ray, `m_camera[k]->liftProjective`. -/
  liftProjective : Nat → Point2f → Vector3d
  /-- Camera `k` projecting a ray to a pixel, `m_camera[k]->spaceToPlane`. -/
  spaceToPlane : Nat → Vector3d → Point2f
  /-- The byte read by `status[i]` beyond the end, by place of the read. -/
  oobStatus : Nat → Nat → Nat
  /-- The point read beyond the end of a point vector. -/
  oobPoint : Nat → Nat → Point2f
  /-- The value read beyond the end of an `int` vector. -/
  oobInt : Nat → Nat → Int
  /-- The value read beyond the end of a `double` vector. -/
  oobDouble : Nat → Nat → ℚ

/-! ## Free functions -/

/-- Squared Euclidean distance of two points. -/
def distSq (pt1 pt2 : Point2f) : ℚ :=
  (pt1.x - pt2.x) * (pt1.x - pt2.x) + (pt1.y - pt2.y) * (pt1.y - pt2.y)

/-- Squared Euclidean distance of the rounded pixel positions of two points. -/
def pixelDistSq (pt1 pt2 : Point2f) : Int :=
  (cvRound pt1.x - cvRound pt2.x) * (cvRound pt1.x - cvRound pt2.x) +
  (cvRound pt1.y - cvRound pt2.y) * (cvRound pt1.y - cvRound pt2.y)

/-- The test `distance(pt1, pt2) <= 0.5` of the round-trip checks, where `distance` is
the square root of `distSq`. -/
def distanceLeHalf (pt1 pt2 : Point2f) : Bool := decide (distSq pt1 pt2 ≤ 1 / 4)

/-- The loop of `reduceVector`: `read i` is `status[i]`, the element at index `i` is kept
where it is non-zero. -/
def reduceVectorLoop {α : Type} (read : Nat → Nat) : Nat → List α → List α
  | _, [] => []
  | i, a :: rest =>
    if read i ≠ 0 then a :: reduceVectorLoop read (i + 1) rest
    else reduceVectorLoop read (i + 1) rest

/-- The function `reduceVector(v, status)`, for both overloads: compacts `v` in place to the elements
whose status is non-zero and resizes it. -/
def reduceVector {α : Type} (oob : Nat → Nat) (v : List α) (status : List Nat) : List α :=
  reduceVectorLoop (readAt oob status) 0 v

/-- One iteration of the loop of `reduceVector` as it is written, on the pair of the vector
and the write index `j`: `if (status[i]) v[j++] = v[i];`, where `read i` is `status[i]`. -/
def reduceVectorStep {α : Type} (read : Nat → Nat) (st : List α × Nat) (i : Nat) :
    List α × Nat :=
  if read i ≠ 0 then
    match st.1[i]? with
    | some a => (st.1.set st.2 a, st.2 + 1)
    | Option.none => st
  else st

/-- The function `reduceVector(v, status)` as it is written: the loop over the indices
`0, ..., v.size() - 1` writing in place, then `v.resize(j)`. -/
def reduceVectorInPlace {α : Type} (oob : Nat → Nat) (v : List α) (status : List Nat) :
    List α :=
  let r := (List.range v.length).foldl (reduceVectorStep (readAt oob status)) (v, 0)
  r.1.take r.2

/-! ## The tracker -/

/-- The value of `mean_optical_flow_speed`: not yet assigned, or
`std::numeric_limits<double>::max()` (the largest finite `double`), or
the arithmetic mean of the square roots of the listed squared speeds (one per point that
has a previous observation; the list is not empty), or positive infinity (which no
statement of the sources assigns). -/
inductive FlowSpeed where
  | unset : FlowSpeed
  | doubleMax : FlowSpeed
  | meanOfRoots (squaredSpeeds : List ℚ) : FlowSpeed
  | posInf : FlowSpeed
deriving DecidableEq

/-- Modelled from the spec: the observation record `FeaturePerFrame` of section 4.8, whose
declaration is in a header outside the sources; the fields are the ones `trackImage`
assigns. -/
structure FeaturePerFrame where
  point : Vector3d
  uv : Point2f
  velocity : Point2f
  is_depth : Bool
  is_stereo : Bool
  depth : ℚ
  pointRight : Vector3d
  uvRight : Point2f
  velocityRight : Point2f
deriving DecidableEq

/-- A record no field of which was assigned yet (the fields are zero in the model). -/
def FeaturePerFrame.blank : FeaturePerFrame :=
  ⟨⟨0, 0, 0⟩, ⟨0, 0⟩, ⟨0, 0⟩, false, false, 0, ⟨0, 0, 0⟩, ⟨0, 0⟩, ⟨0, 0⟩⟩

/-- The data members of `FeatureTracker` that the modelled functions read or write (the
overlay image `imTrack` and the camera objects are left out). -/
structure FeatureTracker where
  row : Int
  col : Int
  cur_img : Mat
  prev_img : Mat
  mask : Mat
  prev_pyr : List Mat
  n_pts : List Point2f
  predict_pts : List Point2f
  predict_pts_debug : List Point2f
  prev_pts : List Point2f
  cur_pts : List Point2f
  cur_right_pts : List Point2f
  prev_un_pts : List Point2f
  cur_un_pts : List Point2f
  cur_un_right_pts : List Point2f
  pts_velocity : List Point2f
  right_pts_velocity : List Point2f
  ids : List Int
  ids_right : List Int
  track_cnt : List Int
  pts_depth : List ℚ
  cur_un_pts_map : IdMap Point2f
  prev_un_pts_map : IdMap Point2f
  cur_un_right_pts_map : IdMap Point2f
  prev_un_right_pts_map : IdMap Point2f
  prevLeftPtsMap : IdMap Point2f
  cur_time : ℚ
  prev_time : ℚ
  n_id : Int
  hasPrediction : Bool
  depth : Bool
  stereo : Bool
  max_cnt : Int
  track_num : ℚ
  track_percentage : ℚ
  mean_optical_flow_speed : FlowSpeed

/-- The constructor `FeatureTracker::FeatureTracker(is_depth, is_stereo, feature_max_cnt)`:
every sequence and map is empty, `n_id = 0`, `hasPrediction = false`. -/
def FeatureTracker.create (is_depth is_stereo : Bool) (feature_max_cnt : Int) :
    FeatureTracker where
  row := 0
  col := 0
  cur_img := Mat.none
  prev_img := Mat.none
  mask := Mat.none
  prev_pyr := []
  n_pts := []
  predict_pts := []
  predict_pts_debug := []
  prev_pts := []
  cur_pts := []
  cur_right_pts := []
  prev_un_pts := []
  cur_un_pts := []
  cur_un_right_pts := []
  pts_velocity := []
  right_pts_velocity := []
  ids := []
  ids_right := []
  track_cnt := []
  pts_depth := []
  cur_un_pts_map := []
  prev_un_pts_map := []
  cur_un_right_pts_map := []
  prev_un_right_pts_map := []
  prevLeftPtsMap := []
  cur_time := 0
  prev_time := 0
  n_id := 0
  hasPrediction := false
  depth := is_depth
  stereo := is_stereo
  max_cnt := feature_max_cnt
  track_num := feature_max_cnt
  track_percentage := 1
  mean_optical_flow_speed := FlowSpeed.unset

/-- The mutator `set_max_feature_num`. -/
def FeatureTracker.set_max_feature_num (s : FeatureTracker) (max_feature_num : Int) :
    FeatureTracker :=
  { s with max_cnt := max_feature_num }

/-- The test `inBorder(pt)`: the rounded pixel lies at least `BORDER_SIZE = 1` inside the
`row` x `col` image. -/
def FeatureTracker.inBorder (s : FeatureTracker) (pt : Point2f) : Bool :=
  decide (1 ≤ cvRound pt.x ∧ cvRound pt.x < s.col - 1 ∧
          1 ≤ cvRound pt.y ∧ cvRound pt.y < s.row - 1)

/-! ### `setMask` -/

/-- The sample `img.at<uchar>(pt)`. -/
def Mat.atPoint (img : Mat) (pt : Point) : Nat := img.px pt.y pt.x

/-- The drawing call `cv::circle(img, center, radius, color, -1)`: the pixels of the image
within Euclidean distance `radius` of `center` take the value `color`.  OpenCV requires
`radius >= 0`; nothing is painted otherwise. -/
def circle (img : Mat) (center : Point) (radius : Int) (color : Nat) : Mat :=
  { img with
    px := fun r c =>
      if 0 ≤ radius ∧ 0 ≤ r ∧ r < img.rows ∧ 0 ≤ c ∧ c < img.cols ∧
          (c - center.x) * (c - center.x) + (r - center.y) * (r - center.y) ≤ radius * radius
      then color else img.px r c }

/-- The first loop of `setMask`: entry `i` is `(track_cnt[i], (cur_pts[i], ids[i]))`, for
every index `i` of `cur_pts`. -/
def cntPtsIdFrom (cntAt idAt : Nat → Int) : Nat → List Point2f → List CntPtId
  | _, [] => []
  | i, p :: rest => (cntAt i, p, idAt i) :: cntPtsIdFrom cntAt idAt (i + 1) rest

/-- The second loop of `setMask`, over the sorted entries: an entry whose mask pixel is
still 255 is kept and a disc of radius `MIN_DIST` is cleared around it.  Returns the final
mask and the kept entries in order. -/
def setMaskLoop (MIN_DIST : Int) : Mat → List CntPtId → Mat × List CntPtId
  | mask, [] => (mask, [])
  | mask, it :: rest =>
    if mask.atPoint it.2.1.toPoint = 255 then
      let r := setMaskLoop MIN_DIST (circle mask it.2.1.toPoint MIN_DIST 0) rest
      (r.1, it :: r.2)
    else setMaskLoop MIN_DIST mask rest

/-- The function `setMask()`. -/
def FeatureTracker.setMask (env : Env) (P : Params) (s : FeatureTracker) : FeatureTracker :=
  let mask0 : Mat := ⟨s.row, s.col, fun _ _ => 255⟩
  let cnt_pts_id := cntPtsIdFrom (readAt (env.oobInt 0) s.track_cnt) (readAt (env.oobInt 1) s.ids)
    0 s.cur_pts
  let r := setMaskLoop P.MIN_DIST mask0 (env.stdSort cnt_pts_id)
  { s with
    mask := r.1
    cur_pts := r.2.map (fun it => it.2.1)
    ids := r.2.map (fun it => it.2.2)
    track_cnt := r.2.map (fun it => it.1) }

/-! ### `rejectWithF`, `setDepth`, `undistortedPts`, `ptsVelocity` -/

/-- The re-projection used by `rejectWithF`: lift through camera 0, then a pinhole of focal
length `FOCAL_LENGTH` centred on the image centre. -/
def FeatureTracker.pinhole (env : Env) (P : Params) (s : FeatureTracker) (p : Point2f) :
    Point2f :=
  let tmp_p := env.liftProjective 0 p
  ⟨P.FOCAL_LENGTH * tmp_p.x / tmp_p.z + s.col / 2, P.FOCAL_LENGTH * tmp_p.y / tmp_p.z + s.row / 2⟩

/-- The inlier status computed in `rejectWithF` by `cv::findFundamentalMat` on the
re-projected current and previous points. -/
def FeatureTracker.ransacStatus (env : Env) (P : Params) (s : FeatureTracker) : List Nat :=
  let un_cur_pts := s.cur_pts.map (s.pinhole env P)
  let un_prev_pts := (List.range s.prev_pts.length).map (fun i =>
    if i < s.cur_pts.length then s.pinhole env P (readAt (env.oobPoint 0) s.prev_pts i)
    else ⟨0, 0⟩)
  env.findFundamentalMat un_cur_pts un_prev_pts P.F_THRESHOLD

/-- The function `rejectWithF()`: with at least 8 current points, the RANSAC status is
applied to `prev_pts`, `cur_pts`, `cur_un_pts`, `ids` and `track_cnt`. -/
def FeatureTracker.rejectWithF (env : Env) (P : Params) (s : FeatureTracker) : FeatureTracker :=
  if 8 ≤ s.cur_pts.length then
    let status := s.ransacStatus env P
    { s with
      prev_pts := reduceVector (env.oobStatus 4) s.prev_pts status
      cur_pts := reduceVector (env.oobStatus 5) s.cur_pts status
      cur_un_pts := reduceVector (env.oobStatus 6) s.cur_un_pts status
      ids := reduceVector (env.oobStatus 7) s.ids status
      track_cnt := reduceVector (env.oobStatus 8) s.track_cnt status }
  else s

/-- The depth recorded by `setDepth` for one point: the sample at row `(int) y`, column
`(int) x`, times 0.001, if strictly between `DEPTH_MIN` and `DEPTH_MAX`, else `-1`. -/
def depthAt (P : Params) (depth_img : Mat) (pt : Point2f) : ℚ :=
  let dep : ℚ := (depth_img.px (truncToInt pt.y) (truncToInt pt.x) : ℚ) * (1 / 1000)
  if dep < P.DEPTH_MAX ∧ dep > P.DEPTH_MIN then dep else -1

/-- The function `setDepth(depth_img)`. -/
def FeatureTracker.setDepth (P : Params) (s : FeatureTracker) (depth_img : Mat) :
    FeatureTracker :=
  { s with pts_depth := s.cur_pts.map (depthAt P depth_img) }

/-- The function `undistortedPts(pts, cam)`. -/
def undistortedPts (env : Env) (pts : List Point2f) (cam : Nat) : List Point2f :=
  pts.map (fun p => let b := env.liftProjective cam p; ⟨b.x / b.z, b.y / b.z⟩)

/-- The first loop of `ptsVelocity`: `cur_id_pts.insert(make_pair(ids[i], pts[i]))` for
every index `i` of `ids`. -/
def fillIdPts (ptAt : Nat → Point2f) : Nat → List Int → IdMap Point2f → IdMap Point2f
  | _, [], m => m
  | i, id :: rest, m => fillIdPts ptAt (i + 1) rest (m.insert id (ptAt i))

/-- The velocity loop of `ptsVelocity` when `prev_id_pts` is not empty: for every index
`i` of `pts`, the velocity and, if `ids[i]` has a previous observation, the squared
speed. -/
def velocityLoop (idAt : Nat → Int) (prev_id_pts : IdMap Point2f) (dt : ℚ) :
    Nat → List Point2f → List Point2f × List ℚ
  | _, [] => ([], [])
  | i, p :: rest =>
    let r := velocityLoop idAt prev_id_pts dt (i + 1) rest
    match prev_id_pts.find (idAt i) with
    | some q =>
      let v_x := (p.x - q.x) / dt
      let v_y := (p.y - q.y) / dt
      (⟨v_x, v_y⟩ :: r.1, (v_x * v_x + v_y * v_y) :: r.2)
    | Option.none => (⟨0, 0⟩ :: r.1, r.2)

/-- The function `ptsVelocity(ids, pts, cur_id_pts, prev_id_pts)`: returns the velocities,
the new content of `cur_id_pts` and the new `mean_optical_flow_speed`.  When `prev_id_pts`
is empty the result has one zero entry per element of the member `cur_pts`. -/
def FeatureTracker.ptsVelocity (env : Env) (s : FeatureTracker) (ids : List Int)
    (pts : List Point2f) (prev_id_pts : IdMap Point2f) :
    List Point2f × IdMap Point2f × FlowSpeed :=
  let cur_id_pts := fillIdPts (readAt (env.oobPoint 1) pts) 0 ids []
  let r : List Point2f × List ℚ :=
    if prev_id_pts ≠ [] then
      velocityLoop (readAt (env.oobInt 2) ids) prev_id_pts (s.cur_time - s.prev_time) 0 pts
    else (s.cur_pts.map (fun _ => (⟨0, 0⟩ : Point2f)), [])
  (r.1, cur_id_pts, if 0 < r.2.length then FlowSpeed.meanOfRoots r.2 else FlowSpeed.doubleMax)

/-- The velocity of a point `p` of identity `id` against `prev_id_pts`: the displacement
from the previous observation divided by `dt`, or `(0, 0)` without a previous
observation. -/
def velocityOf (prev_id_pts : IdMap Point2f) (dt : ℚ) (id : Int) (p : Point2f) : Point2f :=
  match prev_id_pts.find id with
  | some q => ⟨(p.x - q.x) / dt, (p.y - q.y) / dt⟩
  | Option.none => ⟨0, 0⟩

/-- The squared speed of a point that has a previous observation. -/
def squaredSpeedOf (prev_id_pts : IdMap Point2f) (dt : ℚ) (id : Int) (p : Point2f) : Option ℚ :=
  (prev_id_pts.find id).map (fun q =>
    (p.x - q.x) / dt * ((p.x - q.x) / dt) + (p.y - q.y) / dt * ((p.y - q.y) / dt))

/-- The count `succ_num` of non-zero status entries. -/
def succNum (status : List Nat) : Nat := (status.filter (fun st => st ≠ 0)).length

/-- The round-trip loops: for every index `i` of `status`, the entry becomes 1 if it was
non-zero and `ok i` holds, and 0 otherwise (`ok i` stands for the remaining conjuncts, which
are evaluated only when the entry is non-zero). -/
def flowBackLoop (ok : Nat → Bool) : Nat → List Nat → List Nat
  | _, [] => []
  | i, st :: rest => (if st ≠ 0 ∧ ok i = true then 1 else 0) :: flowBackLoop ok (i + 1) rest

/-- The border loop: for every index `i` of `cur_pts`, `status[i]` is cleared when it is
non-zero and `cur_pts[i]` is not in the border. -/
def borderStatus (inB : Point2f → Bool) : List Point2f → List Nat → List Nat
  | [], status => status
  | _ :: _, [] => []
  | p :: pts, st :: status => (if st ≠ 0 ∧ inB p = false then 0 else st) :: borderStatus inB pts status

/-- The forward optical flow of the temporal block of `trackImage`: with a prediction,
flow from `predict_pts` at pyramid level 1 and, on fewer than 10 successes, again at
level 3; without one, flow at level 3.  Returns `cur_pts` and `status`. -/
def FeatureTracker.flowLK (env : Env) (s : FeatureTracker) : List Point2f × List Nat :=
  if s.hasPrediction then
    let first := env.calcOpticalFlowPyrLK s.prev_img s.cur_img s.prev_pts s.predict_pts 1 true
    if succNum first.2 < 10 then
      env.calcOpticalFlowPyrLK s.prev_img s.cur_img s.prev_pts first.1 3 false
    else first
  else env.calcOpticalFlowPyrLK s.prev_img s.cur_img s.prev_pts s.cur_pts 3 false

/-- The combined status of the temporal block: the flow status, after the round-trip
check when `FLOW_BACK` is set, after border culling. -/
def FeatureTracker.flowStatus (env : Env) (P : Params) (s : FeatureTracker) : List Nat :=
  let lk := s.flowLK env
  let status1 :=
    if P.FLOW_BACK then
      let rev := env.calcOpticalFlowPyrLK s.cur_img s.prev_img lk.1 s.prev_pts 1 true
      flowBackLoop (fun i => decide (readAt (env.oobStatus 12) rev.2 i ≠ 0) &&
        distanceLeHalf (readAt (env.oobPoint 2) s.prev_pts i) (readAt (env.oobPoint 3) rev.1 i))
        0 lk.2
    else lk.2
  borderStatus s.inBorder lk.1 status1

/-- The temporal block of `trackImage` (`if (prev_pts.size() > 0) ...`): optical flow from
the previous image, the optional round-trip check, border culling, and the combined
status applied to `prev_pts`, `cur_pts`, `ids` and `track_cnt`. -/
def FeatureTracker.temporalFlow (env : Env) (P : Params) (s : FeatureTracker) : FeatureTracker :=
  if 0 < s.prev_pts.length then
    let status := s.flowStatus env P
    let cur_pts := reduceVector (env.oobStatus 1) (s.flowLK env).1 status
    { s with
      prev_pts := reduceVector (env.oobStatus 0) s.prev_pts status
      cur_pts := cur_pts
      ids := reduceVector (env.oobStatus 2) s.ids status
      track_cnt := reduceVector (env.oobStatus 3) s.track_cnt status
      track_num := cur_pts.length
      track_percentage := (cur_pts.length : ℚ) / (s.prev_pts.length : ℚ) }
  else s

/-- The loop `for (auto &n : track_cnt) n++`. -/
def FeatureTracker.ageTracks (s : FeatureTracker) : FeatureTracker :=
  { s with track_cnt := s.track_cnt.map (fun n => n + 1) }

/-- The detection step of `trackImage`: up to `max_cnt - |cur_pts|` new corners in `n_pts`,
none when that number is not positive. -/
def FeatureTracker.detect (env : Env) (P : Params) (s : FeatureTracker) : FeatureTracker :=
  let n_max_cnt : Int := s.max_cnt - s.cur_pts.length
  { s with
    n_pts := if 0 < n_max_cnt then env.goodFeaturesToTrack s.cur_img n_max_cnt P.MIN_DIST s.mask
             else [] }

/-- One pass of the loop over `n_pts`: the corner is appended with identity `n_id++` and
track count 1. -/
def FeatureTracker.addPoint (s : FeatureTracker) (p : Point2f) : FeatureTracker :=
  { s with
    cur_pts := s.cur_pts ++ [p]
    ids := s.ids ++ [s.n_id]
    track_cnt := s.track_cnt ++ [1]
    n_id := s.n_id + 1 }

/-- The loop `for (auto &p : n_pts)` of `trackImage`. -/
def FeatureTracker.addNewPoints (s : FeatureTracker) : FeatureTracker :=
  s.n_pts.foldl FeatureTracker.addPoint s

/-- The geometry step: `cur_un_pts = undistortedPts(cur_pts, m_camera[0])` and
`pts_velocity = ptsVelocity(ids, cur_un_pts, cur_un_pts_map, prev_un_pts_map)`. -/
def FeatureTracker.geometry (env : Env) (s : FeatureTracker) : FeatureTracker :=
  let cur_un_pts := undistortedPts env s.cur_pts 0
  let v := s.ptsVelocity env s.ids cur_un_pts s.prev_un_pts_map
  { s with
    cur_un_pts := cur_un_pts
    pts_velocity := v.1
    cur_un_pts_map := v.2.1
    mean_optical_flow_speed := v.2.2 }

/-- The left-to-right optical flow of the stereo block: `cur_right_pts` and `status`. -/
def FeatureTracker.stereoLK (env : Env) (s : FeatureTracker) (rightImg : Mat) :
    List Point2f × List Nat :=
  env.calcOpticalFlowPyrLK s.cur_img rightImg s.cur_pts [] 3 false

/-- The status of the stereo block, after the right-to-left check when `FLOW_BACK` is
set. -/
def FeatureTracker.stereoStatus (env : Env) (P : Params) (s : FeatureTracker) (rightImg : Mat) :
    List Nat :=
  let lk := s.stereoLK env rightImg
  if P.FLOW_BACK then
    let rev := env.calcOpticalFlowPyrLK rightImg s.cur_img lk.1 [] 3 false
    flowBackLoop (fun i => decide (readAt (env.oobStatus 13) rev.2 i ≠ 0) &&
      s.inBorder (readAt (env.oobPoint 4) lk.1 i) &&
      distanceLeHalf (readAt (env.oobPoint 5) s.cur_pts i) (readAt (env.oobPoint 6) rev.1 i))
      0 lk.2
  else lk.2

/-- The stereo block of `trackImage` (`if (!_img1.empty() && stereo) ...`): the right-view
sequences are cleared and, when `cur_pts` is not empty, rebuilt from the left-to-right
flow; `ids_right` is a copy of `ids` reduced by the status. -/
def FeatureTracker.stereoTrack (env : Env) (P : Params) (s : FeatureTracker) (rightImg : Mat) :
    FeatureTracker :=
  let s2 : FeatureTracker :=
    if s.cur_pts ≠ [] then
      let status := s.stereoStatus env P rightImg
      let cur_right_pts := reduceVector (env.oobStatus 10) (s.stereoLK env rightImg).1 status
      let ids_right := reduceVector (env.oobStatus 11) s.ids status
      let cur_un_right_pts := undistortedPts env cur_right_pts 1
      let v := s.ptsVelocity env ids_right cur_un_right_pts s.prev_un_right_pts_map
      { s with
        cur_right_pts := cur_right_pts
        ids_right := ids_right
        cur_un_right_pts := cur_un_right_pts
        right_pts_velocity := v.1
        cur_un_right_pts_map := v.2.1
        mean_optical_flow_speed := v.2.2 }
    else
      { s with
        ids_right := []
        cur_right_pts := []
        cur_un_right_pts := []
        right_pts_velocity := []
        cur_un_right_pts_map := [] }
  { s2 with prev_un_right_pts_map := s2.cur_un_right_pts_map }

/-- The loop `prevLeftPtsMap[ids[i]] = cur_pts[i]` over the indices of `cur_pts`. -/
def fillLeftPtsMap (idAt : Nat → Int) : Nat → List Point2f → IdMap Point2f → IdMap Point2f
  | _, [], m => m
  | i, p :: rest, m => fillLeftPtsMap idAt (i + 1) rest (m.assign (idAt i) p)

/-- The promotion of the current frame to the previous one at the end of `trackImage`. -/
def FeatureTracker.promote (env : Env) (s : FeatureTracker) : FeatureTracker :=
  { s with
    prev_img := s.cur_img
    prev_pts := s.cur_pts
    prev_un_pts := s.cur_un_pts
    prev_un_pts_map := s.cur_un_pts_map
    prev_time := s.cur_time
    hasPrediction := false
    prevLeftPtsMap := fillLeftPtsMap (readAt (env.oobInt 3) s.ids) 0 s.cur_pts [] }

/-- The left-view record built for index `i` in the emission loop. -/
def FeatureTracker.leftRecord (env : Env) (s : FeatureTracker) (i : Nat) : FeaturePerFrame :=
  let un := readAt (env.oobPoint 8) s.cur_un_pts i
  let hasDepth : Bool := s.depth && decide (readAt (env.oobDouble 0) s.pts_depth i > 0)
  { FeaturePerFrame.blank with
    point := ⟨un.x, un.y, 1⟩
    uv := readAt (env.oobPoint 9) s.cur_pts i
    velocity := readAt (env.oobPoint 10) s.pts_velocity i
    is_depth := hasDepth
    is_stereo := false
    depth := if hasDepth then readAt (env.oobDouble 0) s.pts_depth i else -1 }

/-- The first emission loop: `featureFrame[ids[i]] = featurePt` for every index of `ids`. -/
def FeatureTracker.emitLeft (env : Env) (s : FeatureTracker) :
    Nat → List Int → IdMap FeaturePerFrame → IdMap FeaturePerFrame
  | _, [], m => m
  | i, feature_id :: rest, m => s.emitLeft env (i + 1) rest (m.assign feature_id (s.leftRecord env i))

/-- The access `m[k]` followed by assignments to fields of the record: the record under
`k` (a blank one is inserted when `k` is not a key) is replaced by `f` of it. -/
def updateRecord (m : IdMap FeaturePerFrame) (k : Int) (f : FeaturePerFrame → FeaturePerFrame) :
    IdMap FeaturePerFrame :=
  match m with
  | [] => [(k, f FeaturePerFrame.blank)]
  | (k', v) :: rest => if k' = k then (k', f v) :: rest else (k', v) :: updateRecord rest k f

/-- The second emission loop, over the indices of `ids_right`: the right-view fields of the
record under `ids_right[i]` are assigned and its `is_stereo` is set. -/
def FeatureTracker.emitRight (env : Env) (s : FeatureTracker) :
    Nat → List Int → IdMap FeaturePerFrame → IdMap FeaturePerFrame
  | _, [], m => m
  | i, feature_id :: rest, m =>
    let un := readAt (env.oobPoint 11) s.cur_un_right_pts i
    s.emitRight env (i + 1) rest (updateRecord m feature_id (fun r =>
      { r with
        pointRight := ⟨un.x, un.y, 1⟩
        uvRight := readAt (env.oobPoint 12) s.cur_right_pts i
        velocityRight := readAt (env.oobPoint 13) s.right_pts_velocity i
        is_stereo := true }))

/-- The map `featureFrame` returned by `trackImage` and `trackImageGPU`. -/
def FeatureTracker.emit (env : Env) (s : FeatureTracker) (_img1 : Mat) : IdMap FeaturePerFrame :=
  let featureFrame := s.emitLeft env 0 s.ids []
  if !_img1.empty && s.stereo then s.emitRight env 0 s.ids_right featureFrame else featureFrame

/-- The state in which `trackImage` enters its temporal block: time stamp, image size
(taken from the image held in `cur_img` at entry), new current image, `cur_pts` cleared. -/
def FeatureTracker.beginFrame (env : Env) (P : Params) (s : FeatureTracker) (_cur_time : ℚ)
    (_img : Mat) : FeatureTracker :=
  { s with
    cur_time := _cur_time
    row := s.cur_img.rows
    col := s.cur_img.cols
    cur_img := if P.EQUALIZE then env.clahe _img else _img
    cur_pts := [] }

/-- The stereo or depth augmentation of `trackImage`. -/
def FeatureTracker.augment (env : Env) (P : Params) (s : FeatureTracker) (_img1 : Mat) :
    FeatureTracker :=
  let rightImg := if P.EQUALIZE && s.stereo && !_img1.empty then env.clahe _img1 else _img1
  if !_img1.empty && s.stereo then s.stereoTrack env P rightImg
  else if !_img1.empty && s.depth then s.setDepth P _img1
  else s

/-- The tracker state after `trackImage(_cur_time, _img, _img1)`. -/
def FeatureTracker.trackImageState (env : Env) (P : Params) (s : FeatureTracker) (_cur_time : ℚ)
    (_img _img1 : Mat) : FeatureTracker :=
  let s1 := ((s.beginFrame env P _cur_time _img).temporalFlow env P).ageTracks
  let s2 := (((s1.rejectWithF env P).setMask env P).detect env P).addNewPoints
  (((s2.geometry env).augment env P _img1).promote env)

/-- The function `trackImage(_cur_time, _img, _img1)`: the new tracker state and the
returned map. -/
def FeatureTracker.trackImage (env : Env) (P : Params) (s : FeatureTracker) (_cur_time : ℚ)
    (_img _img1 : Mat) : FeatureTracker × IdMap FeaturePerFrame :=
  let s' := s.trackImageState env P _cur_time _img _img1
  (s', s'.emit env _img1)

/-! ### `trackImage` on 32-bit `int` -/

/-- The largest value of an `int`, `INT_MAX`. -/
def INT_MAX : Int := 2147483647

/-- The value a 32-bit `int` holds after the result `x` is stored in it: wrap-around in two's
complement.  (C++ leaves the overflow of `int` undefined; the increment wraps on the
targets the tracker is built for.) -/
def wrapInt32 (x : Int) : Int := (x + 2147483648) % 4294967296 - 2147483648

/-- The loop `for (auto &n : track_cnt) n++` on 32-bit `int`. -/
def FeatureTracker.ageTracksInt32 (s : FeatureTracker) : FeatureTracker :=
  { s with track_cnt := s.track_cnt.map (fun n => wrapInt32 (n + 1)) }

/-- One pass of the loop over `n_pts` on 32-bit `int`: the corner is appended with identity
`n_id++` and track count 1. -/
def FeatureTracker.addPointInt32 (s : FeatureTracker) (p : Point2f) : FeatureTracker :=
  { s with
    cur_pts := s.cur_pts ++ [p]
    ids := s.ids ++ [s.n_id]
    track_cnt := s.track_cnt ++ [1]
    n_id := wrapInt32 (s.n_id + 1) }

/-- The loop `for (auto &p : n_pts)` of `trackImage` on 32-bit `int`. -/
def FeatureTracker.addNewPointsInt32 (s : FeatureTracker) : FeatureTracker :=
  s.n_pts.foldl FeatureTracker.addPointInt32 s

/-- The tracker state after `trackImage(_cur_time, _img, _img1)` on 32-bit `int`: as
`trackImageState`, with the two increments wrapping. -/
def FeatureTracker.trackImageStateInt32 (env : Env) (P : Params) (s : FeatureTracker)
    (_cur_time : ℚ) (_img _img1 : Mat) : FeatureTracker :=
  let s1 := ((s.beginFrame env P _cur_time _img).temporalFlow env P).ageTracksInt32
  let s2 := (((s1.rejectWithF env P).setMask env P).detect env P).addNewPointsInt32
  (((s2.geometry env).augment env P _img1).promote env)

/-- The function `trackImage(_cur_time, _img, _img1)` on 32-bit `int`: the new tracker state
and the returned map. -/
def FeatureTracker.trackImageInt32 (env : Env) (P : Params) (s : FeatureTracker)
    (_cur_time : ℚ) (_img _img1 : Mat) : FeatureTracker × IdMap FeaturePerFrame :=
  let s' := s.trackImageStateInt32 env P _cur_time _img _img1
  (s', s'.emit env _img1)

/-! ### `setPrediction`, `removeOutliers` -/

/-- The loop of `setPrediction` over the indices of `ids`: the projected prediction when
the identity has one, `prev_pts[i]` otherwise. -/
def predictLoop (env : Env) (predictPts : IdMap Vector3d) (prevAt : Nat → Point2f) :
    Nat → List Int → List Point2f × List Point2f
  | _, [] => ([], [])
  | i, id :: rest =>
    let r := predictLoop env predictPts prevAt (i + 1) rest
    match predictPts.find id with
    | some ray => (env.spaceToPlane 0 ray :: r.1, env.spaceToPlane 0 ray :: r.2)
    | Option.none => (prevAt i :: r.1, r.2)

/-- The function `setPrediction(predictPts)`. -/
def FeatureTracker.setPrediction (env : Env) (s : FeatureTracker) (predictPts : IdMap Vector3d) :
    FeatureTracker :=
  let r := predictLoop env predictPts (readAt (env.oobPoint 7) s.prev_pts) 0 s.ids
  { s with hasPrediction := true, predict_pts := r.1, predict_pts_debug := r.2 }

/-- The function `removeOutliers(removePtsIds)`. -/
def FeatureTracker.removeOutliers (env : Env) (s : FeatureTracker) (removePtsIds : Finset Int) :
    FeatureTracker :=
  let status : List Nat := s.ids.map (fun id => if id ∈ removePtsIds then 0 else 1)
  { s with
    prev_pts := reduceVector (env.oobStatus 14) s.prev_pts status
    ids := reduceVector (env.oobStatus 15) s.ids status
    track_cnt := reduceVector (env.oobStatus 16) s.track_cnt status }

/-! ### `trackImageGPU` -/

/-- The function `buildImagePyramid(img, maxLevel_)`: `maxLevel_ + 1` levels, each the
`pyrDown` of the one before. -/
def buildImagePyramid (env : Env) (img : Mat) (maxLevel_ : Nat) : List Mat :=
  List.iterate env.pyrDown img (maxLevel_ + 1)

/-- The body of the inner loop of the pairwise suppression, for the pair `(i, j)`: when the
two points are closer than `MIN_DIST`, the status of the one with the lower track count is
cleared (that of `j` on a tie). -/
def gpuPairStep (MIN_DIST : Int) (ptAt : Nat → Point2f) (cntAt : Nat → Int) (i : Nat)
    (status : List Nat) (j : Nat) : List Nat :=
  if distSq (ptAt i) (ptAt j) < ((MIN_DIST * MIN_DIST : Int) : ℚ) then
    if cntAt i < cntAt j then status.set i 0 else status.set j 0
  else status

/-- The body of the outer loop of `trackImageGPU` for index `i` of `cur_pts`: the border
test for `i`, then the inner loop over `j = i + 1, ..., |cur_pts| - 1`. -/
def gpuSuppressStep (MIN_DIST : Int) (inB : Point2f → Bool) (n : Nat) (ptAt : Nat → Point2f)
    (cntAt : Nat → Int) (stAt : List Nat → Nat → Nat) (status : List Nat) (i : Nat) : List Nat :=
  let status1 := if stAt status i ≠ 0 ∧ inB (ptAt i) = false then status.set i 0 else status
  (List.range' (i + 1) (n - (i + 1))).foldl (gpuPairStep MIN_DIST ptAt cntAt i) status1

/-- The border and pairwise suppression loop of `trackImageGPU` over the `n` indices of
`cur_pts`. -/
def gpuSuppress (MIN_DIST : Int) (inB : Point2f → Bool) (n : Nat) (ptAt : Nat → Point2f)
    (cntAt : Nat → Int) (stAt : List Nat → Nat → Nat) (status : List Nat) : List Nat :=
  (List.range n).foldl (gpuSuppressStep MIN_DIST inB n ptAt cntAt stAt) status

/-- The forward optical flow of the temporal block of `trackImageGPU`. -/
def FeatureTracker.flowLKGPU (env : Env) (s : FeatureTracker) (cur_pyr : List Mat) :
    List Point2f × List Nat :=
  if s.hasPrediction then
    let first := env.sparsePyrLK s.prev_pyr cur_pyr s.prev_pts s.predict_pts true
    if succNum first.2 < 10 then env.sparsePyrLK s.prev_pyr cur_pyr s.prev_pts first.1 false
    else first
  else env.sparsePyrLK s.prev_pyr cur_pyr s.prev_pts s.cur_pts false

/-- The combined status of the temporal block of `trackImageGPU`: the flow status, after
the round-trip check when `FLOW_BACK` is set, after the border and pairwise suppression
loop. -/
def FeatureTracker.flowStatusGPU (env : Env) (P : Params) (s : FeatureTracker)
    (cur_pyr : List Mat) : List Nat :=
  let lk := s.flowLKGPU env cur_pyr
  let status1 :=
    if P.FLOW_BACK then
      let rev := env.sparsePyrLK cur_pyr s.prev_pyr lk.1 s.prev_pts true
      flowBackLoop (fun i => decide (readAt (env.oobStatus 21) rev.2 i ≠ 0) &&
        distanceLeHalf (readAt (env.oobPoint 14) s.prev_pts i) (readAt (env.oobPoint 15) rev.1 i))
        0 lk.2
    else lk.2
  gpuSuppress P.MIN_DIST s.inBorder lk.1.length (readAt (env.oobPoint 16) lk.1)
    (readAt (env.oobInt 4) s.track_cnt) (readAt (env.oobStatus 22)) status1

/-- The temporal block of `trackImageGPU` (`if (prev_pts.size() > 0 && cur_time > 0.0)`). -/
def FeatureTracker.temporalFlowGPU (env : Env) (P : Params) (s : FeatureTracker)
    (cur_pyr : List Mat) : FeatureTracker :=
  if 0 < s.prev_pts.length ∧ 0 < s.cur_time then
    let status := s.flowStatusGPU env P cur_pyr
    let cur_pts := reduceVector (env.oobStatus 18) (s.flowLKGPU env cur_pyr).1 status
    { s with
      prev_pts := reduceVector (env.oobStatus 17) s.prev_pts status
      cur_pts := cur_pts
      ids := reduceVector (env.oobStatus 19) s.ids status
      track_cnt := reduceVector (env.oobStatus 20) s.track_cnt status
      track_num := cur_pts.length
      track_percentage := (cur_pts.length : ℚ) / (s.prev_pts.length : ℚ) }
  else s

/-- The detection step of `trackImageGPU`: up to `max_cnt` corners, without a mask. -/
def FeatureTracker.detectGPU (env : Env) (P : Params) (s : FeatureTracker) (_img : Mat) :
    FeatureTracker :=
  { s with n_pts := if 0 < s.max_cnt then env.detectGPU _img s.max_cnt P.MIN_DIST else [] }

/-- The test `close_new_pt`: some point of `cur_pts` is within `MIN_DIST` of `p`. -/
def closeNewPt (MIN_DIST : Int) (cur_pts : List Point2f) (p : Point2f) : Bool :=
  cur_pts.any (fun cur_p => decide (distSq cur_p p ≤ ((MIN_DIST * MIN_DIST : Int) : ℚ)))

/-- The replenishment loop of `trackImageGPU` over the candidates: it stops once
`cur_pts.size() >= max_cnt` (an unsigned 64-bit comparison) and appends a candidate that is
not close to a point of `cur_pts`. -/
def FeatureTracker.replenish (P : Params) : FeatureTracker → List Point2f → FeatureTracker
  | s, [] => s
  | s, p :: rest =>
    if s.max_cnt % 2 ^ 64 ≤ (s.cur_pts.length : Int) then s
    else if closeNewPt P.MIN_DIST s.cur_pts p then FeatureTracker.replenish P s rest
    else FeatureTracker.replenish P (s.addPoint p) rest

/-- The promotion at the end of `trackImageGPU` (`prev_img` is not assigned there). -/
def FeatureTracker.promoteGPU (env : Env) (s : FeatureTracker) : FeatureTracker :=
  { s with
    prev_pts := s.cur_pts
    prev_un_pts := s.cur_un_pts
    prev_un_pts_map := s.cur_un_pts_map
    prev_time := s.cur_time
    hasPrediction := false
    prevLeftPtsMap := fillLeftPtsMap (readAt (env.oobInt 3) s.ids) 0 s.cur_pts [] }

/-- The augmentation of `trackImageGPU`: nothing in stereo mode, `setDepth` in depth
mode. -/
def FeatureTracker.augmentGPU (P : Params) (s : FeatureTracker) (_img1 : Mat) : FeatureTracker :=
  if !_img1.empty && s.stereo then s
  else if !_img1.empty && s.depth then s.setDepth P _img1
  else s

/-- The tracker state after `trackImageGPU(_cur_time, _img, _img1)`. -/
def FeatureTracker.trackImageGPUState (env : Env) (P : Params) (s : FeatureTracker)
    (_cur_time : ℚ) (_img _img1 : Mat) : FeatureTracker :=
  let cur_pyr := buildImagePyramid env _img 3
  let s0 : FeatureTracker :=
    { s with cur_time := _cur_time, row := _img.rows, col := _img.cols, cur_pts := [] }
  let s1 : FeatureTracker := { s0.temporalFlowGPU env P cur_pyr with prev_pyr := cur_pyr }
  let s2 := (s1.ageTracks.detectGPU env P _img)
  let s3 := FeatureTracker.replenish P s2 s2.n_pts
  (((s3.geometry env).augmentGPU P _img1).promoteGPU env)

/-- The function `trackImageGPU(_cur_time, _img, _img1)`: the new tracker state and the
returned map. -/
def FeatureTracker.trackImageGPU (env : Env) (P : Params) (s : FeatureTracker) (_cur_time : ℚ)
    (_img _img1 : Mat) : FeatureTracker × IdMap FeaturePerFrame :=
  let s' := s.trackImageGPUState env P _cur_time _img _img1
  (s', s'.emit env _img1)

/-! ## Assumptions on the external routines, and runs of the tracker -/

/-- The optical-flow routines return one point and one status entry per input point. -/
def FlowOK (env : Env) : Prop :=
  (∀ a b prev nxt lvl f,
    (env.calcOpticalFlowPyrLK a b prev nxt lvl f).1.length = prev.length ∧
    (env.calcOpticalFlowPyrLK a b prev nxt lvl f).2.length = prev.length) ∧
  (∀ a b prev nxt f,
    (env.sparsePyrLK a b prev nxt f).1.length = prev.length ∧
    (env.sparsePyrLK a b prev nxt f).2.length = prev.length)

/-- The fundamental-matrix routine returns one status entry per input point. -/
def RansacOK (env : Env) : Prop :=
  ∀ a b thr, (env.findFundamentalMat a b thr).length = a.length

/-- The sort returns its input rearranged, in non-increasing order of track count. -/
def SortOK (env : Env) : Prop :=
  ∀ l, (env.stdSort l).Perm l ∧ (env.stdSort l).Pairwise (fun a b => b.1 ≤ a.1)

/-- The assumptions on the external routines together. -/
def OraclesOK (env : Env) : Prop := FlowOK env ∧ RansacOK env ∧ SortOK env

/-- A call of one of the public mutators of the tracker, with the external routines it
runs against. -/
inductive Call where
  | trackImage (env : Env) (P : Params) (_cur_time : ℚ) (_img _img1 : Mat) : Call
  | removeOutliers (env : Env) (removePtsIds : Finset Int) : Call
  | setPrediction (env : Env) (predictPts : IdMap Vector3d) : Call
  | set_max_feature_num (max_feature_num : Int) : Call

/-- The tracker state after a call. -/
def Call.apply : Call → FeatureTracker → FeatureTracker
  | Call.trackImage env P t img img1, s => (s.trackImage env P t img img1).1
  | Call.removeOutliers env S, s => s.removeOutliers env S
  | Call.setPrediction env pred, s => s.setPrediction env pred
  | Call.set_max_feature_num n, s => s.set_max_feature_num n

/-- Whether the call is a `trackImage` call (a frame). -/
def Call.isFrame : Call → Bool
  | Call.trackImage _ _ _ _ _ => true
  | _ => false

/-- The external routines of the call satisfy `OraclesOK`. -/
def Call.ok : Call → Prop
  | Call.trackImage env _ _ _ _ => OraclesOK env
  | _ => True

/-- The tracker state after a sequence of calls. -/
def run (s : FeatureTracker) (calls : List Call) : FeatureTracker :=
  calls.foldl (fun st c => c.apply st) s

/-- A state reached from a freshly constructed tracker by a sequence of `trackImage`,
`removeOutliers`, `setPrediction` and `set_max_feature_num` calls, the external routines
being well behaved. -/
def Reachable (s : FeatureTracker) : Prop :=
  ∃ (is_depth is_stereo : Bool) (feature_max_cnt : Int) (calls : List Call),
    (∀ c ∈ calls, c.ok) ∧ s = run (FeatureTracker.create is_depth is_stereo feature_max_cnt) calls

/-- Status `st'` has the length of `st` and is zero wherever `st` is zero. -/
def ZerosKept (st st' : List Nat) : Prop :=
  st'.length = st.length ∧ ∀ k : Nat, st[k]? = some 0 → st'[k]? = some 0

/-- The number of `trackImage` calls in a sequence of calls. -/
def frameCount (calls : List Call) : Nat := (calls.filter Call.isFrame).length

/-- The alignment and identity facts that every call preserves: `prev_pts`, `ids` and
`track_cnt` have one length, the identities are pairwise distinct and below `n_id`, the keys
of `prev_un_pts_map` are below `n_id`, every track count is at least 1. -/
def Inv (s : FeatureTracker) : Prop :=
  s.prev_pts.length = s.ids.length ∧ s.ids.length = s.track_cnt.length ∧ s.ids.Nodup ∧
  (∀ id ∈ s.ids, id < s.n_id) ∧ (∀ k ∈ s.prev_un_pts_map.keys, k < s.n_id) ∧
  (∀ c ∈ s.track_cnt, 1 ≤ c) ∧ 0 ≤ s.n_id

/-- The effect of a call on 32-bit `int`. -/
def Call.applyInt32 : Call → FeatureTracker → FeatureTracker
  | Call.trackImage env P t img img1, s => (s.trackImageInt32 env P t img img1).1
  | Call.removeOutliers env S, s => s.removeOutliers env S
  | Call.setPrediction env pred, s => s.setPrediction env pred
  | Call.set_max_feature_num n, s => s.set_max_feature_num n

/-- The tracker state after a sequence of calls on 32-bit `int`. -/
def runInt32 (s : FeatureTracker) (calls : List Call) : FeatureTracker :=
  calls.foldl (fun st c => c.applyInt32 st) s

/-- The `int` values of the state leave room for the increments of the next call: `n_id` is
at most `INT_MAX` and every track count is below `INT_MAX`. -/
def InIntRange (s : FeatureTracker) : Prop :=
  s.n_id ≤ INT_MAX ∧ ∀ c ∈ s.track_cnt, c < INT_MAX

/-- A sequence of calls none of which takes an `int` out of range: computed exactly, the
state before every call and the final state are in range. -/
def RunInRange : FeatureTracker → List Call → Prop
  | s, [] => InIntRange s
  | s, c :: rest => InIntRange s ∧ RunInRange (c.apply s) rest

/-- A state the tracker reaches on 32-bit `int` from a freshly constructed one by a sequence
of calls none of which takes an `int` out of range, the external routines being well
behaved. -/
def ReachableInRange (s : FeatureTracker) : Prop :=
  ∃ (is_depth is_stereo : Bool) (feature_max_cnt : Int) (calls : List Call),
    (∀ c ∈ calls, c.ok) ∧
    RunInRange (FeatureTracker.create is_depth is_stereo feature_max_cnt) calls ∧
    s = runInt32 (FeatureTracker.create is_depth is_stereo feature_max_cnt) calls

/-! ## Sample inputs -/

/-- Sample external routines: the flow moves every point by a quarter pixel to the left and
reports success everywhere, RANSAC keeps every point, the detectors return the corners
`(1, 5)` and `(40, 40)` (those the mask allows, as many as asked for), the sort is an
insertion sort, the cameras are ideal pinholes. -/
def sampleEnv : Env where
  clahe := fun img => img
  calcOpticalFlowPyrLK := fun _ _ prev _ _ _ =>
    (prev.map (fun p => ⟨p.x - 1 / 4, p.y⟩), prev.map (fun _ => 1))
  sparsePyrLK := fun _ _ prev _ _ =>
    (prev.map (fun p => ⟨p.x - 1 / 4, p.y⟩), prev.map (fun _ => 1))
  pyrDown := fun img => img
  findFundamentalMat := fun a _ _ => a.map (fun _ => 1)
  goodFeaturesToTrack := fun _ n _ mask =>
    ([(⟨1, 5⟩ : Point2f), ⟨40, 40⟩].filter (fun p => mask.atPoint p.toPoint = 255)).take n.toNat
  detectGPU := fun _ n _ => [(⟨1, 5⟩ : Point2f), ⟨40, 40⟩].take n.toNat
  stdSort := fun l => l.insertionSort (fun a b => b.1 ≤ a.1)
  liftProjective := fun _ p => ⟨p.x, p.y, 1⟩
  spaceToPlane := fun _ v => ⟨v.x, v.y⟩
  oobStatus := fun _ _ => 1
  oobPoint := fun _ _ => ⟨0, 0⟩
  oobInt := fun _ _ => 0
  oobDouble := fun _ _ => 0

/-- Sample external routines whose optical flow fails on every point right of column 20
(and otherwise as `sampleEnv`). -/
def dropRightEnv : Env :=
  { sampleEnv with
    calcOpticalFlowPyrLK := fun _ _ prev _ _ _ =>
      (prev.map (fun p => ⟨p.x - 1 / 4, p.y⟩), prev.map (fun p => if p.x < 20 then 1 else 0)) }

/-- Sample knobs: no equalisation, no round-trip check, `MIN_DIST = 30`. -/
def sampleParams : Params where
  EQUALIZE := false
  FLOW_BACK := false
  SHOW_TRACK := false
  MIN_DIST := 30
  FOCAL_LENGTH := 460
  F_THRESHOLD := 1
  DEPTH_MIN := 1 / 10
  DEPTH_MAX := 10

/-- A sample 100 x 100 image. -/
def sampleImg : Mat := ⟨100, 100, fun _ _ => 128⟩

/-- A mono tracker after its first frame on the sample inputs. -/
def sampleState1 : FeatureTracker :=
  ((FeatureTracker.create false false 10).trackImage sampleEnv sampleParams 0 sampleImg Mat.none).1

/-- A mono tracker after its second frame on the sample inputs (the second frame is the
first whose image size is known to `inBorder`). -/
def sampleState2 : FeatureTracker :=
  (sampleState1.trackImage sampleEnv sampleParams 1 sampleImg Mat.none).1

/-- A mono tracker after its first frame on the GPU path, on the sample inputs. -/
def sampleGpuState1 : FeatureTracker :=
  ((FeatureTracker.create false false 10).trackImageGPU sampleEnv sampleParams 1 sampleImg
    Mat.none).1

/-- A sample 100 x 1000 image (100 rows, 1000 columns). -/
def wideImg : Mat := ⟨100, 1000, fun _ _ => 128⟩

/-- Sample external routines for a frame with nine corners, at `(50 + 100 k, 50)` for
`k = 0, ..., 8`; the optical flow fails on every point right of column 800 (and otherwise
as `sampleEnv`). -/
def nineEnv : Env :=
  { sampleEnv with
    goodFeaturesToTrack := fun _ n _ mask =>
      (((List.range 9).map (fun k => (⟨50 + 100 * (k : ℚ), 50⟩ : Point2f))).filter
        (fun p => mask.atPoint p.toPoint = 255)).take n.toNat
    calcOpticalFlowPyrLK := fun _ _ prev _ _ _ =>
      (prev.map (fun p => ⟨p.x - 1 / 4, p.y⟩), prev.map (fun p => if p.x < 800 then 1 else 0)) }

/-- A mono tracker of at most 20 features after its first frame with nine corners. -/
def nineState1 : FeatureTracker :=
  ((FeatureTracker.create false false 20).trackImage nineEnv sampleParams 0 wideImg Mat.none).1

/-- The state of the second frame of the nine-corner run in which `rejectWithF` is
called: eight of the nine points survived the temporal block. -/
def nineBeforeReject : FeatureTracker :=
  ((nineState1.beginFrame nineEnv sampleParams 1 wideImg).temporalFlow nineEnv
    sampleParams).ageTracks

/-- A sample depth image: every sample is 2000 (two metres). -/
def sampleDepthImg : Mat := ⟨100, 100, fun _ _ => 2000⟩

/-- The sample tracker after its first frame, as it stands once `2 ^ 31 - 1` identities
have been assigned: its two points carry the identities `INT_MAX - 2` and `INT_MAX - 1`,
and `n_id` is `INT_MAX`. -/
def lastIdState : FeatureTracker :=
  { sampleState1 with
    ids := [2147483645, 2147483646]
    n_id := 2147483647
    cur_un_pts_map := [(2147483645, ⟨1, 5⟩), (2147483646, ⟨40, 40⟩)]
    prev_un_pts_map := [(2147483645, ⟨1, 5⟩), (2147483646, ⟨40, 40⟩)]
    prevLeftPtsMap := [(2147483645, ⟨1, 5⟩), (2147483646, ⟨40, 40⟩)] }

/-- The sample tracker after its first frame, as it stands once its first point has been
observed in `2 ^ 31 - 1` frames: the track count of identity 0 is `INT_MAX`. -/
def oldTrackState : FeatureTracker :=
  { sampleState1 with track_cnt := [2147483647, 1] }

/-- A depth image of constant sample 2000 except for the sample 3000 at row 20, column 10. -/
def spikeDepthImg : Mat := ⟨100, 100, fun r c => if r = 20 ∧ c = 10 then 3000 else 2000⟩

/-- A depth-mode tracker in a 100 x 100 image holding the one point `(10.6, 20.7)`. -/
def subPixelDepthState : FeatureTracker :=
  { FeatureTracker.create true false 10 with
    row := 100
    col := 100
    cur_pts := [⟨53 / 5, 207 / 10⟩]
    ids := [0]
    track_cnt := [1]
    n_id := 1 }

/-- An input to `setMask`: three points in a 100 x 100 image, of track counts 1, 5 and 3;
the first lies 14.2 pixels from the second. -/
def crowdedState : FeatureTracker :=
  { FeatureTracker.create false false 10 with
    row := 100
    col := 100
    cur_pts := [⟨10, 10⟩, ⟨20, 20⟩, ⟨80, 80⟩]
    ids := [0, 1, 2]
    track_cnt := [1, 5, 3]
    n_id := 3 }

/-- An input to `setMask`: two points of track count 2 in a 100 x 100 image, at sub-pixel
distance below 30. -/
def closePairState : FeatureTracker :=
  { FeatureTracker.create false false 10 with
    row := 100
    col := 100
    cur_pts := [⟨52 / 5, 52 / 5⟩, ⟨158 / 5, 158 / 5⟩]
    ids := [0, 1]
    track_cnt := [2, 2]
    n_id := 2 }

/-! # Theorems -/

/-! ## Lemmas on `reduceVector` -/

theorem readAt_of_lt {α : Type} (oob : Nat → α) (v : List α) (i : Nat) (h : i < v.length) :
    readAt oob v i = v[i] := by
  simp [readAt, List.getD_eq_getElem?_getD, List.getElem?_eq_getElem h]

theorem readAt_cons_succ {α : Type} (oob : Nat → α) (a : α) (v : List α) (i : Nat) :
    readAt oob (a :: v) (i + 1) = readAt (fun j => oob (j + 1)) v i := by
  simp [readAt]

theorem reduceVectorLoop_congr {α : Type} (r1 r2 : Nat → Nat) (v : List α) :
    ∀ i, (∀ j, i ≤ j → j < i + v.length → r1 j = r2 j) →
      reduceVectorLoop r1 i v = reduceVectorLoop r2 i v := by
  induction v with
  | nil => intro i _; rfl
  | cons a rest ih =>
    intro i h
    have h0 : r1 i = r2 i := h i (le_refl i) (by simp)
    have hrest : reduceVectorLoop r1 (i + 1) rest = reduceVectorLoop r2 (i + 1) rest :=
      ih (i + 1) (fun j hj1 hj2 => h j (by omega) (by simp; omega))
    simp [reduceVectorLoop, h0, hrest]

theorem reduceVectorLoop_length {α β : Type} (r : Nat → Nat) (v : List α) :
    ∀ (w : List β) (i : Nat), v.length = w.length →
      (reduceVectorLoop r i v).length = (reduceVectorLoop r i w).length := by
  induction v with
  | nil => intro w i h; cases w with
    | nil => rfl
    | cons b w => simp at h
  | cons a rest ih =>
    intro w i h
    cases w with
    | nil => simp at h
    | cons b w =>
      have := ih w (i + 1) (by simpa using h)
      by_cases hr : r i = 0 <;> simp [reduceVectorLoop, hr, this]

theorem reduceVectorLoop_sublist {α : Type} (r : Nat → Nat) (v : List α) :
    ∀ i, (reduceVectorLoop r i v).Sublist v := by
  induction v with
  | nil => intro i; exact List.Sublist.slnil
  | cons a rest ih =>
    intro i
    by_cases hr : r i = 0
    · simp only [reduceVectorLoop, hr, ne_eq, not_true_eq_false, if_false]
      exact (ih (i + 1)).cons a
    · simp only [reduceVectorLoop, hr, ne_eq, not_false_eq_true, if_true]
      exact (ih (i + 1)).cons₂ a

theorem reduceVectorLoop_zip {α β : Type} (r : Nat → Nat) (v : List α) :
    ∀ (w : List β) (i : Nat),
      reduceVectorLoop r i (v.zip w) = (reduceVectorLoop r i v).zip (reduceVectorLoop r i w) := by
  induction v with
  | nil => intro w i; simp [reduceVectorLoop]
  | cons a rest ih =>
    intro w i
    cases w with
    | nil => simp [reduceVectorLoop]
    | cons b w =>
      have h := ih w (i + 1)
      rw [List.zip_cons_cons]
      simp only [reduceVectorLoop]
      by_cases hr : r i = 0
      · simp only [hr, ne_eq, not_true_eq_false, if_false]; exact h
      · simp only [hr, ne_eq, not_false_eq_true, if_true, List.zip_cons_cons]; rw [h]

theorem reduceVectorLoop_map {α β : Type} (f : α → β) (r : Nat → Nat) (v : List α) :
    ∀ i, reduceVectorLoop r i (v.map f) = (reduceVectorLoop r i v).map f := by
  induction v with
  | nil => intro i; rfl
  | cons a rest ih =>
    intro i
    by_cases hr : r i = 0 <;> simp [reduceVectorLoop, hr, ih]

theorem reduceVector_sublist {α : Type} (oob : Nat → Nat) (v : List α) (status : List Nat) :
    (reduceVector oob v status).Sublist v :=
  reduceVectorLoop_sublist _ v 0

/-- Within the bounds of `status` the result of `reduceVector` does not depend on what
is read beyond its end. -/
theorem reduceVector_oob_irrel {α : Type} (oob oob' : Nat → Nat) (v : List α) (status : List Nat)
    (h : v.length ≤ status.length) :
    reduceVector oob v status = reduceVector oob' v status := by
  unfold reduceVector
  apply reduceVectorLoop_congr
  intro j _ hj
  rw [readAt_of_lt _ _ _ (by omega), readAt_of_lt _ _ _ (by omega)]

theorem reduceVector_length_eq {α β : Type} (oob oob' : Nat → Nat) (v : List α) (w : List β)
    (status : List Nat) (hvw : v.length = w.length) (h : v.length ≤ status.length) :
    (reduceVector oob v status).length = (reduceVector oob' w status).length := by
  rw [reduceVector_oob_irrel oob oob' v status h]
  exact reduceVectorLoop_length _ v w 0 hvw

theorem reduceVectorLoop_shift {α : Type} (r : Nat → Nat) (v : List α) :
    ∀ i, reduceVectorLoop r (i + 1) v = reduceVectorLoop (fun j => r (j + 1)) i v := by
  induction v with
  | nil => intro i; rfl
  | cons a rest ih => intro i; simp [reduceVectorLoop, ih]

theorem reduceVector_nil {α : Type} (oob : Nat → Nat) (status : List Nat) :
    reduceVector oob ([] : List α) status = [] := rfl

theorem reduceVector_cons_cons {α : Type} (oob : Nat → Nat) (a : α) (v : List α) (st : Nat)
    (status : List Nat) :
    reduceVector oob (a :: v) (st :: status) =
      if st ≠ 0 then a :: reduceVector (fun j => oob (j + 1)) v status
      else reduceVector (fun j => oob (j + 1)) v status := by
  have h : reduceVectorLoop (readAt oob (st :: status)) 1 v
      = reduceVectorLoop (readAt (fun j => oob (j + 1)) status) 0 v := by
    rw [reduceVectorLoop_shift]
    apply reduceVectorLoop_congr
    intro j _ _
    exact readAt_cons_succ oob st status j
  simp [reduceVector, reduceVectorLoop, readAt, h]

/-- With a status at least as long as `v`, `reduceVector` keeps exactly the elements whose
status is non-zero, in order. -/
theorem reduceVector_eq_filter {α : Type} (v : List α) :
    ∀ (oob : Nat → Nat) (status : List Nat), v.length ≤ status.length →
      reduceVector oob v status = ((v.zip status).filter (fun p => decide (p.2 ≠ 0))).map Prod.fst := by
  induction v with
  | nil => intro oob status _; simp [reduceVector_nil]
  | cons a rest ih =>
    intro oob status h
    cases status with
    | nil => simp at h
    | cons st status =>
      rw [reduceVector_cons_cons, ih _ status (by simpa using h)]
      by_cases hst : st = 0 <;> simp [hst]

/-! ## Lengths through the stages of `trackImage` -/

theorem flowBackLoop_length (ok : Nat → Bool) (status : List Nat) :
    ∀ i, (flowBackLoop ok i status).length = status.length := by
  induction status with
  | nil => intro i; rfl
  | cons st rest ih => intro i; simp [flowBackLoop, ih]

theorem borderStatus_length (inB : Point2f → Bool) (pts : List Point2f) :
    ∀ status, (borderStatus inB pts status).length = status.length := by
  induction pts with
  | nil => intro status; cases status <;> rfl
  | cons p pts ih =>
    intro status
    cases status with
    | nil => rfl
    | cons st status => simp [borderStatus, ih]

theorem flowLK_length (env : Env) (s : FeatureTracker) (h : FlowOK env) :
    (s.flowLK env).1.length = s.prev_pts.length ∧ (s.flowLK env).2.length = s.prev_pts.length := by
  unfold FeatureTracker.flowLK
  dsimp only
  split_ifs <;> exact h.1 _ _ _ _ _ _

theorem flowStatus_length (env : Env) (P : Params) (s : FeatureTracker) (h : FlowOK env) :
    (s.flowStatus env P).length = s.prev_pts.length := by
  unfold FeatureTracker.flowStatus
  simp only [borderStatus_length]
  split_ifs
  · rw [flowBackLoop_length]; exact (flowLK_length env s h).2
  · exact (flowLK_length env s h).2

/-- After the temporal block the four sequences it filters have one length. -/
theorem temporalFlow_lengths (env : Env) (P : Params) (s : FeatureTracker) (h : FlowOK env)
    (h1 : s.prev_pts.length = s.ids.length) (h2 : s.ids.length = s.track_cnt.length)
    (hcur : s.cur_pts = []) :
    (s.temporalFlow env P).cur_pts.length = (s.temporalFlow env P).ids.length ∧
    (s.temporalFlow env P).ids.length = (s.temporalFlow env P).track_cnt.length ∧
    (s.temporalFlow env P).prev_pts.length = (s.temporalFlow env P).cur_pts.length := by
  unfold FeatureTracker.temporalFlow
  have hst := flowStatus_length env P s h
  have hlk := flowLK_length env s h
  split_ifs with hp
  · refine ⟨?_, ?_, ?_⟩
    · exact reduceVector_length_eq _ _ _ _ _ (by omega) (by omega)
    · exact reduceVector_length_eq _ _ _ _ _ (by omega) (by omega)
    · exact reduceVector_length_eq _ _ _ _ _ (by omega) (by omega)
  · have h0 : s.prev_pts.length = 0 := by omega
    rw [hcur]
    simp only [List.length_nil]
    omega

theorem ransacStatus_length (env : Env) (P : Params) (s : FeatureTracker) (h : RansacOK env) :
    (s.ransacStatus env P).length = s.cur_pts.length := by
  unfold FeatureTracker.ransacStatus
  simp [h _ _ _]

theorem rejectWithF_lengths (env : Env) (P : Params) (s : FeatureTracker) (h : RansacOK env)
    (h1 : s.cur_pts.length = s.ids.length) (h2 : s.ids.length = s.track_cnt.length) :
    (s.rejectWithF env P).cur_pts.length = (s.rejectWithF env P).ids.length ∧
    (s.rejectWithF env P).ids.length = (s.rejectWithF env P).track_cnt.length := by
  unfold FeatureTracker.rejectWithF
  have hst := ransacStatus_length env P s h
  split_ifs with h8
  · exact ⟨reduceVector_length_eq _ _ _ _ _ (by omega) (by omega),
      reduceVector_length_eq _ _ _ _ _ (by omega) (by omega)⟩
  · exact ⟨h1, h2⟩

theorem setMask_lengths (env : Env) (P : Params) (s : FeatureTracker) :
    (s.setMask env P).cur_pts.length = (s.setMask env P).ids.length ∧
    (s.setMask env P).ids.length = (s.setMask env P).track_cnt.length := by
  simp [FeatureTracker.setMask]

theorem foldl_addPoint_lengths (pts : List Point2f) :
    ∀ s : FeatureTracker, s.cur_pts.length = s.ids.length → s.ids.length = s.track_cnt.length →
      (pts.foldl FeatureTracker.addPoint s).cur_pts.length
        = (pts.foldl FeatureTracker.addPoint s).ids.length ∧
      (pts.foldl FeatureTracker.addPoint s).ids.length
        = (pts.foldl FeatureTracker.addPoint s).track_cnt.length := by
  induction pts with
  | nil => intro s h1 h2; exact ⟨h1, h2⟩
  | cons p rest ih =>
    intro s h1 h2
    exact ih (s.addPoint p) (by simp [FeatureTracker.addPoint, h1])
      (by simp [FeatureTracker.addPoint, h2])

theorem addNewPoints_lengths (s : FeatureTracker)
    (h1 : s.cur_pts.length = s.ids.length) (h2 : s.ids.length = s.track_cnt.length) :
    s.addNewPoints.cur_pts.length = s.addNewPoints.ids.length ∧
    s.addNewPoints.ids.length = s.addNewPoints.track_cnt.length :=
  foldl_addPoint_lengths s.n_pts s h1 h2

theorem velocityLoop_length (idAt : Nat → Int) (prev : IdMap Point2f) (dt : ℚ)
    (pts : List Point2f) : ∀ i, (velocityLoop idAt prev dt i pts).1.length = pts.length := by
  induction pts with
  | nil => intro i; rfl
  | cons p rest ih =>
    intro i
    simp only [velocityLoop]
    split <;> simp [ih]

theorem ptsVelocity_length (env : Env) (s : FeatureTracker) (ids : List Int)
    (pts : List Point2f) (prev : IdMap Point2f) :
    (s.ptsVelocity env ids pts prev).1.length = if prev ≠ [] then pts.length else s.cur_pts.length := by
  unfold FeatureTracker.ptsVelocity
  split_ifs <;> simp [velocityLoop_length]

theorem geometry_lengths (env : Env) (s : FeatureTracker) :
    (s.geometry env).cur_un_pts.length = s.cur_pts.length ∧
    (s.geometry env).pts_velocity.length = s.cur_pts.length ∧
    (s.geometry env).cur_pts = s.cur_pts ∧ (s.geometry env).ids = s.ids ∧
    (s.geometry env).track_cnt = s.track_cnt := by
  refine ⟨by simp [FeatureTracker.geometry, undistortedPts], ?_, rfl, rfl, rfl⟩
  show (s.ptsVelocity env s.ids (undistortedPts env s.cur_pts 0) s.prev_un_pts_map).1.length = _
  rw [ptsVelocity_length]
  split_ifs <;> simp [undistortedPts]

theorem stereoTrack_left (env : Env) (P : Params) (s : FeatureTracker) (rightImg : Mat) :
    (s.stereoTrack env P rightImg).cur_pts = s.cur_pts ∧
    (s.stereoTrack env P rightImg).ids = s.ids ∧
    (s.stereoTrack env P rightImg).track_cnt = s.track_cnt ∧
    (s.stereoTrack env P rightImg).cur_un_pts = s.cur_un_pts ∧
    (s.stereoTrack env P rightImg).pts_velocity = s.pts_velocity := by
  unfold FeatureTracker.stereoTrack
  dsimp only
  split_ifs <;> exact ⟨rfl, rfl, rfl, rfl, rfl⟩

/-- The augmentation step leaves the left-view sequences as they are. -/
theorem augment_left (env : Env) (P : Params) (s : FeatureTracker) (img1 : Mat) :
    (s.augment env P img1).cur_pts = s.cur_pts ∧ (s.augment env P img1).ids = s.ids ∧
    (s.augment env P img1).track_cnt = s.track_cnt ∧
    (s.augment env P img1).cur_un_pts = s.cur_un_pts ∧
    (s.augment env P img1).pts_velocity = s.pts_velocity := by
  unfold FeatureTracker.augment
  dsimp only
  by_cases h1 : (!img1.empty && s.stereo) = true
  · rw [if_pos h1]; exact stereoTrack_left env P s _
  · rw [if_neg h1]
    by_cases h2 : (!img1.empty && s.depth) = true
    · rw [if_pos h2]; exact ⟨rfl, rfl, rfl, rfl, rfl⟩
    · rw [if_neg h2]; exact ⟨rfl, rfl, rfl, rfl, rfl⟩

/-- The lengths of the left-view sequences after `trackImage`. -/
theorem trackImageState_lengths (env : Env) (P : Params) (s : FeatureTracker) (t : ℚ)
    (img img1 : Mat) (hflow : FlowOK env) (hransac : RansacOK env)
    (h1 : s.prev_pts.length = s.ids.length) (h2 : s.ids.length = s.track_cnt.length) :
    (s.trackImage env P t img img1).1.cur_pts.length = (s.trackImage env P t img img1).1.ids.length ∧
    (s.trackImage env P t img img1).1.ids.length
      = (s.trackImage env P t img img1).1.track_cnt.length ∧
    (s.trackImage env P t img img1).1.track_cnt.length
      = (s.trackImage env P t img img1).1.cur_un_pts.length ∧
    (s.trackImage env P t img img1).1.cur_un_pts.length
      = (s.trackImage env P t img img1).1.pts_velocity.length ∧
    (s.trackImage env P t img img1).1.prev_pts.length
      = (s.trackImage env P t img img1).1.ids.length ∧
    (s.trackImage env P t img img1).1.ids.length
      = (s.trackImage env P t img img1).1.track_cnt.length := by
  have ht := temporalFlow_lengths env P (s.beginFrame env P t img) hflow h1 h2 rfl
  have hr := rejectWithF_lengths env P ((s.beginFrame env P t img).temporalFlow env P).ageTracks
    hransac (by simpa [FeatureTracker.ageTracks] using ht.1)
    (by simpa [FeatureTracker.ageTracks] using ht.2.1)
  have hm := setMask_lengths env P
    ((((s.beginFrame env P t img).temporalFlow env P).ageTracks).rejectWithF env P)
  have ha := addNewPoints_lengths
    ((((((s.beginFrame env P t img).temporalFlow env P).ageTracks).rejectWithF env P).setMask
      env P).detect env P) hm.1 hm.2
  obtain ⟨g1, g2, g3, g4, g5⟩ := geometry_lengths env
    ((((((s.beginFrame env P t img).temporalFlow env P).ageTracks).rejectWithF env P).setMask
      env P).detect env P).addNewPoints
  obtain ⟨a1, a2, a3, a4, a5⟩ := augment_left env P
    ((((((((s.beginFrame env P t img).temporalFlow env P).ageTracks).rejectWithF env P).setMask
      env P).detect env P).addNewPoints).geometry env) img1
  simp only [FeatureTracker.trackImage, FeatureTracker.trackImageState, FeatureTracker.promote,
    a1, a2, a3, a4, a5, g1, g2, g3, g4, g5]
  exact ⟨ha.1, ha.2, by omega, trivial, ha.1, ha.2⟩

theorem reduceVector_map_self {α : Type} (g : α → Nat) (l : List α) :
    ∀ oob : Nat → Nat, reduceVector oob l (l.map g) = l.filter (fun a => decide (g a ≠ 0)) := by
  induction l with
  | nil => intro oob; rfl
  | cons a rest ih =>
    intro oob
    rw [List.map_cons, reduceVector_cons_cons, ih]
    by_cases h : g a = 0 <;> simp [h]

theorem reduceVector_all_nonzero {α : Type} (v : List α) :
    ∀ (oob : Nat → Nat) (status : List Nat), v.length ≤ status.length →
      (∀ st ∈ status, st ≠ 0) → reduceVector oob v status = v := by
  induction v with
  | nil => intro oob status _ _; rfl
  | cons a rest ih =>
    intro oob status h hall
    cases status with
    | nil => simp at h
    | cons st status =>
      have hst : st ≠ 0 := hall st (by simp)
      rw [reduceVector_cons_cons, ih _ status (by simpa using h)
        (fun x hx => hall x (by simp [hx]))]
      simp [hst]

/-- The three `reduceVector` calls of a filter step select the same positions: the zipped
result is the filtered zip. -/
theorem reduceVector_zip3 {α β γ : Type} (o1 o2 o3 : Nat → Nat) (a : List α) (b : List β)
    (c : List γ) (status : List Nat) (hab : a.length = b.length) (hbc : b.length = c.length)
    (hs : a.length ≤ status.length) :
    List.zip (reduceVector o1 a status) (List.zip (reduceVector o2 b status) (reduceVector o3 c status))
      = reduceVector o1 (List.zip a (List.zip b c)) status := by
  rw [reduceVector_oob_irrel o2 o1 b status (by omega),
    reduceVector_oob_irrel o3 o1 c status (by omega)]
  unfold reduceVector
  rw [reduceVectorLoop_zip, reduceVectorLoop_zip]

theorem zip3_map_mid {α γ : Type} (f : Int → Nat) (a : List α) :
    ∀ (b : List Int) (c : List γ), a.length = b.length → b.length = c.length →
      (List.zip a (List.zip b c)).map (fun t => f t.2.1) = b.map f := by
  induction a with
  | nil => intro b c h1 h2; cases b with
    | nil => rfl
    | cons _ _ => simp at h1
  | cons x a ih =>
    intro b c h1 h2
    cases b with
    | nil => simp at h1
    | cons y b =>
      cases c with
      | nil => simp at h2
      | cons z c =>
        simp only [List.zip_cons_cons, List.map_cons]
        rw [ih b c (by simpa using h1) (by simpa using h2)]

/-- The status built by `removeOutliers`. -/
theorem removeOutliers_fields (env : Env) (s : FeatureTracker) (S : Finset Int) :
    (s.removeOutliers env S).ids
      = reduceVector (env.oobStatus 15) s.ids (s.ids.map (fun id => if id ∈ S then 0 else 1)) ∧
    (s.removeOutliers env S).prev_pts
      = reduceVector (env.oobStatus 14) s.prev_pts (s.ids.map (fun id => if id ∈ S then 0 else 1)) ∧
    (s.removeOutliers env S).track_cnt
      = reduceVector (env.oobStatus 16) s.track_cnt (s.ids.map (fun id => if id ∈ S then 0 else 1)) :=
  ⟨rfl, rfl, rfl⟩

theorem removeOutliers_ids (env : Env) (s : FeatureTracker) (S : Finset Int) :
    (s.removeOutliers env S).ids = s.ids.filter (fun id => decide (id ∉ S)) := by
  rw [(removeOutliers_fields env s S).1, reduceVector_map_self]
  congr 1
  funext id
  by_cases h : id ∈ S <;> simp [h]

theorem removeOutliers_noop (env : Env) (s : FeatureTracker) (S : Finset Int)
    (h1 : s.prev_pts.length = s.ids.length) (h2 : s.ids.length = s.track_cnt.length)
    (hS : ∀ id ∈ s.ids, id ∉ S) : s.removeOutliers env S = s := by
  have hall : ∀ st ∈ s.ids.map (fun id => if id ∈ S then 0 else 1), st ≠ 0 := by
    intro st hst
    obtain ⟨id, hid, rfl⟩ := List.mem_map.1 hst
    simp [hS id hid]
  have e1 := reduceVector_all_nonzero s.prev_pts (env.oobStatus 14) _ (by simp [h1]) hall
  have e2 := reduceVector_all_nonzero s.ids (env.oobStatus 15) _ (by simp) hall
  have e3 := reduceVector_all_nonzero s.track_cnt (env.oobStatus 16) _ (by simp [h2]) hall
  unfold FeatureTracker.removeOutliers
  simp only [e1, e2, e3]

/-- What `removeOutliers` keeps, on aligned sequences. -/
theorem removeOutliers_spec (env : Env) (s : FeatureTracker) (S : Finset Int)
    (h1 : s.prev_pts.length = s.ids.length) (h2 : s.ids.length = s.track_cnt.length) :
    (s.removeOutliers env S).ids = s.ids.filter (fun id => decide (id ∉ S)) ∧
    (∀ id ∈ (s.removeOutliers env S).ids, id ∉ S) ∧
    List.zip (s.removeOutliers env S).prev_pts
        (List.zip (s.removeOutliers env S).ids (s.removeOutliers env S).track_cnt)
      = (List.zip s.prev_pts (List.zip s.ids s.track_cnt)).filter (fun t => decide (t.2.1 ∉ S)) ∧
    (s.removeOutliers env S).prev_pts.length = (s.removeOutliers env S).ids.length ∧
    (s.removeOutliers env S).ids.length = (s.removeOutliers env S).track_cnt.length ∧
    s.removeOutliers env ∅ = s ∧
    (s.removeOutliers env S).removeOutliers env S = s.removeOutliers env S := by
  have hids := removeOutliers_ids env s S
  have hnot : ∀ id ∈ (s.removeOutliers env S).ids, id ∉ S := by
    intro id hid
    rw [hids] at hid
    simpa using (List.mem_filter.1 hid).2
  obtain ⟨f1, f2, f3⟩ := removeOutliers_fields env s S
  have hl1 : (s.removeOutliers env S).prev_pts.length = (s.removeOutliers env S).ids.length := by
    rw [f1, f2]
    exact reduceVector_length_eq _ _ _ _ _ h1 (by simp [h1])
  have hl2 : (s.removeOutliers env S).ids.length = (s.removeOutliers env S).track_cnt.length := by
    rw [f1, f3]
    exact reduceVector_length_eq _ _ _ _ _ h2 (by simp)
  refine ⟨hids, hnot, ?_, hl1, hl2, ?_, ?_⟩
  · rw [f1, f2, f3, reduceVector_zip3 _ _ _ _ _ _ _ h1 h2 (by simp [h1]),
      ← zip3_map_mid (fun id => if id ∈ S then 0 else 1) s.prev_pts s.ids s.track_cnt h1 h2,
      reduceVector_map_self]
    congr 1
    funext t
    by_cases h : t.2.1 ∈ S <;> simp [h]
  · exact removeOutliers_noop env s ∅ h1 h2 (fun id _ => by simp)
  · exact removeOutliers_noop env _ S hl1 hl2 hnot

/-! ## Identities and track counts through the stages -/

theorem zip_map_fst_of_le {α β : Type} (a : List α) (b : List β) (h : a.length ≤ b.length) :
    (List.zip a b).map Prod.fst = a := List.map_fst_zip a b h

theorem zip_map_snd_of_le {α β : Type} (a : List α) (b : List β) (h : b.length ≤ a.length) :
    (List.zip a b).map Prod.snd = b := List.map_snd_zip a b h

/-- Two `reduceVector` calls with one status on sequences of one length select the same
positions. -/
theorem reduceVector_pairs {α β : Type} (o1 o2 : Nat → Nat) (a : List α) (b : List β)
    (status : List Nat) (hab : a.length = b.length) (hs : a.length ≤ status.length) :
    ∃ X : List (α × β), X.Sublist (List.zip a b) ∧
      reduceVector o1 a status = X.map Prod.fst ∧ reduceVector o2 b status = X.map Prod.snd := by
  refine ⟨reduceVector o1 (List.zip a b) status, reduceVector_sublist _ _ _, ?_, ?_⟩
  · unfold reduceVector
    rw [← reduceVectorLoop_map, zip_map_fst_of_le a b (by omega)]
  · rw [reduceVector_oob_irrel o2 o1 b status (by omega)]
    unfold reduceVector
    rw [← reduceVectorLoop_map, zip_map_snd_of_le a b (by omega)]

theorem temporalFlow_pairs (env : Env) (P : Params) (s : FeatureTracker) (h : FlowOK env)
    (h1 : s.prev_pts.length = s.ids.length) (h2 : s.ids.length = s.track_cnt.length) :
    ∃ X : List (Int × Int), X.Sublist (List.zip s.ids s.track_cnt) ∧
      (s.temporalFlow env P).ids = X.map Prod.fst ∧
      (s.temporalFlow env P).track_cnt = X.map Prod.snd := by
  unfold FeatureTracker.temporalFlow
  have hst := flowStatus_length env P s h
  split_ifs with hp
  · exact reduceVector_pairs _ _ s.ids s.track_cnt _ h2 (by omega)
  · exact ⟨List.zip s.ids s.track_cnt, List.Sublist.refl _,
      (zip_map_fst_of_le _ _ (by omega)).symm, (zip_map_snd_of_le _ _ (by omega)).symm⟩

theorem temporalFlow_frame (env : Env) (P : Params) (s : FeatureTracker) :
    (s.temporalFlow env P).n_id = s.n_id ∧
    (s.temporalFlow env P).prev_un_pts_map = s.prev_un_pts_map ∧
    (s.temporalFlow env P).max_cnt = s.max_cnt ∧
    (s.temporalFlow env P).row = s.row ∧ (s.temporalFlow env P).col = s.col ∧
    (s.temporalFlow env P).cur_time = s.cur_time ∧ (s.temporalFlow env P).prev_time = s.prev_time := by
  unfold FeatureTracker.temporalFlow
  split_ifs <;> exact ⟨rfl, rfl, rfl, rfl, rfl, rfl, rfl⟩

theorem rejectWithF_pairs (env : Env) (P : Params) (s : FeatureTracker) (h : RansacOK env)
    (h1 : s.cur_pts.length = s.ids.length) (h2 : s.ids.length = s.track_cnt.length) :
    ∃ X : List (Int × Int), X.Sublist (List.zip s.ids s.track_cnt) ∧
      (s.rejectWithF env P).ids = X.map Prod.fst ∧
      (s.rejectWithF env P).track_cnt = X.map Prod.snd := by
  unfold FeatureTracker.rejectWithF
  have hst := ransacStatus_length env P s h
  split_ifs with hp
  · exact reduceVector_pairs _ _ s.ids s.track_cnt _ h2 (by omega)
  · exact ⟨List.zip s.ids s.track_cnt, List.Sublist.refl _,
      (zip_map_fst_of_le _ _ (by omega)).symm, (zip_map_snd_of_le _ _ (by omega)).symm⟩

theorem rejectWithF_frame (env : Env) (P : Params) (s : FeatureTracker) :
    (s.rejectWithF env P).n_id = s.n_id ∧
    (s.rejectWithF env P).prev_un_pts_map = s.prev_un_pts_map ∧
    (s.rejectWithF env P).max_cnt = s.max_cnt ∧
    (s.rejectWithF env P).row = s.row ∧ (s.rejectWithF env P).col = s.col ∧
    (s.rejectWithF env P).cur_time = s.cur_time ∧ (s.rejectWithF env P).prev_time = s.prev_time := by
  unfold FeatureTracker.rejectWithF
  split_ifs <;> exact ⟨rfl, rfl, rfl, rfl, rfl, rfl, rfl⟩

theorem cntPtsIdFrom_shift (cntAt idAt : Nat → Int) (pts : List Point2f) :
    ∀ i, cntPtsIdFrom cntAt idAt (i + 1) pts
      = cntPtsIdFrom (fun j => cntAt (j + 1)) (fun j => idAt (j + 1)) i pts := by
  induction pts with
  | nil => intro i; rfl
  | cons p rest ih => intro i; simp [cntPtsIdFrom, ih]

/-- With `track_cnt` and `ids` as long as `cur_pts`, the entries built by `setMask` are the
zipped triples. -/
theorem cntPtsIdFrom_eq_zip (pts : List Point2f) :
    ∀ (o o' : Nat → Int) (tc ids : List Int), pts.length = ids.length → ids.length = tc.length →
      cntPtsIdFrom (readAt o tc) (readAt o' ids) 0 pts = List.zip tc (List.zip pts ids) := by
  induction pts with
  | nil => intro o o' tc ids _ _; simp [cntPtsIdFrom]
  | cons p rest ih =>
    intro o o' tc ids h1 h2
    cases ids with
    | nil => simp at h1
    | cons id ids =>
      cases tc with
      | nil => simp at h2
      | cons c tc =>
        have hrest := ih (fun j => o (j + 1)) (fun j => o' (j + 1)) tc ids (by simpa using h1)
          (by simpa using h2)
        have hshift : cntPtsIdFrom (readAt o (c :: tc)) (readAt o' (id :: ids)) 1 rest
            = cntPtsIdFrom (readAt (fun j => o (j + 1)) tc) (readAt (fun j => o' (j + 1)) ids) 0
                rest := by
          rw [cntPtsIdFrom_shift]
          simp only [readAt_cons_succ]
        simp only [cntPtsIdFrom, List.zip_cons_cons, hshift, hrest]
        simp [readAt]

theorem setMaskLoop_sublist (r : Int) (l : List CntPtId) :
    ∀ mask, (setMaskLoop r mask l).2.Sublist l := by
  induction l with
  | nil => intro mask; exact List.Sublist.slnil
  | cons it rest ih =>
    intro mask
    simp only [setMaskLoop]
    split_ifs
    · exact (ih _).cons₂ it
    · exact (ih _).cons it

theorem zip3_swap_map {α : Type} (pts : List α) :
    ∀ (tc ids : List Int), pts.length = ids.length → ids.length = tc.length →
      (List.zip tc (List.zip pts ids)).map (fun t => (t.2.2, t.1)) = List.zip ids tc := by
  induction pts with
  | nil => intro tc ids h1 h2; cases ids with
    | nil => simp
    | cons _ _ => simp at h1
  | cons p rest ih =>
    intro tc ids h1 h2
    cases ids with
    | nil => simp at h1
    | cons id ids =>
      cases tc with
      | nil => simp at h2
      | cons c tc =>
        simp only [List.zip_cons_cons, List.map_cons]
        rw [ih tc ids (by simpa using h1) (by simpa using h2)]

/-- The entries kept by `setMask`: a subsequence of the sorted zipped triples, from which
the three sequences are rebuilt. -/
theorem setMask_kept (env : Env) (P : Params) (s : FeatureTracker)
    (h1 : s.cur_pts.length = s.ids.length) (h2 : s.ids.length = s.track_cnt.length) :
    ∃ kept : List CntPtId,
      kept.Sublist (env.stdSort (List.zip s.track_cnt (List.zip s.cur_pts s.ids))) ∧
      kept = (setMaskLoop P.MIN_DIST ⟨s.row, s.col, fun _ _ => 255⟩
        (env.stdSort (List.zip s.track_cnt (List.zip s.cur_pts s.ids)))).2 ∧
      (s.setMask env P).cur_pts = kept.map (fun it => it.2.1) ∧
      (s.setMask env P).ids = kept.map (fun it => it.2.2) ∧
      (s.setMask env P).track_cnt = kept.map (fun it => it.1) := by
  refine ⟨_, setMaskLoop_sublist P.MIN_DIST _ ⟨s.row, s.col, fun _ _ => 255⟩, rfl, ?_, ?_, ?_⟩ <;>
    simp [FeatureTracker.setMask, cntPtsIdFrom_eq_zip s.cur_pts _ _ _ _ h1 h2]

theorem setMask_pairs (env : Env) (P : Params) (s : FeatureTracker)
    (hsort : ∀ l, (env.stdSort l).Perm l)
    (h1 : s.cur_pts.length = s.ids.length) (h2 : s.ids.length = s.track_cnt.length) :
    ∃ X : List (Int × Int), X.Subperm (List.zip s.ids s.track_cnt) ∧
      (s.setMask env P).ids = X.map Prod.fst ∧ (s.setMask env P).track_cnt = X.map Prod.snd := by
  obtain ⟨kept, hsub, _, _, hids, htc⟩ := setMask_kept env P s h1 h2
  refine ⟨kept.map (fun t => (t.2.2, t.1)), ?_, by simp [hids], by simp [htc]⟩
  rw [← zip3_swap_map s.cur_pts s.track_cnt s.ids h1 h2]
  exact ((hsub.map _).subperm).trans ((hsort _).map _).subperm

theorem setMask_frame (env : Env) (P : Params) (s : FeatureTracker) :
    (s.setMask env P).n_id = s.n_id ∧
    (s.setMask env P).prev_un_pts_map = s.prev_un_pts_map ∧
    (s.setMask env P).max_cnt = s.max_cnt ∧
    (s.setMask env P).row = s.row ∧ (s.setMask env P).col = s.col ∧
    (s.setMask env P).cur_time = s.cur_time ∧ (s.setMask env P).prev_time = s.prev_time :=
  ⟨rfl, rfl, rfl, rfl, rfl, rfl, rfl⟩

theorem foldl_addPoint (pts : List Point2f) :
    ∀ s : FeatureTracker,
      (pts.foldl FeatureTracker.addPoint s).ids
        = s.ids ++ (List.range pts.length).map (fun (j : Nat) => s.n_id + (j : Int)) ∧
      (pts.foldl FeatureTracker.addPoint s).track_cnt
        = s.track_cnt ++ List.replicate pts.length 1 ∧
      (pts.foldl FeatureTracker.addPoint s).cur_pts = s.cur_pts ++ pts ∧
      (pts.foldl FeatureTracker.addPoint s).n_id = s.n_id + (pts.length : Int) ∧
      (pts.foldl FeatureTracker.addPoint s).prev_un_pts_map = s.prev_un_pts_map ∧
      (pts.foldl FeatureTracker.addPoint s).cur_time = s.cur_time ∧
      (pts.foldl FeatureTracker.addPoint s).prev_time = s.prev_time := by
  induction pts with
  | nil => intro s; simp
  | cons p rest ih =>
    intro s
    obtain ⟨e1, e2, e3, e4, e5, e6, e7⟩ := ih (s.addPoint p)
    simp only [List.foldl_cons, e1, e2, e3, e4, e5, e6, e7]
    refine ⟨?_, ?_, ?_, ?_, rfl, rfl, rfl⟩
    · simp only [FeatureTracker.addPoint, List.length_cons, List.range_succ_eq_map,
        List.map_cons, List.map_map, List.append_assoc, List.singleton_append]
      congr 2
      · simp
      · apply List.map_congr_left
        intro j _
        simp only [Function.comp, Nat.cast_succ]
        ring
    · simp [FeatureTracker.addPoint, List.replicate_succ]
    · simp [FeatureTracker.addPoint]
    · simp only [FeatureTracker.addPoint, List.length_cons, Nat.cast_succ]
      ring

theorem zip_fst_snd {α β : Type} (X : List (α × β)) :
    List.zip (X.map Prod.fst) (X.map Prod.snd) = X := by
  induction X with
  | nil => rfl
  | cons a rest ih => simp [List.zip_cons_cons, ih]

theorem geometry_frame (env : Env) (s : FeatureTracker) :
    (s.geometry env).n_id = s.n_id ∧ (s.geometry env).prev_un_pts_map = s.prev_un_pts_map ∧
    (s.geometry env).max_cnt = s.max_cnt ∧ (s.geometry env).cur_time = s.cur_time ∧
    (s.geometry env).prev_time = s.prev_time :=
  ⟨rfl, rfl, rfl, rfl, rfl⟩

theorem stereoTrack_frame (env : Env) (P : Params) (s : FeatureTracker) (rightImg : Mat) :
    (s.stereoTrack env P rightImg).n_id = s.n_id ∧
    (s.stereoTrack env P rightImg).cur_un_pts_map = s.cur_un_pts_map ∧
    (s.stereoTrack env P rightImg).max_cnt = s.max_cnt ∧
    (s.stereoTrack env P rightImg).cur_time = s.cur_time := by
  unfold FeatureTracker.stereoTrack
  dsimp only
  split_ifs <;> exact ⟨rfl, rfl, rfl, rfl⟩

theorem augment_frame (env : Env) (P : Params) (s : FeatureTracker) (img1 : Mat) :
    (s.augment env P img1).n_id = s.n_id ∧
    (s.augment env P img1).cur_un_pts_map = s.cur_un_pts_map ∧
    (s.augment env P img1).max_cnt = s.max_cnt ∧
    (s.augment env P img1).cur_time = s.cur_time := by
  unfold FeatureTracker.augment
  dsimp only
  by_cases h1 : (!img1.empty && s.stereo) = true
  · rw [if_pos h1]; exact stereoTrack_frame env P s _
  · rw [if_neg h1]
    by_cases h2 : (!img1.empty && s.depth) = true
    · rw [if_pos h2]; exact ⟨rfl, rfl, rfl, rfl⟩
    · rw [if_neg h2]; exact ⟨rfl, rfl, rfl, rfl⟩

/-- The state of `trackImage` just before the loop that appends the new corners. -/
theorem beforeAdd_pairs (env : Env) (P : Params) (s : FeatureTracker) (t : ℚ) (img : Mat)
    (hflow : FlowOK env) (hransac : RansacOK env) (hsort : ∀ l, (env.stdSort l).Perm l)
    (h1 : s.prev_pts.length = s.ids.length) (h2 : s.ids.length = s.track_cnt.length) :
    ∃ K : List (Int × Int),
      K.Subperm ((List.zip s.ids s.track_cnt).map (fun p => (p.1, p.2 + 1))) ∧
      ((((((s.beginFrame env P t img).temporalFlow env P).ageTracks).rejectWithF env P).setMask
        env P).detect env P).ids = K.map Prod.fst ∧
      ((((((s.beginFrame env P t img).temporalFlow env P).ageTracks).rejectWithF env P).setMask
        env P).detect env P).track_cnt = K.map Prod.snd ∧
      ((((((s.beginFrame env P t img).temporalFlow env P).ageTracks).rejectWithF env P).setMask
        env P).detect env P).n_id = s.n_id ∧
      ((((((s.beginFrame env P t img).temporalFlow env P).ageTracks).rejectWithF env P).setMask
        env P).detect env P).prev_un_pts_map = s.prev_un_pts_map := by
  -- temporal block
  have hlenT := temporalFlow_lengths env P (s.beginFrame env P t img) hflow h1 h2 rfl
  obtain ⟨X1, hX1, hT1, hT2⟩ := temporalFlow_pairs env P (s.beginFrame env P t img) hflow h1 h2
  have hfT := temporalFlow_frame env P (s.beginFrame env P t img)
  -- ageing
  have hA1 : ((s.beginFrame env P t img).temporalFlow env P).ageTracks.ids
      = (X1.map (fun p => (p.1, p.2 + 1))).map Prod.fst := by
    simp [FeatureTracker.ageTracks, hT1, Function.comp]
  have hA2 : ((s.beginFrame env P t img).temporalFlow env P).ageTracks.track_cnt
      = (X1.map (fun p => (p.1, p.2 + 1))).map Prod.snd := by
    simp [FeatureTracker.ageTracks, hT2, Function.comp]
  have hlenA1 : ((s.beginFrame env P t img).temporalFlow env P).ageTracks.cur_pts.length
      = ((s.beginFrame env P t img).temporalFlow env P).ageTracks.ids.length := by
    simpa [FeatureTracker.ageTracks] using hlenT.1
  have hlenA2 : ((s.beginFrame env P t img).temporalFlow env P).ageTracks.ids.length
      = ((s.beginFrame env P t img).temporalFlow env P).ageTracks.track_cnt.length := by
    simpa [FeatureTracker.ageTracks] using hlenT.2.1
  -- fundamental-matrix rejection
  obtain ⟨X2, hX2, hR1, hR2⟩ := rejectWithF_pairs env P _ hransac hlenA1 hlenA2
  rw [hA1, hA2, zip_fst_snd] at hX2
  have hlenR := rejectWithF_lengths env P _ hransac hlenA1 hlenA2
  have hfR := rejectWithF_frame env P ((s.beginFrame env P t img).temporalFlow env P).ageTracks
  -- mask
  obtain ⟨X3, hX3, hM1, hM2⟩ := setMask_pairs env P _ hsort hlenR.1 hlenR.2
  rw [hR1, hR2, zip_fst_snd] at hX3
  refine ⟨X3, ?_, hM1, hM2, ?_, ?_⟩
  · exact hX3.trans ((hX2.trans (hX1.map _)).subperm)
  · show (FeatureTracker.rejectWithF env P _).n_id = _
    rw [hfR.1]
    show (FeatureTracker.temporalFlow env P _).n_id = _
    rw [hfT.1]; rfl
  · show (FeatureTracker.rejectWithF env P _).prev_un_pts_map = _
    rw [hfR.2.1]
    show (FeatureTracker.temporalFlow env P _).prev_un_pts_map = _
    rw [hfT.2.1]; rfl

/-- The identities and track counts after `trackImage`: the surviving pairs, each with
its count raised by one, followed by the new identities `n_id, n_id + 1, ...` with count 1;
`n_id` grows by the number of new identities. -/
theorem trackImageState_idCnt (env : Env) (P : Params) (s : FeatureTracker) (t : ℚ)
    (img img1 : Mat) (hflow : FlowOK env) (hransac : RansacOK env)
    (hsort : ∀ l, (env.stdSort l).Perm l)
    (h1 : s.prev_pts.length = s.ids.length) (h2 : s.ids.length = s.track_cnt.length) :
    ∃ (K : List (Int × Int)) (n : Nat),
      K.Subperm ((List.zip s.ids s.track_cnt).map (fun p => (p.1, p.2 + 1))) ∧
      (s.trackImageState env P t img img1).ids
        = K.map Prod.fst ++ (List.range n).map (fun (j : Nat) => s.n_id + (j : Int)) ∧
      (s.trackImageState env P t img img1).track_cnt = K.map Prod.snd ++ List.replicate n 1 ∧
      (s.trackImageState env P t img img1).n_id = s.n_id + (n : Int) := by
  obtain ⟨K, hK, hD1, hD2, hD3, _⟩ := beforeAdd_pairs env P s t img hflow hransac hsort h1 h2
  obtain ⟨e1, e2, _, e4, _, _, _⟩ := foldl_addPoint
    ((((((s.beginFrame env P t img).temporalFlow env P).ageTracks).rejectWithF env P).setMask
        env P).detect env P).n_pts
    ((((((s.beginFrame env P t img).temporalFlow env P).ageTracks).rejectWithF env P).setMask
        env P).detect env P)
  refine ⟨K, ((((((s.beginFrame env P t img).temporalFlow env P).ageTracks).rejectWithF env P).setMask
        env P).detect env P).n_pts.length, hK, ?_, ?_, ?_⟩
  · show (FeatureTracker.augment env P _ img1).ids = _
    rw [(augment_left env P _ img1).2.1]
    show (FeatureTracker.addNewPoints _).ids = _
    unfold FeatureTracker.addNewPoints
    rw [e1, hD1, hD3]
  · show (FeatureTracker.augment env P _ img1).track_cnt = _
    rw [(augment_left env P _ img1).2.2.1]
    show (FeatureTracker.addNewPoints _).track_cnt = _
    unfold FeatureTracker.addNewPoints
    rw [e2, hD2]
  · show (FeatureTracker.augment env P _ img1).n_id = _
    rw [(augment_frame env P _ img1).1]
    show (FeatureTracker.addNewPoints _).n_id = _
    unfold FeatureTracker.addNewPoints
    rw [e4, hD3]

/-! ## The invariant -/

theorem find_eq_none_of_not_mem_keys {α : Type} (m : IdMap α) (k : Int) (h : k ∉ m.keys) :
    m.find k = Option.none := by
  induction m with
  | nil => rfl
  | cons a rest ih =>
    obtain ⟨k', v⟩ := a
    simp only [IdMap.keys, List.map_cons, List.mem_cons, not_or] at h
    have hne : ¬ k' = k := fun e => h.1 e.symm
    simp only [IdMap.find, hne, if_false]
    exact ih h.2

theorem keys_insert_subset {α : Type} (m : IdMap α) (k : Int) (v : α) :
    ∀ x ∈ (m.insert k v).keys, x ∈ m.keys ∨ x = k := by
  intro x hx
  unfold IdMap.insert at hx
  split at hx
  · exact Or.inl hx
  · simp only [IdMap.keys, List.map_append, List.map_cons, List.map_nil, List.mem_append,
      List.mem_singleton] at hx
    exact hx

theorem keys_fillIdPts (ptAt : Nat → Point2f) (ids : List Int) :
    ∀ (i : Nat) (m : IdMap Point2f), ∀ x ∈ (fillIdPts ptAt i ids m).keys, x ∈ m.keys ∨ x ∈ ids := by
  induction ids with
  | nil => intro i m x hx; exact Or.inl hx
  | cons id rest ih =>
    intro i m x hx
    rcases ih (i + 1) _ x hx with h | h
    · rcases keys_insert_subset m id _ x h with h' | h'
      · exact Or.inl h'
      · exact Or.inr (by simp [h'])
    · exact Or.inr (by simp [h])

/-- After `trackImage` the keys of `prev_un_pts_map` are identities of `ids`. -/
theorem trackImageState_prev_map_keys (env : Env) (P : Params) (s : FeatureTracker) (t : ℚ)
    (img img1 : Mat) :
    ∀ k ∈ (s.trackImageState env P t img img1).prev_un_pts_map.keys,
      k ∈ (s.trackImageState env P t img img1).ids := by
  intro k hk
  have hids : (s.trackImageState env P t img img1).ids
      = (((((((s.beginFrame env P t img).temporalFlow env P).ageTracks).rejectWithF env P).setMask
        env P).detect env P).addNewPoints).ids := by
    show (FeatureTracker.augment env P _ img1).ids = _
    rw [(augment_left env P _ img1).2.1]; rfl
  have hmap : (s.trackImageState env P t img img1).prev_un_pts_map
      = fillIdPts (readAt (env.oobPoint 1) (undistortedPts env
          (((((((s.beginFrame env P t img).temporalFlow env P).ageTracks).rejectWithF env P).setMask
            env P).detect env P).addNewPoints).cur_pts 0)) 0
          (((((((s.beginFrame env P t img).temporalFlow env P).ageTracks).rejectWithF env P).setMask
            env P).detect env P).addNewPoints).ids [] := by
    show (FeatureTracker.augment env P _ img1).cur_un_pts_map = _
    rw [(augment_frame env P _ img1).2.1]; rfl
  rw [hmap] at hk
  rw [hids]
  rcases keys_fillIdPts _ _ 0 [] k hk with h | h
  · simp [IdMap.keys] at h
  · exact h

theorem subperm_map {α β : Type} (f : α → β) {l₁ l₂ : List α} (h : l₁.Subperm l₂) :
    (l₁.map f).Subperm (l₂.map f) := by
  obtain ⟨l, hp, hs⟩ := h
  exact ⟨l.map f, hp.map f, hs.map f⟩

theorem subperm_nodup {α : Type} {l₁ l₂ : List α} (h : l₁.Subperm l₂) (hn : l₂.Nodup) :
    l₁.Nodup := by
  obtain ⟨l, hp, hs⟩ := h
  exact hp.nodup_iff.1 (hs.nodup hn)

theorem aged_map_fst (l : List (Int × Int)) :
    (l.map (fun p => (p.1, p.2 + 1))).map Prod.fst = l.map Prod.fst := by
  simp [Function.comp]

/-- The identities that survive a `trackImage` call are identities of the state before. -/
theorem kept_ids_subperm (s : FeatureTracker) (K : List (Int × Int))
    (h2 : s.ids.length = s.track_cnt.length)
    (hK : K.Subperm ((List.zip s.ids s.track_cnt).map (fun p => (p.1, p.2 + 1)))) :
    (K.map Prod.fst).Subperm s.ids := by
  have := subperm_map Prod.fst hK
  rwa [aged_map_fst, zip_map_fst_of_le _ _ (by omega)] at this

theorem trackImageState_inv (env : Env) (P : Params) (s : FeatureTracker) (t : ℚ)
    (img img1 : Mat) (hok : OraclesOK env) (hs : Inv s) :
    Inv (s.trackImageState env P t img img1) := by
  obtain ⟨h1, h2, hnd, hlt, hkeys, hcnt, hn0⟩ := hs
  obtain ⟨hflow, hransac, hsort⟩ := hok
  have hlen := trackImageState_lengths env P s t img img1 hflow hransac h1 h2
  obtain ⟨K, n, hK, hids, htc, hnid⟩ :=
    trackImageState_idCnt env P s t img img1 hflow hransac (fun l => (hsort l).1) h1 h2
  have hKs := kept_ids_subperm s K h2 hK
  have hmem : ∀ id ∈ (s.trackImageState env P t img img1).ids,
      id < s.n_id + (n : Int) := by
    intro id hid
    rw [hids, List.mem_append] at hid
    rcases hid with h | h
    · have := hlt id (hKs.subset h); omega
    · obtain ⟨j, hj, rfl⟩ := List.mem_map.1 h
      have := List.mem_range.1 hj
      omega
  refine ⟨hlen.2.2.2.2.1, hlen.2.2.2.2.2, ?_, ?_, ?_, ?_, ?_⟩
  · rw [hids, List.nodup_append]
    refine ⟨subperm_nodup hKs hnd, ?_, ?_⟩
    · refine (List.nodup_range n).map ?_
      intro a b hab
      simpa using hab
    · intro x hx hx'
      obtain ⟨j, _, rfl⟩ := List.mem_map.1 hx'
      have := hlt _ (hKs.subset hx)
      omega
  · intro id hid; rw [hnid]; exact hmem id hid
  · intro k hk
    rw [hnid]
    exact hmem k (trackImageState_prev_map_keys env P s t img img1 k hk)
  · intro c hc
    rw [htc, List.mem_append] at hc
    rcases hc with h | h
    · obtain ⟨p, hp, rfl⟩ := List.mem_map.1 h
      obtain ⟨q, hq, rfl⟩ := List.mem_map.1 (hK.subset hp)
      have := hcnt q.2 (List.of_mem_zip hq).2
      simp only
      omega
    · rw [List.eq_of_mem_replicate h]
  · rw [hnid]; omega

theorem create_inv (d st : Bool) (m : Int) : Inv (FeatureTracker.create d st m) := by
  refine ⟨rfl, rfl, List.nodup_nil, ?_, ?_, ?_, le_refl _⟩ <;> intro x hx <;>
    simp [FeatureTracker.create, IdMap.keys] at hx

theorem removeOutliers_inv (env : Env) (s : FeatureTracker) (S : Finset Int) (hs : Inv s) :
    Inv (s.removeOutliers env S) := by
  obtain ⟨h1, h2, hnd, hlt, hkeys, hcnt, hn0⟩ := hs
  obtain ⟨hids, _, _, hl1, hl2, _, _⟩ := removeOutliers_spec env s S h1 h2
  refine ⟨hl1, hl2, ?_, ?_, hkeys, ?_, hn0⟩
  · rw [hids]; exact hnd.filter _
  · intro id hid
    rw [hids] at hid
    exact hlt id (List.mem_filter.1 hid).1
  · intro c hc
    exact hcnt c ((reduceVector_sublist _ _ _).subset hc)

theorem apply_inv (c : Call) (s : FeatureTracker) (hc : c.ok) (hs : Inv s) : Inv (c.apply s) := by
  cases c with
  | trackImage env P t img img1 => exact trackImageState_inv env P s t img img1 hc hs
  | removeOutliers env S => exact removeOutliers_inv env s S hs
  | setPrediction env pred => exact hs
  | set_max_feature_num n => exact hs

theorem run_inv (calls : List Call) :
    ∀ s : FeatureTracker, (∀ c ∈ calls, c.ok) → Inv s → Inv (run s calls) := by
  induction calls with
  | nil => intro s _ hs; exact hs
  | cons c rest ih =>
    intro s hok hs
    exact ih (c.apply s) (fun c' hc' => hok c' (List.mem_cons_of_mem _ hc'))
      (apply_inv c s (hok c (List.mem_cons_self _ _)) hs)

theorem reachable_inv (s : FeatureTracker) (h : Reachable s) : Inv s := by
  obtain ⟨d, st, m, calls, hok, rfl⟩ := h
  exact run_inv calls _ hok (create_inv d st m)

theorem reachable_run (s : FeatureTracker) (calls : List Call) (h : Reachable s)
    (hok : ∀ c ∈ calls, c.ok) : Reachable (run s calls) := by
  obtain ⟨d, st, m, calls0, hok0, rfl⟩ := h
  refine ⟨d, st, m, calls0 ++ calls, ?_, ?_⟩
  · intro c hc
    rcases List.mem_append.1 hc with h | h
    · exact hok0 c h
    · exact hok c h
  · simp [run, List.foldl_append]

/-- The `(identity, count)` pairs after a call, in terms of the pairs before: a pair of an
identity below the former `n_id` comes from a former pair, with the count raised by one
exactly when the call is a frame; the other pairs are new identities with count 1. -/
theorem apply_pairs (c : Call) (s : FeatureTracker) (hc : c.ok) (hs : Inv s) :
    s.n_id ≤ (c.apply s).n_id ∧
    ∀ id cnt, (id, cnt) ∈ List.zip (c.apply s).ids (c.apply s).track_cnt →
      (∃ c0, (id, c0) ∈ List.zip s.ids s.track_cnt ∧
        cnt = c0 + (if c.isFrame then 1 else 0)) ∨
      (s.n_id ≤ id ∧ cnt = 1 ∧ c.isFrame = true) := by
  obtain ⟨h1, h2, hnd, hlt, hkeys, hcnt, hn0⟩ := hs
  cases c with
  | trackImage env P t img img1 =>
    obtain ⟨hflow, hransac, hsort⟩ := hc
    obtain ⟨K, n, hK, hids, htc, hnid⟩ :=
      trackImageState_idCnt env P s t img img1 hflow hransac (fun l => (hsort l).1) h1 h2
    refine ⟨?_, ?_⟩
    · show s.n_id ≤ (s.trackImageState env P t img img1).n_id
      rw [hnid]; omega
    · intro id cnt hmem
      change (id, cnt) ∈ List.zip (s.trackImageState env P t img img1).ids
        (s.trackImageState env P t img img1).track_cnt at hmem
      rw [hids, htc, List.zip_append (by simp), zip_fst_snd, List.mem_append] at hmem
      rcases hmem with h | h
      · left
        obtain ⟨q, hq, hqe⟩ := List.mem_map.1 (hK.subset h)
        refine ⟨q.2, ?_, ?_⟩
        · have : q.1 = id := by simpa using congrArg Prod.fst hqe
          rw [← this]; exact hq
        · have : q.2 + 1 = cnt := by simpa using congrArg Prod.snd hqe
          simp [Call.isFrame]; omega
      · right
        have hm := List.of_mem_zip h
        obtain ⟨j, _, hj⟩ := List.mem_map.1 hm.1
        refine ⟨by omega, List.eq_of_mem_replicate hm.2, rfl⟩
  | removeOutliers env S =>
    refine ⟨le_refl _, ?_⟩
    intro id cnt hmem
    left
    refine ⟨cnt, ?_, by simp [Call.isFrame]⟩
    obtain ⟨X, hX, e1, e2⟩ := reduceVector_pairs (env.oobStatus 15) (env.oobStatus 16) s.ids
      s.track_cnt (s.ids.map (fun id => if id ∈ S then 0 else 1)) h2 (by simp)
    change (id, cnt) ∈ List.zip (reduceVector (env.oobStatus 15) s.ids _)
      (reduceVector (env.oobStatus 16) s.track_cnt _) at hmem
    rw [e1, e2, zip_fst_snd] at hmem
    exact hX.subset hmem
  | setPrediction env pred =>
    exact ⟨le_refl _, fun id cnt hmem => Or.inl ⟨cnt, hmem, by simp [Call.isFrame]⟩⟩
  | set_max_feature_num n =>
    exact ⟨le_refl _, fun id cnt hmem => Or.inl ⟨cnt, hmem, by simp [Call.isFrame]⟩⟩

theorem mem_zip_of_mem_ids (ids : List Int) :
    ∀ (tc : List Int), ids.length = tc.length → ∀ id ∈ ids, ∃ c, (id, c) ∈ List.zip ids tc := by
  induction ids with
  | nil => intro tc _ id hid; simp at hid
  | cons a rest ih =>
    intro tc h id hid
    cases tc with
    | nil => simp at h
    | cons c tc =>
      rcases List.mem_cons.1 hid with e | e
      · exact ⟨c, by simp [e]⟩
      · obtain ⟨c', hc'⟩ := ih tc (by simpa using h) id e
        exact ⟨c', by simp [hc']⟩

theorem zip_nodup_unique (ids : List Int) :
    ∀ (tc : List Int), ids.Nodup → ∀ id c c', (id, c) ∈ List.zip ids tc →
      (id, c') ∈ List.zip ids tc → c = c' := by
  induction ids with
  | nil => intro tc _ id c c' h; simp at h
  | cons a rest ih =>
    intro tc hnd id c c' h h'
    cases tc with
    | nil => simp at h
    | cons b tc =>
      rw [List.zip_cons_cons, List.mem_cons] at h h'
      have hna : a ∉ rest := (List.nodup_cons.1 hnd).1
      rcases h with h | h <;> rcases h' with h' | h'
      · have e1 := congrArg Prod.snd h
        have e2 := congrArg Prod.snd h'
        simp only at e1 e2
        rw [e1, e2]
      · have e1 := congrArg Prod.fst h
        simp only at e1
        exact absurd (e1 ▸ (List.of_mem_zip h').1) hna
      · have e1 := congrArg Prod.fst h'
        simp only at e1
        exact absurd (e1 ▸ (List.of_mem_zip h).1) hna
      · exact ih tc (List.nodup_cons.1 hnd).2 id c c' h h'

/-- The identities after a call are former identities or at least the former `n_id`. -/
theorem apply_ids (c : Call) (s : FeatureTracker) (hc : c.ok) (hs : Inv s) :
    ∀ id ∈ (c.apply s).ids, id ∈ s.ids ∨ s.n_id ≤ id := by
  intro id hid
  have hs' := apply_inv c s hc hs
  obtain ⟨cnt, hcnt⟩ := mem_zip_of_mem_ids _ _ hs'.2.1 id hid
  rcases (apply_pairs c s hc hs).2 id cnt hcnt with ⟨c0, h0, _⟩ | ⟨h, _, _⟩
  · exact Or.inl (List.of_mem_zip h0).1
  · exact Or.inr h

/-- An identity below `n_id` that is not in `ids` stays out of `ids`. -/
theorem run_no_resurrection (calls : List Call) :
    ∀ s : FeatureTracker, Inv s → (∀ c ∈ calls, c.ok) → ∀ id, id < s.n_id → id ∉ s.ids →
      id ∉ (run s calls).ids := by
  induction calls with
  | nil => intro s _ _ id _ h; exact h
  | cons c rest ih =>
    intro s hs hok id hlt hni
    have hc := hok c (List.mem_cons_self _ _)
    refine ih (c.apply s) (apply_inv c s hc hs) (fun c' hc' => hok c' (List.mem_cons_of_mem _ hc'))
      id ?_ ?_
    · have := (apply_pairs c s hc hs).1; omega
    · intro hmem
      rcases apply_ids c s hc hs id hmem with h | h
      · exact hni h
      · omega

/-- The count of an identity below `n_id` after a run is its former count plus the number
of frames. -/
theorem run_pairs (calls : List Call) :
    ∀ s : FeatureTracker, Inv s → (∀ c ∈ calls, c.ok) → ∀ id cnt, id < s.n_id →
      (id, cnt) ∈ List.zip (run s calls).ids (run s calls).track_cnt →
      ∃ c0, (id, c0) ∈ List.zip s.ids s.track_cnt ∧ cnt = c0 + (frameCount calls : Int) := by
  induction calls with
  | nil => intro s _ _ id cnt _ h; exact ⟨cnt, h, by simp [frameCount]⟩
  | cons c rest ih =>
    intro s hs hok id cnt hlt hmem
    have hc := hok c (List.mem_cons_self _ _)
    have hmono := (apply_pairs c s hc hs).1
    obtain ⟨c1, h1, e1⟩ := ih (c.apply s) (apply_inv c s hc hs)
      (fun c' hc' => hok c' (List.mem_cons_of_mem _ hc')) id cnt (by omega) hmem
    rcases (apply_pairs c s hc hs).2 id c1 h1 with ⟨c0, h0, e0⟩ | ⟨h, _, _⟩
    · refine ⟨c0, h0, ?_⟩
      rw [e1, e0]
      by_cases hf : c.isFrame = true
      · simp [frameCount, List.filter_cons, hf]; omega
      · simp [frameCount, List.filter_cons, hf]
    · omega

/-! ## Border culling -/

theorem cvRound_near (v : ℚ) : (cvRound v : ℚ) - 1 / 2 ≤ v ∧ v ≤ (cvRound v : ℚ) + 1 / 2 := by
  have h1 : ((⌊v⌋ : Int) : ℚ) ≤ v := Int.floor_le v
  have h2 : v < ((⌊v⌋ : Int) : ℚ) + 1 := Int.lt_floor_add_one v
  unfold cvRound
  split_ifs with ha hb hc
  · constructor <;> linarith
  · push_cast; constructor <;> linarith
  · constructor <;> linarith
  · push_cast; constructor <;> linarith

/-- Every point kept by `reduceVector` under the border-culled status is in the border. -/
theorem border_kept_inBorder (inB : Point2f → Bool) (pts : List Point2f) :
    ∀ (oob : Nat → Nat) (status : List Nat), pts.length ≤ status.length →
      ∀ p ∈ reduceVector oob pts (borderStatus inB pts status), inB p = true := by
  induction pts with
  | nil => intro oob status _ p hp; simp [reduceVector_nil] at hp
  | cons q rest ih =>
    intro oob status h p hp
    cases status with
    | nil => simp at h
    | cons st status =>
      rw [borderStatus, reduceVector_cons_cons] at hp
      have hrest := ih (fun j => oob (j + 1)) status (by simpa using h) p
      by_cases hk : (if st ≠ 0 ∧ inB q = false then 0 else st) ≠ 0
      · rw [if_pos hk, List.mem_cons] at hp
        rcases hp with e | e
        · rw [e]
          by_cases hq : inB q = true
          · exact hq
          · exfalso
            have hq' : inB q = false := by simpa using hq
            by_cases hst : st = 0
            · simp [hst] at hk
            · simp [hst, hq'] at hk
        · exact hrest e
      · rw [if_neg hk] at hp
        exact hrest hp

theorem temporalFlow_inBorder (env : Env) (P : Params) (s : FeatureTracker) (hflow : FlowOK env)
    (hcur : s.cur_pts = []) :
    ∀ pt ∈ (s.temporalFlow env P).cur_pts, s.inBorder pt = true := by
  intro pt hpt
  unfold FeatureTracker.temporalFlow at hpt
  split_ifs at hpt with hp
  · have hlk := flowLK_length env s hflow
    have hst : (s.flowLK env).1.length ≤ (if P.FLOW_BACK = true then
        flowBackLoop (fun i => decide (readAt (env.oobStatus 12)
          (env.calcOpticalFlowPyrLK s.cur_img s.prev_img (s.flowLK env).1 s.prev_pts 1 true).2 i ≠ 0) &&
          distanceLeHalf (readAt (env.oobPoint 2) s.prev_pts i) (readAt (env.oobPoint 3)
          (env.calcOpticalFlowPyrLK s.cur_img s.prev_img (s.flowLK env).1 s.prev_pts 1 true).1 i))
          0 (s.flowLK env).2
        else (s.flowLK env).2).length := by
      split_ifs
      · rw [flowBackLoop_length]; omega
      · omega
    exact border_kept_inBorder s.inBorder _ _ _ hst pt hpt
  · rw [hcur] at hpt; simp at hpt

/-- C5 (as amended). Border compliance: after the border-culling step of the temporal pass of
`trackImage`, every retained point has its rounded pixel in `[1, col - 1) x [1, row - 1)`;
on the sub-pixel coordinates this gives `1/2 <= x <= col - 3/2` and
`1/2 <= y <= row - 3/2`. -/
theorem border_compliance_rounded (env : Env) (P : Params) (s : FeatureTracker) (t : ℚ)
    (img : Mat) (hflow : FlowOK env) :
    ∀ pt ∈ ((s.beginFrame env P t img).temporalFlow env P).cur_pts,
      (1 ≤ cvRound pt.x ∧ cvRound pt.x < ((s.beginFrame env P t img).temporalFlow env P).col - 1 ∧
       1 ≤ cvRound pt.y ∧ cvRound pt.y < ((s.beginFrame env P t img).temporalFlow env P).row - 1) ∧
      (1 / 2 ≤ pt.x ∧ pt.x ≤ (((s.beginFrame env P t img).temporalFlow env P).col : ℚ) - 3 / 2 ∧
       1 / 2 ≤ pt.y ∧ pt.y ≤ (((s.beginFrame env P t img).temporalFlow env P).row : ℚ) - 3 / 2) := by
  intro pt hpt
  have hin := temporalFlow_inBorder env P (s.beginFrame env P t img) hflow rfl pt hpt
  have hf := temporalFlow_frame env P (s.beginFrame env P t img)
  rw [hf.2.2.2.1, hf.2.2.2.2.1]
  simp only [FeatureTracker.inBorder, decide_eq_true_eq] at hin
  obtain ⟨a, b, c, d⟩ := hin
  refine ⟨⟨a, b, c, d⟩, ?_⟩
  have hx := cvRound_near pt.x
  have hy := cvRound_near pt.y
  have a' : (1 : ℚ) ≤ (cvRound pt.x : ℚ) := by exact_mod_cast a
  have c' : (1 : ℚ) ≤ (cvRound pt.y : ℚ) := by exact_mod_cast c
  have b' : (cvRound pt.x : ℚ) ≤ ((s.beginFrame env P t img).col : ℚ) - 2 := by
    have : cvRound pt.x ≤ (s.beginFrame env P t img).col - 2 := by omega
    exact_mod_cast this
  have d' : (cvRound pt.y : ℚ) ≤ ((s.beginFrame env P t img).row : ℚ) - 2 := by
    have : cvRound pt.y ≤ (s.beginFrame env P t img).row - 2 := by omega
    exact_mod_cast this
  refine ⟨?_, ?_, ?_, ?_⟩ <;> linarith [hx.1, hx.2, hy.1, hy.2]

theorem sampleEnv_flowOK : FlowOK sampleEnv :=
  ⟨fun _ _ _ _ _ _ => by simp [sampleEnv], fun _ _ _ _ _ => by simp [sampleEnv]⟩

theorem sampleEnv_ransacOK : RansacOK sampleEnv := fun _ _ _ => by simp [sampleEnv]

theorem sampleEnv_sortOK : SortOK sampleEnv := by
  intro l
  haveI : IsTotal CntPtId (fun a b => b.1 ≤ a.1) := ⟨fun a b => le_total b.1 a.1⟩
  haveI : IsTrans CntPtId (fun a b => b.1 ≤ a.1) := ⟨fun a b c h1 h2 => le_trans h2 h1⟩
  exact ⟨List.perm_insertionSort _ l, List.sorted_insertionSort _ l⟩

theorem sampleEnv_ok : OraclesOK sampleEnv :=
  ⟨sampleEnv_flowOK, sampleEnv_ransacOK, sampleEnv_sortOK⟩

set_option maxRecDepth 100000 in
/-- In the second frame of the sample run the temporal pass retains the point `(3/4, 5)`. -/
theorem sample_frame2_retains :
    (⟨3 / 4, 5⟩ : Point2f) ∈
      ((sampleState1.beginFrame sampleEnv sampleParams 1 sampleImg).temporalFlow sampleEnv
        sampleParams).cur_pts := by
  with_unfolding_all decide

/-- C5 counterexample: in the second frame of the sample run the point `(3/4, 5)` is
retained by the border-culling step although its sub-pixel `x` is below 1. -/
theorem border_compliance_subpixel_fails :
    (⟨3 / 4, 5⟩ : Point2f) ∈
      ((sampleState1.beginFrame sampleEnv sampleParams 1 sampleImg).temporalFlow sampleEnv
        sampleParams).cur_pts ∧
    ¬ ((1 : ℚ) ≤ (⟨3 / 4, 5⟩ : Point2f).x) :=
  ⟨sample_frame2_retains, by with_unfolding_all decide⟩

/-- Witness for C5: the retained point `(3/4, 5)` of the sample run. -/
theorem border_compliance_rounded_witness :
    FlowOK sampleEnv ∧
    (1 ≤ cvRound (3 / 4) ∧ cvRound (3 / 4) <
      ((sampleState1.beginFrame sampleEnv sampleParams 1 sampleImg).temporalFlow sampleEnv
        sampleParams).col - 1) :=
  ⟨sampleEnv_flowOK,
    ((border_compliance_rounded sampleEnv sampleParams sampleState1 1 sampleImg sampleEnv_flowOK
      ⟨3 / 4, 5⟩ sample_frame2_retains).1.1),
    ((border_compliance_rounded sampleEnv sampleParams sampleState1 1 sampleImg sampleEnv_flowOK
      ⟨3 / 4, 5⟩ sample_frame2_retains).1.2.1)⟩

/-! ## The stereo block -/

theorem stereoTrack_ids_right_sublist (env : Env) (P : Params) (s : FeatureTracker)
    (rightImg : Mat) : (s.stereoTrack env P rightImg).ids_right.Sublist s.ids := by
  unfold FeatureTracker.stereoTrack
  dsimp only
  split_ifs
  · exact reduceVector_sublist _ _ _
  · exact List.nil_sublist _

theorem augment_stereo (env : Env) (P : Params) (s : FeatureTracker) (img1 : Mat)
    (hstereo : s.stereo = true) (himg : img1.empty = false) :
    s.augment env P img1
      = s.stereoTrack env P (if P.EQUALIZE && s.stereo && !img1.empty then env.clahe img1 else img1) := by
  unfold FeatureTracker.augment
  simp [hstereo, himg]

theorem trackImageState_stereo_flag (env : Env) (P : Params) (s : FeatureTracker) (t : ℚ)
    (img : Mat) :
    (((((((s.beginFrame env P t img).temporalFlow env P).ageTracks).rejectWithF env P).setMask
      env P).detect env P).addNewPoints.geometry env).stereo = s.stereo := by
  have h1 : ∀ (u : FeatureTracker) (l : List Point2f),
      (l.foldl FeatureTracker.addPoint u).stereo = u.stereo := by
    intro u l
    induction l generalizing u with
    | nil => rfl
    | cons p rest ih => exact (ih (u.addPoint p)).trans rfl
  show (FeatureTracker.addNewPoints _).stereo = _
  unfold FeatureTracker.addNewPoints
  rw [h1]
  show (FeatureTracker.rejectWithF env P _).stereo = _
  have h2 : ∀ u : FeatureTracker, (u.rejectWithF env P).stereo = u.stereo := by
    intro u; unfold FeatureTracker.rejectWithF; split_ifs <;> rfl
  have h3 : ∀ u : FeatureTracker, (u.temporalFlow env P).stereo = u.stereo := by
    intro u; unfold FeatureTracker.temporalFlow; split_ifs <;> rfl
  rw [h2]
  show (FeatureTracker.temporalFlow env P _).stereo = _
  rw [h3]; rfl

/-- C9. Stereo subset: after a `trackImage` call in stereo mode with a non-empty right image,
`ids_right` is a subsequence of `ids`, so each of its elements is an element of `ids`. -/
theorem stereo_ids_right_subsequence (env : Env) (P : Params) (s : FeatureTracker) (t : ℚ)
    (img img1 : Mat) (hstereo : s.stereo = true) (himg : img1.empty = false) :
    (s.trackImage env P t img img1).1.ids_right.Sublist (s.trackImage env P t img img1).1.ids ∧
    ∀ id ∈ (s.trackImage env P t img img1).1.ids_right, id ∈ (s.trackImage env P t img img1).1.ids := by
  have hsub : (s.trackImage env P t img img1).1.ids_right.Sublist
      (s.trackImage env P t img img1).1.ids := by
    have hflag := trackImageState_stereo_flag env P s t img
    show (FeatureTracker.augment env P _ img1).ids_right.Sublist
      (FeatureTracker.augment env P _ img1).ids
    rw [augment_stereo env P _ img1 (hflag.trans hstereo) himg]
    rw [(stereoTrack_left env P _ _).2.1]
    exact stereoTrack_ids_right_sublist env P _ _
  exact ⟨hsub, fun id hid => hsub.subset hid⟩

set_option maxRecDepth 100000 in
/-- Witness for C9: the first stereo frame on the sample inputs, where the right-view flow
keeps only the first of the two points. -/
theorem stereo_ids_right_subsequence_witness :
    ((FeatureTracker.create false true 10).trackImage dropRightEnv sampleParams 0 sampleImg
      sampleImg).1.ids_right = [0] ∧
    ((FeatureTracker.create false true 10).trackImage dropRightEnv sampleParams 0 sampleImg
      sampleImg).1.ids = [0, 1] ∧
    ((FeatureTracker.create false true 10).trackImage dropRightEnv sampleParams 0 sampleImg
      sampleImg).1.ids_right.Sublist
      ((FeatureTracker.create false true 10).trackImage dropRightEnv sampleParams 0 sampleImg
        sampleImg).1.ids :=
  ⟨by with_unfolding_all decide, by with_unfolding_all decide,
    (stereo_ids_right_subsequence dropRightEnv sampleParams (FeatureTracker.create false true 10) 0
      sampleImg sampleImg rfl (by with_unfolding_all decide)).1⟩

set_option maxRecDepth 100000 in
/-- C10 at its failing input: in the first stereo frame on the sample inputs the right-view
flow keeps one of two points; `ids_right`, `cur_right_pts` and `cur_un_right_pts` then have
one element, `right_pts_velocity` has two. -/
theorem right_view_lengths_first_stereo_frame :
    ((FeatureTracker.create false true 10).trackImage dropRightEnv sampleParams 0 sampleImg
      sampleImg).1.ids_right.length = 1 ∧
    ((FeatureTracker.create false true 10).trackImage dropRightEnv sampleParams 0 sampleImg
      sampleImg).1.cur_right_pts.length = 1 ∧
    ((FeatureTracker.create false true 10).trackImage dropRightEnv sampleParams 0 sampleImg
      sampleImg).1.cur_un_right_pts.length = 1 ∧
    ((FeatureTracker.create false true 10).trackImage dropRightEnv sampleParams 0 sampleImg
      sampleImg).1.right_pts_velocity.length = 2 := by
  with_unfolding_all decide

/-! ## `setMask` -/

theorem cntPtsIdFrom_points (cntAt idAt : Nat → Int) (pts : List Point2f) :
    ∀ i, (cntPtsIdFrom cntAt idAt i pts).map (fun it => it.2.1) = pts := by
  induction pts with
  | nil => intro i; rfl
  | cons p rest ih => intro i; simp [cntPtsIdFrom, ih]

theorem setMaskLoop_dims (r : Int) (l : List CntPtId) :
    ∀ mask : Mat, (setMaskLoop r mask l).1.rows = mask.rows ∧
      (setMaskLoop r mask l).1.cols = mask.cols := by
  induction l with
  | nil => intro mask; exact ⟨rfl, rfl⟩
  | cons it rest ih =>
    intro mask
    simp only [setMaskLoop]
    split_ifs
    · exact ih (circle mask it.2.1.toPoint r 0)
    · exact ih mask

/-- A pixel of the image that is still 255 after `cv::circle` was 255 before and is
farther than the radius from the centre. -/
theorem circle_255 (mask : Mat) (center pt : Point) (r : Int) (hr : 0 ≤ r)
    (hx : 0 ≤ pt.x ∧ pt.x < mask.cols) (hy : 0 ≤ pt.y ∧ pt.y < mask.rows)
    (h : (circle mask center r 0).atPoint pt = 255) :
    mask.atPoint pt = 255 ∧
      r * r < (pt.x - center.x) * (pt.x - center.x) + (pt.y - center.y) * (pt.y - center.y) := by
  unfold Mat.atPoint circle at h
  simp only at h
  split_ifs at h with hc
  · exact ⟨h, by
      by_contra hle
      exact hc ⟨hr, hy.1, hy.2, hx.1, hx.2, not_lt.1 hle⟩⟩

/-- The entries kept by the loop of `setMask` had a mask pixel of 255 at the start and have
rounded pixels pairwise farther apart than `MIN_DIST`. -/
theorem setMaskLoop_separated (r : Int) (hr : 0 ≤ r) (l : List CntPtId) :
    ∀ mask : Mat,
      (∀ it ∈ l, (0 ≤ cvRound it.2.1.x ∧ cvRound it.2.1.x < mask.cols) ∧
        (0 ≤ cvRound it.2.1.y ∧ cvRound it.2.1.y < mask.rows)) →
      (∀ it ∈ (setMaskLoop r mask l).2, mask.atPoint it.2.1.toPoint = 255) ∧
      (setMaskLoop r mask l).2.Pairwise (fun a b => r * r < pixelDistSq a.2.1 b.2.1) := by
  induction l with
  | nil => intro mask _; exact ⟨fun it h => by simp [setMaskLoop] at h, List.Pairwise.nil⟩
  | cons it rest ih =>
    intro mask himg
    have hrest : ∀ k ∈ rest, (0 ≤ cvRound k.2.1.x ∧ cvRound k.2.1.x < mask.cols) ∧
        (0 ≤ cvRound k.2.1.y ∧ cvRound k.2.1.y < mask.rows) :=
      fun k hk => himg k (List.mem_cons_of_mem _ hk)
    simp only [setMaskLoop]
    split_ifs with hkeep
    · obtain ⟨ih1, ih2⟩ := ih (circle mask it.2.1.toPoint r 0) hrest
      have hfar : ∀ k ∈ (setMaskLoop r (circle mask it.2.1.toPoint r 0) rest).2,
          mask.atPoint k.2.1.toPoint = 255 ∧ r * r < pixelDistSq it.2.1 k.2.1 := by
        intro k hk
        have hk' := hrest k ((setMaskLoop_sublist r rest _).subset hk)
        obtain ⟨a, b⟩ := circle_255 mask it.2.1.toPoint k.2.1.toPoint r hr hk'.1 hk'.2 (ih1 k hk)
        refine ⟨a, ?_⟩
        have e : pixelDistSq it.2.1 k.2.1
            = (k.2.1.toPoint.x - it.2.1.toPoint.x) * (k.2.1.toPoint.x - it.2.1.toPoint.x)
              + (k.2.1.toPoint.y - it.2.1.toPoint.y) * (k.2.1.toPoint.y - it.2.1.toPoint.y) := by
          simp only [pixelDistSq, Point2f.toPoint]; ring
        rw [e]; exact b
      refine ⟨?_, ?_⟩
      · intro k hk
        rcases List.mem_cons.1 hk with e | e
        · rw [e]; exact hkeep
        · exact (hfar k e).1
      · exact List.Pairwise.cons (fun k hk => (hfar k hk).2) ih2
    · exact ih mask hrest

/-- C3 (as amended). Spatial separation on the CPU path: for an input to `setMask` whose
points all have their rounded pixel inside the `row` x `col` image, with `MIN_DIST >= 0`,
every two distinct retained points have rounded pixel positions at Euclidean distance
strictly greater than `MIN_DIST`. -/
theorem setMask_pixel_separation (env : Env) (P : Params) (s : FeatureTracker)
    (hsort : SortOK env) (hr : 0 ≤ P.MIN_DIST)
    (himg : ∀ p ∈ s.cur_pts, (0 ≤ cvRound p.x ∧ cvRound p.x < s.col) ∧
      (0 ≤ cvRound p.y ∧ cvRound p.y < s.row)) :
    (s.setMask env P).cur_pts.Pairwise
      (fun a b => P.MIN_DIST * P.MIN_DIST < pixelDistSq a b) := by
  have hin : ∀ it ∈ env.stdSort (cntPtsIdFrom (readAt (env.oobInt 0) s.track_cnt)
      (readAt (env.oobInt 1) s.ids) 0 s.cur_pts),
      (0 ≤ cvRound it.2.1.x ∧ cvRound it.2.1.x < s.col) ∧
      (0 ≤ cvRound it.2.1.y ∧ cvRound it.2.1.y < s.row) := by
    intro it hit
    have h1 := ((hsort _).1.subset hit)
    have h2 : it.2.1 ∈ (cntPtsIdFrom (readAt (env.oobInt 0) s.track_cnt)
        (readAt (env.oobInt 1) s.ids) 0 s.cur_pts).map (fun it => it.2.1) :=
      List.mem_map.2 ⟨it, h1, rfl⟩
    rw [cntPtsIdFrom_points] at h2
    exact himg _ h2
  have hsep := (setMaskLoop_separated P.MIN_DIST hr _ ⟨s.row, s.col, fun _ _ => 255⟩ hin).2
  show ((setMaskLoop P.MIN_DIST ⟨s.row, s.col, fun _ _ => 255⟩
    (env.stdSort (cntPtsIdFrom (readAt (env.oobInt 0) s.track_cnt)
      (readAt (env.oobInt 1) s.ids) 0 s.cur_pts))).2.map (fun it => it.2.1)).Pairwise _
  rw [List.pairwise_map]
  exact hsep

set_option maxRecDepth 100000 in
/-- The sample input of `setMask` keeps both of its points. -/
theorem closePair_kept :
    (closePairState.setMask sampleEnv sampleParams).cur_pts
      = [⟨52 / 5, 52 / 5⟩, ⟨158 / 5, 158 / 5⟩] := by
  with_unfolding_all decide

set_option maxRecDepth 100000 in
/-- The points of the sample input of `setMask` are inside the image. -/
theorem closePair_inside :
    ∀ p ∈ closePairState.cur_pts, (0 ≤ cvRound p.x ∧ cvRound p.x < closePairState.col) ∧
      (0 ≤ cvRound p.y ∧ cvRound p.y < closePairState.row) := by
  with_unfolding_all decide

/-- C3 counterexample: with `MIN_DIST = 30`, `setMask` retains the two points
`(10.4, 10.4)` and `(31.6, 31.6)` of an input inside the 100 x 100 image, whose Euclidean
distance is below 30 (squared distance 898.88). -/
theorem setMask_subpixel_separation_fails :
    (∀ p ∈ closePairState.cur_pts, (0 ≤ cvRound p.x ∧ cvRound p.x < closePairState.col) ∧
      (0 ≤ cvRound p.y ∧ cvRound p.y < closePairState.row)) ∧
    (closePairState.setMask sampleEnv sampleParams).cur_pts
      = [⟨52 / 5, 52 / 5⟩, ⟨158 / 5, 158 / 5⟩] ∧
    distSq ⟨52 / 5, 52 / 5⟩ ⟨158 / 5, 158 / 5⟩
      < ((sampleParams.MIN_DIST * sampleParams.MIN_DIST : Int) : ℚ) :=
  ⟨closePair_inside, closePair_kept, by with_unfolding_all decide⟩

/-- Witness for C3: the sample input of `setMask`. -/
theorem setMask_pixel_separation_witness :
    SortOK sampleEnv ∧ 0 ≤ sampleParams.MIN_DIST ∧
    (closePairState.setMask sampleEnv sampleParams).cur_pts.Pairwise
      (fun a b => sampleParams.MIN_DIST * sampleParams.MIN_DIST < pixelDistSq a b) :=
  ⟨sampleEnv_sortOK, by decide,
    setMask_pixel_separation sampleEnv sampleParams closePairState sampleEnv_sortOK (by decide)
      closePair_inside⟩

/-! ## Pairwise suppression and replenishment on the GPU path -/

theorem zerosKept_refl (st : List Nat) : ZerosKept st st := ⟨rfl, fun _ h => h⟩

theorem zerosKept_trans {a b c : List Nat} (h1 : ZerosKept a b) (h2 : ZerosKept b c) :
    ZerosKept a c :=
  ⟨h2.1.trans h1.1, fun k hk => h2.2 k (h1.2 k hk)⟩

theorem zerosKept_set (st : List Nat) (i : Nat) : ZerosKept st (st.set i 0) := by
  refine ⟨List.length_set _ _ _, ?_⟩
  intro k hk
  rw [List.getElem?_set]
  split_ifs with h1 h2
  · rfl
  · exfalso
    have hk' : k < st.length := by
      by_contra hlt
      rw [List.getElem?_eq_none (by omega)] at hk
      simp at hk
    omega
  · exact hk

theorem getElem?_set_self_zero (st : List Nat) (i : Nat) (h : i < st.length) :
    (st.set i 0)[i]? = some 0 := by
  rw [List.getElem?_set]; simp [h]

theorem gpuPairStep_zerosKept (m : Int) (ptAt : Nat → Point2f) (cntAt : Nat → Int) (i : Nat)
    (st : List Nat) (j : Nat) : ZerosKept st (gpuPairStep m ptAt cntAt i st j) := by
  unfold gpuPairStep
  split_ifs
  · exact zerosKept_set st i
  · exact zerosKept_set st j
  · exact zerosKept_refl st

theorem foldl_zerosKept (f : List Nat → Nat → List Nat) (hf : ∀ st k, ZerosKept st (f st k))
    (l : List Nat) : ∀ st, ZerosKept st (l.foldl f st) := by
  induction l with
  | nil => intro st; exact zerosKept_refl st
  | cons k rest ih => intro st; exact zerosKept_trans (hf st k) (ih (f st k))

/-- A property established by the step for `k` and stable under further zeroing holds for
every `k` of the list after the fold. -/
theorem foldl_establishes (f : List Nat → Nat → List Nat) (Q : Nat → List Nat → Prop)
    (hf : ∀ st k, ZerosKept st (f st k))
    (hQ : ∀ k st st', ZerosKept st st' → Q k st → Q k st')
    (l : List Nat) :
    ∀ st, (∀ k ∈ l, ∀ st0, Q k (f st0 k)) → ∀ k ∈ l, Q k (l.foldl f st) := by
  induction l with
  | nil => intro st _ k hk; simp at hk
  | cons a rest ih =>
    intro st hstep k hk
    rcases List.mem_cons.1 hk with e | e
    · rw [e]
      exact hQ a _ _ (foldl_zerosKept f hf rest (f st a)) (hstep a (List.mem_cons_self _ _) st)
    · exact ih (f st a) (fun k' hk' => hstep k' (List.mem_cons_of_mem _ hk')) k e

theorem gpuSuppressStep_zerosKept (m : Int) (inB : Point2f → Bool) (n : Nat)
    (ptAt : Nat → Point2f) (cntAt : Nat → Int) (stAt : List Nat → Nat → Nat) (st : List Nat)
    (i : Nat) : ZerosKept st (gpuSuppressStep m inB n ptAt cntAt stAt st i) := by
  unfold gpuSuppressStep
  dsimp only
  refine zerosKept_trans ?_ (foldl_zerosKept _ (gpuPairStep_zerosKept m ptAt cntAt i) _ _)
  split_ifs
  · exact zerosKept_set st i
  · exact zerosKept_refl st

/-- After the suppression loop, of every two indices whose points are closer than
`MIN_DIST` at least one has status zero. -/
theorem gpuSuppress_close_pair (m : Int) (inB : Point2f → Bool) (n : Nat)
    (ptAt : Nat → Point2f) (cntAt : Nat → Int) (stAt : List Nat → Nat → Nat) (status : List Nat) :
    (gpuSuppress m inB n ptAt cntAt stAt status).length = status.length ∧
    ∀ i j, i < j → j < n → j < status.length →
      distSq (ptAt i) (ptAt j) < ((m * m : Int) : ℚ) →
      (gpuSuppress m inB n ptAt cntAt stAt status)[i]? = some 0 ∨
      (gpuSuppress m inB n ptAt cntAt stAt status)[j]? = some 0 := by
  have hzk : ZerosKept status (gpuSuppress m inB n ptAt cntAt stAt status) :=
    foldl_zerosKept _ (gpuSuppressStep_zerosKept m inB n ptAt cntAt stAt) _ _
  refine ⟨hzk.1, ?_⟩
  intro i j hij hjn hjlen hclose
  -- the property established by the outer step for index `i`
  let Q : Nat → List Nat → Prop := fun i st =>
    ∀ j, i < j → j < n → j < st.length → distSq (ptAt i) (ptAt j) < ((m * m : Int) : ℚ) →
      st[i]? = some 0 ∨ st[j]? = some 0
  have hQstable : ∀ k st st', ZerosKept st st' → Q k st → Q k st' := by
    intro k st st' hz hq j' h1 h2 h3 h4
    rcases hq j' h1 h2 (by rw [← hz.1]; exact h3) h4 with h | h
    · exact Or.inl (hz.2 _ h)
    · exact Or.inr (hz.2 _ h)
  have hQstep : ∀ k ∈ List.range n, ∀ st0, Q k (gpuSuppressStep m inB n ptAt cntAt stAt st0 k) := by
    intro k _ st0 j' h1 h2 h3 h4
    -- inner loop
    let R : Nat → List Nat → Prop := fun j st =>
      k < j → j < st.length → distSq (ptAt k) (ptAt j) < ((m * m : Int) : ℚ) →
        st[k]? = some 0 ∨ st[j]? = some 0
    have hRstable : ∀ j st st', ZerosKept st st' → R j st → R j st' := by
      intro j st st' hz hr a b c
      rcases hr a (by rw [← hz.1]; exact b) c with h | h
      · exact Or.inl (hz.2 _ h)
      · exact Or.inr (hz.2 _ h)
    have hRstep : ∀ j ∈ List.range' (k + 1) (n - (k + 1)), ∀ st0,
        R j (gpuPairStep m ptAt cntAt k st0 j) := by
      intro j _ st1 a b c
      have hlen : (gpuPairStep m ptAt cntAt k st1 j).length = st1.length :=
        (gpuPairStep_zerosKept m ptAt cntAt k st1 j).1
      rw [hlen] at b
      unfold gpuPairStep
      rw [if_pos c]
      split_ifs
      · exact Or.inl (getElem?_set_self_zero st1 k (by omega))
      · exact Or.inr (getElem?_set_self_zero st1 j b)
    have hmem : j' ∈ List.range' (k + 1) (n - (k + 1)) := by
      rw [List.mem_range']
      exact ⟨j' - (k + 1), by omega, by omega⟩
    have := foldl_establishes (gpuPairStep m ptAt cntAt k) R (gpuPairStep_zerosKept m ptAt cntAt k)
      hRstable (List.range' (k + 1) (n - (k + 1)))
      (if stAt st0 k ≠ 0 ∧ inB (ptAt k) = false then st0.set k 0 else st0) hRstep j' hmem
    exact this h1 h3 h4
  have := foldl_establishes (gpuSuppressStep m inB n ptAt cntAt stAt) Q
    (gpuSuppressStep_zerosKept m inB n ptAt cntAt stAt) hQstable (List.range n) status hQstep i
    (List.mem_range.2 (by omega))
  exact this j hij hjn (by have := hzk.1; unfold gpuSuppress at this; omega) hclose

/-- Elements kept by `reduceVector` are pairwise related when the elements at any two
indices with non-zero status are. -/
theorem reduceVector_pairwise {α : Type} (R : α → α → Prop) (oob : Nat → Nat) (v : List α)
    (st : List Nat) (hlen : v.length = st.length)
    (h : ∀ i j (hi : i < v.length) (hj : j < v.length), i < j →
      st[i]? ≠ some 0 → st[j]? ≠ some 0 → R v[i] v[j]) :
    (reduceVector oob v st).Pairwise R := by
  rw [reduceVector_eq_filter v oob st (by omega), List.pairwise_map, List.pairwise_filter,
    List.pairwise_iff_getElem]
  intro i j hi hj hij h1 h2
  have hi' : i < v.length := by
    have := hi; rw [List.length_zip] at this; omega
  have hj' : j < v.length := by
    have := hj; rw [List.length_zip] at this; omega
  simp only [List.getElem_zip, decide_eq_true_eq, ne_eq] at h1 h2 ⊢
  refine h i j hi' hj' hij ?_ ?_
  · rw [List.getElem?_eq_getElem (by omega)]
    simpa using h1
  · rw [List.getElem?_eq_getElem (by omega)]
    simpa using h2

theorem flowLKGPU_length (env : Env) (s : FeatureTracker) (cur_pyr : List Mat) (h : FlowOK env) :
    (s.flowLKGPU env cur_pyr).1.length = s.prev_pts.length ∧
    (s.flowLKGPU env cur_pyr).2.length = s.prev_pts.length := by
  unfold FeatureTracker.flowLKGPU
  dsimp only
  split_ifs <;> exact h.2 _ _ _ _ _

/-- The points that survive the temporal block of `trackImageGPU` are pairwise at squared
distance at least `MIN_DIST * MIN_DIST`. -/
theorem temporalFlowGPU_separated (env : Env) (P : Params) (s : FeatureTracker)
    (cur_pyr : List Mat) (hflow : FlowOK env) (hcur : s.cur_pts = []) :
    (s.temporalFlowGPU env P cur_pyr).cur_pts.Pairwise
      (fun a b => ((P.MIN_DIST * P.MIN_DIST : Int) : ℚ) ≤ distSq a b) := by
  unfold FeatureTracker.temporalFlowGPU
  split_ifs with hp
  · have hlk := flowLKGPU_length env s cur_pyr hflow
    show (reduceVector (env.oobStatus 18) (s.flowLKGPU env cur_pyr).1
      (s.flowStatusGPU env P cur_pyr)).Pairwise _
    unfold FeatureTracker.flowStatusGPU
    dsimp only
    generalize hst1 : (if P.FLOW_BACK = true then
        flowBackLoop (fun i => decide (readAt (env.oobStatus 21)
          (env.sparsePyrLK cur_pyr s.prev_pyr (s.flowLKGPU env cur_pyr).1 s.prev_pts true).2 i ≠ 0) &&
          distanceLeHalf (readAt (env.oobPoint 14) s.prev_pts i) (readAt (env.oobPoint 15)
          (env.sparsePyrLK cur_pyr s.prev_pyr (s.flowLKGPU env cur_pyr).1 s.prev_pts true).1 i))
          0 (s.flowLKGPU env cur_pyr).2
        else (s.flowLKGPU env cur_pyr).2) = status1
    have hlen1 : status1.length = (s.flowLKGPU env cur_pyr).1.length := by
      rw [← hst1]
      split_ifs
      · rw [flowBackLoop_length]; omega
      · omega
    obtain ⟨hlen, hpair⟩ := gpuSuppress_close_pair P.MIN_DIST s.inBorder
      (s.flowLKGPU env cur_pyr).1.length (readAt (env.oobPoint 16) (s.flowLKGPU env cur_pyr).1)
      (readAt (env.oobInt 4) s.track_cnt) (readAt (env.oobStatus 22)) status1
    apply reduceVector_pairwise _ _ _ _ (by omega)
    intro i j hi hj hij h1 h2
    by_contra hlt
    have hclose := not_le.1 hlt
    rw [← readAt_of_lt (env.oobPoint 16) _ i hi, ← readAt_of_lt (env.oobPoint 16) _ j hj] at hclose
    rcases hpair i j hij hj (by omega) hclose with h | h
    · exact h1 h
    · exact h2 h
  · rw [hcur]; exact List.Pairwise.nil

theorem closeNewPt_false (m : Int) (cur_pts : List Point2f) (p : Point2f)
    (h : closeNewPt m cur_pts p = false) :
    ∀ q ∈ cur_pts, ((m * m : Int) : ℚ) < distSq q p := by
  intro q hq
  unfold closeNewPt at h
  rw [List.any_eq_false] at h
  have := h q hq
  simpa using this

/-- The replenishment loop appends a subsequence of the candidates; each appended
candidate is farther than `MIN_DIST` from every point present when it is appended, and is
appended while `cur_pts.size() >= max_cnt` is false. -/
theorem replenish_appends (P : Params) (cands : List Point2f) :
    ∀ s : FeatureTracker, ∃ acc : List Point2f,
      (FeatureTracker.replenish P s cands).cur_pts = s.cur_pts ++ acc ∧ acc.Sublist cands ∧
      ∀ pre p post, acc = pre ++ p :: post →
        (∀ q ∈ s.cur_pts ++ pre, ((P.MIN_DIST * P.MIN_DIST : Int) : ℚ) < distSq q p) ∧
        ¬ (s.max_cnt % 2 ^ 64 ≤ ((s.cur_pts ++ pre).length : Int)) := by
  induction cands with
  | nil =>
    intro s
    exact ⟨[], by simp [FeatureTracker.replenish], List.Sublist.refl _,
      fun pre p post h => by simp at h⟩
  | cons c rest ih =>
    intro s
    unfold FeatureTracker.replenish
    split_ifs with hfull hclose
    · exact ⟨[], by simp, List.nil_sublist _, fun pre p post h => by simp at h⟩
    · obtain ⟨acc, h1, h2, h3⟩ := ih s
      exact ⟨acc, h1, h2.cons c, h3⟩
    · obtain ⟨acc, h1, h2, h3⟩ := ih (s.addPoint c)
      refine ⟨c :: acc, ?_, h2.cons₂ c, ?_⟩
      · rw [h1]; simp [FeatureTracker.addPoint]
      · intro pre p post hdec
        cases pre with
        | nil =>
          simp only [List.nil_append, List.cons.injEq] at hdec
          rw [← hdec.1]
          refine ⟨?_, by simpa using hfull⟩
          simpa using closeNewPt_false P.MIN_DIST s.cur_pts c (by simpa using hclose)
        | cons x pre' =>
          simp only [List.cons_append, List.cons.injEq] at hdec
          obtain ⟨hx, hacc⟩ := hdec
          have := h3 pre' p post hacc
          simp only [FeatureTracker.addPoint, List.append_assoc, List.singleton_append] at this
          rw [← hx]
          exact this

/-- The replenishment loop keeps the points pairwise separated. -/
theorem replenish_separated (P : Params) (cands : List Point2f) (s : FeatureTracker)
    (h : s.cur_pts.Pairwise (fun a b => ((P.MIN_DIST * P.MIN_DIST : Int) : ℚ) ≤ distSq a b)) :
    (FeatureTracker.replenish P s cands).cur_pts.Pairwise
      (fun a b => ((P.MIN_DIST * P.MIN_DIST : Int) : ℚ) ≤ distSq a b) := by
  obtain ⟨acc, h1, -, h3⟩ := replenish_appends P cands s
  rw [h1]
  clear h1
  induction acc using List.reverseRecOn with
  | nil => simpa using h
  | append_singleton pre p ih =>
    rw [← List.append_assoc, List.pairwise_append]
    refine ⟨ih ?_, List.pairwise_singleton _ _, ?_⟩
    · intro pre' p' post' hdec
      exact h3 pre' p' (post' ++ [p]) (by rw [hdec]; simp)
    · intro a ha b hb
      rw [List.mem_singleton] at hb
      rw [hb]
      exact le_of_lt ((h3 pre p [] rfl).1 a ha)

theorem temporalFlowGPU_max_cnt (env : Env) (P : Params) (s : FeatureTracker)
    (cur_pyr : List Mat) : (s.temporalFlowGPU env P cur_pyr).max_cnt = s.max_cnt := by
  unfold FeatureTracker.temporalFlowGPU
  split_ifs <;> rfl

theorem augmentGPU_cur_pts (P : Params) (s : FeatureTracker) (img1 : Mat) :
    (s.augmentGPU P img1).cur_pts = s.cur_pts := by
  unfold FeatureTracker.augmentGPU
  split_ifs <;> rfl

theorem replenish_max_cnt (P : Params) (cands : List Point2f) :
    ∀ s : FeatureTracker, (FeatureTracker.replenish P s cands).max_cnt = s.max_cnt := by
  induction cands with
  | nil => intro s; rfl
  | cons c rest ih =>
    intro s
    unfold FeatureTracker.replenish
    split_ifs
    · rfl
    · exact ih s
    · exact (ih (s.addPoint c)).trans rfl

/-- C4. Spatial separation on the GPU path: after `trackImageGPU` every two distinct points of
`cur_pts` are at Euclidean distance at least `MIN_DIST` (their squared distance is at least
`MIN_DIST * MIN_DIST`); `cur_pts` consists of the survivors of the pairwise suppression
followed by a subsequence of the detector candidates, each of which was farther than
`MIN_DIST` from every point already in `cur_pts` when it was appended and was appended
while `|cur_pts| < max_cnt`.  The routines are assumed to return one entry per input point,
and `max_cnt`, a C++ `int`, to be below `2 ^ 64`. -/
theorem gpu_spatial_separation (env : Env) (P : Params) (s : FeatureTracker) (t : ℚ)
    (img img1 : Mat) (hflow : FlowOK env) (hmax : s.max_cnt < 2 ^ 64) :
    (s.trackImageGPU env P t img img1).1.cur_pts.Pairwise
      (fun a b => ((P.MIN_DIST * P.MIN_DIST : Int) : ℚ) ≤ distSq a b) ∧
    ∃ survivors acc : List Point2f,
      (s.trackImageGPU env P t img img1).1.cur_pts = survivors ++ acc ∧
      survivors.Pairwise (fun a b => ((P.MIN_DIST * P.MIN_DIST : Int) : ℚ) ≤ distSq a b) ∧
      acc.Sublist (if 0 < s.max_cnt then env.detectGPU img s.max_cnt P.MIN_DIST else []) ∧
      ∀ pre p post, acc = pre ++ p :: post →
        (∀ q ∈ survivors ++ pre, ((P.MIN_DIST * P.MIN_DIST : Int) : ℚ) < distSq q p) ∧
        ((survivors ++ pre).length : Int) < s.max_cnt := by
  -- the state in which the replenishment loop starts
  let s0 : FeatureTracker := { s with cur_time := t, row := img.rows, col := img.cols, cur_pts := [] }
  let s1 : FeatureTracker :=
    { s0.temporalFlowGPU env P (buildImagePyramid env img 3) with
      prev_pyr := buildImagePyramid env img 3 }
  let s2 : FeatureTracker := s1.ageTracks.detectGPU env P img
  have hcur : (s.trackImageGPU env P t img img1).1.cur_pts
      = (FeatureTracker.replenish P s2 s2.n_pts).cur_pts := by
    show (FeatureTracker.augmentGPU P _ img1).cur_pts = _
    rw [augmentGPU_cur_pts]
    rfl
  have hsurv : s2.cur_pts.Pairwise (fun a b => ((P.MIN_DIST * P.MIN_DIST : Int) : ℚ) ≤ distSq a b) :=
    temporalFlowGPU_separated env P s0 (buildImagePyramid env img 3) hflow rfl
  have hmc : s2.max_cnt = s.max_cnt := temporalFlowGPU_max_cnt env P s0 _
  have hn : s2.n_pts = if 0 < s.max_cnt then env.detectGPU img s.max_cnt P.MIN_DIST else [] := by
    show (if 0 < s1.ageTracks.max_cnt then env.detectGPU img s1.ageTracks.max_cnt P.MIN_DIST
      else []) = _
    have : s1.ageTracks.max_cnt = s.max_cnt := temporalFlowGPU_max_cnt env P s0 _
    rw [this]
  refine ⟨?_, ?_⟩
  · rw [hcur]; exact replenish_separated P s2.n_pts s2 hsurv
  · obtain ⟨acc, h1, h2, h3⟩ := replenish_appends P s2.n_pts s2
    refine ⟨s2.cur_pts, acc, hcur.trans h1, hsurv, by rw [← hn]; exact h2, ?_⟩
    intro pre p post hdec
    obtain ⟨ha, hb⟩ := h3 pre p post hdec
    refine ⟨ha, ?_⟩
    rw [hmc] at hb
    by_cases hpos : 0 < s.max_cnt
    · rw [Int.emod_eq_of_lt (le_of_lt hpos) hmax] at hb
      omega
    · exfalso
      rw [hn, if_neg hpos] at h2
      rw [List.sublist_nil] at h2
      rw [h2] at hdec
      simp at hdec

set_option maxRecDepth 100000 in
/-- Witness for C4: the second GPU frame on the sample inputs, where both tracked points
survive the suppression and both detector candidates are too close to be appended. -/
theorem gpu_spatial_separation_witness :
    FlowOK sampleEnv ∧ sampleGpuState1.max_cnt < 2 ^ 64 ∧
    (sampleGpuState1.trackImageGPU sampleEnv sampleParams 2 sampleImg Mat.none).1.cur_pts
      = [⟨3 / 4, 5⟩, ⟨159 / 4, 40⟩] ∧
    (sampleGpuState1.trackImageGPU sampleEnv sampleParams 2 sampleImg Mat.none).1.cur_pts.Pairwise
      (fun a b => ((sampleParams.MIN_DIST * sampleParams.MIN_DIST : Int) : ℚ) ≤ distSq a b) :=
  ⟨sampleEnv_flowOK, by with_unfolding_all decide, by with_unfolding_all decide,
    (gpu_spatial_separation sampleEnv sampleParams sampleGpuState1 2 sampleImg Mat.none
      sampleEnv_flowOK (by with_unfolding_all decide)).1⟩

/-! ## Velocity and emission -/

theorem velocityLoop_zero (idAt : Nat → Int) (prev : IdMap Point2f) (dt : ℚ)
    (pts : List Point2f) :
    ∀ (i k : Nat), k < pts.length → prev.find (idAt (i + k)) = Option.none →
      (velocityLoop idAt prev dt i pts).1[k]? = some ⟨0, 0⟩ := by
  induction pts with
  | nil => intro i k hk; simp at hk
  | cons p rest ih =>
    intro i k hk hfind
    cases k with
    | zero =>
      simp only [Nat.add_zero] at hfind
      simp only [velocityLoop, hfind]
      simp
    | succ k' =>
      have := ih (i + 1) k' (by simpa using hk) (by rwa [Nat.add_assoc, Nat.add_comm 1 k'])
      simp only [velocityLoop]
      split <;> simpa using this

/-- The velocity computed by the geometry step for an index whose identity has no previous
observation is `(0, 0)`. -/
theorem geometry_velocity_zero (env : Env) (s : FeatureTracker) (k : Nat) (id : Int)
    (hlen : s.cur_pts.length = s.ids.length) (hk : s.ids[k]? = some id)
    (hfind : s.prev_un_pts_map.find id = Option.none) :
    (s.geometry env).pts_velocity[k]? = some ⟨0, 0⟩ := by
  have hklt : k < s.ids.length := by
    by_contra h
    rw [List.getElem?_eq_none (by omega)] at hk
    simp at hk
  show (s.ptsVelocity env s.ids (undistortedPts env s.cur_pts 0) s.prev_un_pts_map).1[k]? = _
  unfold FeatureTracker.ptsVelocity
  dsimp only
  split_ifs with hne
  · apply velocityLoop_zero
    · simp [undistortedPts]; omega
    · rw [Nat.zero_add, readAt_of_lt _ _ _ hklt]
      rw [List.getElem?_eq_getElem hklt] at hk
      rw [Option.some.inj hk]
      exact hfind
  · rw [List.getElem?_map, List.getElem?_eq_getElem (by omega)]
    rfl

theorem find_assign {α : Type} (m : IdMap α) (k : Int) (v : α) (k' : Int) :
    (m.assign k v).find k' = if k = k' then some v else m.find k' := by
  induction m with
  | nil => simp [IdMap.assign, IdMap.find]
  | cons a rest ih =>
    obtain ⟨ka, va⟩ := a
    simp only [IdMap.assign]
    by_cases h1 : ka = k
    · subst h1
      by_cases h2 : ka = k' <;> simp [IdMap.find, h2]
    · simp only [h1, if_false, IdMap.find, ih]
      by_cases h2 : ka = k'
      · have : ¬ k = k' := fun e => h1 (h2.trans e.symm)
        simp [h2, this]
      · simp [h2]

theorem emitLeft_find_notin (env : Env) (s : FeatureTracker) (ids : List Int) :
    ∀ (i : Nat) (m : IdMap FeaturePerFrame) (k : Int), k ∉ ids →
      (s.emitLeft env i ids m).find k = m.find k := by
  induction ids with
  | nil => intro i m k _; rfl
  | cons a rest ih =>
    intro i m k hk
    simp only [List.mem_cons, not_or] at hk
    simp only [FeatureTracker.emitLeft]
    rw [ih (i + 1) _ k hk.2, find_assign]
    have : ¬ a = k := fun e => hk.1 e.symm
    simp [this]

/-- With pairwise distinct identities, the record emitted under `ids[j]` is the one built
for index `j`. -/
theorem emitLeft_find (env : Env) (s : FeatureTracker) (ids : List Int) :
    ∀ (i : Nat) (m : IdMap FeaturePerFrame), ids.Nodup → ∀ (j : Nat) (id : Int),
      ids[j]? = some id → (s.emitLeft env i ids m).find id = some (s.leftRecord env (i + j)) := by
  induction ids with
  | nil => intro i m _ j id h; simp at h
  | cons a rest ih =>
    intro i m hnd j id hj
    obtain ⟨hna, hnd'⟩ := List.nodup_cons.1 hnd
    simp only [FeatureTracker.emitLeft]
    cases j with
    | zero =>
      simp only [List.getElem?_cons_zero, Option.some.injEq] at hj
      subst hj
      rw [emitLeft_find_notin env s rest (i + 1) _ a hna, find_assign]
      simp
    | succ j' =>
      simp only [List.getElem?_cons_succ] at hj
      rw [ih (i + 1) _ hnd' j' id hj]
      congr 2
      omega

theorem updateRecord_find_velocity (m : IdMap FeaturePerFrame) (k : Int)
    (f : FeaturePerFrame → FeaturePerFrame) (hf : ∀ r, (f r).velocity = r.velocity)
    (k' : Int) (r : FeaturePerFrame) (h : m.find k' = some r) :
    ∃ r', (updateRecord m k f).find k' = some r' ∧ r'.velocity = r.velocity := by
  induction m with
  | nil => simp [IdMap.find] at h
  | cons a rest ih =>
    obtain ⟨ka, va⟩ := a
    simp only [updateRecord]
    by_cases h1 : ka = k
    · simp only [h1, if_true]
      by_cases h2 : k = k'
      · simp only [IdMap.find, h1, h2, if_true, Option.some.injEq] at h ⊢
        exact ⟨f va, rfl, by rw [hf, h]⟩
      · simp only [IdMap.find, h1, h2, if_false] at h ⊢
        exact ⟨r, h, rfl⟩
    · simp only [h1, if_false]
      by_cases h2 : ka = k'
      · simp only [IdMap.find, h2, if_true, Option.some.injEq] at h ⊢
        exact ⟨va, rfl, by rw [h]⟩
      · simp only [IdMap.find, h2, if_false] at h ⊢
        exact ih h

/-- The right-view emission loop keeps every record present and leaves its left-view
velocity as it is. -/
theorem emitRight_find_velocity (env : Env) (s : FeatureTracker) (ids_right : List Int) :
    ∀ (i : Nat) (m : IdMap FeaturePerFrame) (k : Int) (r : FeaturePerFrame),
      m.find k = some r →
      ∃ r', (s.emitRight env i ids_right m).find k = some r' ∧ r'.velocity = r.velocity := by
  induction ids_right with
  | nil => intro i m k r h; exact ⟨r, h, rfl⟩
  | cons a rest ih =>
    intro i m k r h
    simp only [FeatureTracker.emitRight]
    obtain ⟨r1, h1, e1⟩ := updateRecord_find_velocity m a (fun r =>
      { r with
        pointRight := ⟨(readAt (env.oobPoint 11) s.cur_un_right_pts i).x,
          (readAt (env.oobPoint 11) s.cur_un_right_pts i).y, 1⟩
        uvRight := readAt (env.oobPoint 12) s.cur_right_pts i
        velocityRight := readAt (env.oobPoint 13) s.right_pts_velocity i
        is_stereo := true }) (fun _ => rfl) k r h
    obtain ⟨r2, h2, e2⟩ := ih (i + 1) _ k r1 h1
    exact ⟨r2, h2, e2.trans e1⟩

/-- The record emitted under `ids[j]` carries the velocity `pts_velocity[j]`. -/
theorem emit_velocity (env : Env) (s : FeatureTracker) (img1 : Mat) (hnd : s.ids.Nodup)
    (j : Nat) (id : Int) (v : Point2f) (hj : s.ids[j]? = some id)
    (hv : s.pts_velocity[j]? = some v) :
    ∃ r, (s.emit env img1).find id = some r ∧ r.velocity = v := by
  have hleft := emitLeft_find env s s.ids 0 [] hnd j id hj
  have hvel : (s.leftRecord env (0 + j)).velocity = v := by
    have hjlt : j < s.pts_velocity.length := by
      by_contra h
      rw [List.getElem?_eq_none (by omega)] at hv
      simp at hv
    rw [List.getElem?_eq_getElem hjlt] at hv
    simp only [FeatureTracker.leftRecord, Nat.zero_add, readAt_of_lt _ _ _ hjlt]
    exact Option.some.inj hv
  unfold FeatureTracker.emit
  dsimp only
  split_ifs
  · obtain ⟨r', h1, h2⟩ := emitRight_find_velocity env s s.ids_right 0 _ id _ hleft
    exact ⟨r', h1, h2.trans hvel⟩
  · exact ⟨_, hleft, hvel⟩

/-- C7. Velocity zero on creation: over a `trackImage` call on a reachable state, every
identity of the new `ids` that was not in `ids` before has the `pts_velocity` entry `(0, 0)`
at its index, and the record emitted under it has velocity `(0, 0)`. -/
theorem velocity_zero_on_creation (env : Env) (P : Params) (s : FeatureTracker) (t : ℚ)
    (img img1 : Mat) (hs : Reachable s) (hok : OraclesOK env) :
    ∀ (i : Nat) (id : Int), (s.trackImage env P t img img1).1.ids[i]? = some id → id ∉ s.ids →
      (s.trackImage env P t img img1).1.pts_velocity[i]? = some ⟨0, 0⟩ ∧
      ∃ r, (s.trackImage env P t img img1).2.find id = some r ∧ r.velocity = ⟨0, 0⟩ := by
  intro i id hi hnew
  have hinv := reachable_inv s hs
  have hinv' : Inv (s.trackImageState env P t img img1) :=
    trackImageState_inv env P s t img img1 hok hinv
  -- the identity is at least the former `n_id`, hence not a key of `prev_un_pts_map`
  have hmem : id ∈ (s.trackImageState env P t img img1).ids := List.getElem?_mem hi
  have hge : s.n_id ≤ id := by
    rcases apply_ids (Call.trackImage env P t img img1) s hok hinv id hmem with h | h
    · exact absurd h hnew
    · exact h
  have hnokey : s.prev_un_pts_map.find id = Option.none := by
    apply find_eq_none_of_not_mem_keys
    intro hk
    have := hinv.2.2.2.2.1 id hk
    omega
  -- the state on which the geometry step runs
  obtain ⟨K, _, _, _, _, hprev⟩ :=
    beforeAdd_pairs env P s t img hok.1 hok.2.1 (fun l => (hok.2.2 l).1) hinv.1 hinv.2.1
  have hfold := foldl_addPoint
    ((((((s.beginFrame env P t img).temporalFlow env P).ageTracks).rejectWithF env P).setMask
        env P).detect env P).n_pts
    ((((((s.beginFrame env P t img).temporalFlow env P).ageTracks).rejectWithF env P).setMask
        env P).detect env P)
  have hlenC1 := trackImageState_lengths env P s t img img1 hok.1 hok.2.1 hinv.1 hinv.2.1
  have hal := augment_left env P
    ((((((((s.beginFrame env P t img).temporalFlow env P).ageTracks).rejectWithF env P).setMask
      env P).detect env P).addNewPoints).geometry env) img1
  have hidsN : (s.trackImageState env P t img img1).ids
      = (((((((s.beginFrame env P t img).temporalFlow env P).ageTracks).rejectWithF env P).setMask
        env P).detect env P).addNewPoints).ids := hal.2.1
  have hcurN : (s.trackImageState env P t img img1).cur_pts
      = (((((((s.beginFrame env P t img).temporalFlow env P).ageTracks).rejectWithF env P).setMask
        env P).detect env P).addNewPoints).cur_pts := hal.1
  have hvelN : (s.trackImageState env P t img img1).pts_velocity
      = ((((((((s.beginFrame env P t img).temporalFlow env P).ageTracks).rejectWithF env P).setMask
        env P).detect env P).addNewPoints).geometry env).pts_velocity := hal.2.2.2.2
  have hvel : (s.trackImageState env P t img img1).pts_velocity[i]? = some ⟨0, 0⟩ := by
    rw [hvelN]
    apply geometry_velocity_zero env _ i id
    · rw [← hidsN, ← hcurN]; exact hlenC1.1
    · rw [← hidsN]; exact hi
    · have : (((((((s.beginFrame env P t img).temporalFlow env P).ageTracks).rejectWithF env
          P).setMask env P).detect env P).addNewPoints).prev_un_pts_map = s.prev_un_pts_map := by
        unfold FeatureTracker.addNewPoints
        rw [hfold.2.2.2.2.1, hprev]
      rw [this]; exact hnokey
  exact ⟨hvel, emit_velocity env _ img1 hinv'.2.2.1 i id ⟨0, 0⟩ hi hvel⟩

/-! ## Sample runs -/

theorem create_reachable (d st : Bool) (m : Int) : Reachable (FeatureTracker.create d st m) :=
  ⟨d, st, m, [], fun _ h => by simp at h, rfl⟩

theorem sampleState1_reachable : Reachable sampleState1 :=
  ⟨false, false, 10, [Call.trackImage sampleEnv sampleParams 0 sampleImg Mat.none],
    fun c hc => by
      rw [List.mem_singleton] at hc
      rw [hc]
      exact sampleEnv_ok,
    rfl⟩

set_option maxRecDepth 100000 in
theorem sampleState1_pairs :
    sampleState1.ids = [0, 1] ∧ sampleState1.track_cnt = [1, 1] ∧
    sampleState1.prev_pts.length = 2 := by
  with_unfolding_all decide

set_option maxRecDepth 100000 in
theorem sampleState2_pairs :
    (sampleState1.trackImage sampleEnv sampleParams 1 sampleImg Mat.none).1.ids = [0, 1] ∧
    (sampleState1.trackImage sampleEnv sampleParams 1 sampleImg Mat.none).1.track_cnt = [2, 2] := by
  with_unfolding_all decide

set_option maxRecDepth 100000 in
theorem sampleFrame1_ids :
    ((FeatureTracker.create false false 10).trackImage sampleEnv sampleParams 0 sampleImg
      Mat.none).1.ids = [0, 1] := by
  with_unfolding_all decide

/-- C1. Parallel length agreement on the CPU path: if `prev_pts`, `ids` and `track_cnt` have
one length at entry, and the optical-flow and RANSAC routines return one entry per input
point, then after `trackImage` the sequences `cur_pts`, `ids`, `track_cnt`, `cur_un_pts` and
`pts_velocity` have one length, and `prev_pts`, `ids` and `track_cnt` have one length
again. -/
theorem trackImage_length_agreement (env : Env) (P : Params) (s : FeatureTracker) (t : ℚ)
    (img img1 : Mat) (hflow : FlowOK env) (hransac : RansacOK env)
    (h1 : s.prev_pts.length = s.ids.length) (h2 : s.ids.length = s.track_cnt.length) :
    (s.trackImage env P t img img1).1.cur_pts.length = (s.trackImage env P t img img1).1.ids.length ∧
    (s.trackImage env P t img img1).1.ids.length
      = (s.trackImage env P t img img1).1.track_cnt.length ∧
    (s.trackImage env P t img img1).1.track_cnt.length
      = (s.trackImage env P t img img1).1.cur_un_pts.length ∧
    (s.trackImage env P t img img1).1.cur_un_pts.length
      = (s.trackImage env P t img img1).1.pts_velocity.length ∧
    (s.trackImage env P t img img1).1.prev_pts.length
      = (s.trackImage env P t img img1).1.ids.length ∧
    (s.trackImage env P t img img1).1.ids.length
      = (s.trackImage env P t img img1).1.track_cnt.length := by
  have ht := temporalFlow_lengths env P (s.beginFrame env P t img) hflow h1 h2 rfl
  have hr := rejectWithF_lengths env P ((s.beginFrame env P t img).temporalFlow env P).ageTracks
    hransac (by simpa [FeatureTracker.ageTracks] using ht.1)
    (by simpa [FeatureTracker.ageTracks] using ht.2.1)
  have hm := setMask_lengths env P
    ((((s.beginFrame env P t img).temporalFlow env P).ageTracks).rejectWithF env P)
  have ha := addNewPoints_lengths
    ((((((s.beginFrame env P t img).temporalFlow env P).ageTracks).rejectWithF env P).setMask
      env P).detect env P) hm.1 hm.2
  obtain ⟨g1, g2, g3, g4, g5⟩ := geometry_lengths env
    ((((((s.beginFrame env P t img).temporalFlow env P).ageTracks).rejectWithF env P).setMask
      env P).detect env P).addNewPoints
  obtain ⟨a1, a2, a3, a4, a5⟩ := augment_left env P
    ((((((((s.beginFrame env P t img).temporalFlow env P).ageTracks).rejectWithF env P).setMask
      env P).detect env P).addNewPoints).geometry env) img1
  simp only [FeatureTracker.trackImage, FeatureTracker.trackImageState, FeatureTracker.promote,
    a1, a2, a3, a4, a5, g1, g2, g3, g4, g5]
  exact ⟨ha.1, ha.2, by omega, trivial, ha.1, ha.2⟩

/-- Witness for C1: the second frame of the sample run. -/
theorem trackImage_length_agreement_witness :
    FlowOK sampleEnv ∧ RansacOK sampleEnv ∧
    sampleState1.prev_pts.length = sampleState1.ids.length ∧
    sampleState1.ids.length = sampleState1.track_cnt.length ∧
    (sampleState1.trackImage sampleEnv sampleParams 1 sampleImg Mat.none).1.cur_pts.length
      = (sampleState1.trackImage sampleEnv sampleParams 1 sampleImg Mat.none).1.ids.length ∧
    (sampleState1.trackImage sampleEnv sampleParams 1 sampleImg Mat.none).1.cur_un_pts.length
      = (sampleState1.trackImage sampleEnv sampleParams 1 sampleImg Mat.none).1.pts_velocity.length :=
  ⟨sampleEnv_flowOK, sampleEnv_ransacOK,
    by rw [sampleState1_pairs.1, sampleState1_pairs.2.2]; rfl,
    by rw [sampleState1_pairs.1, sampleState1_pairs.2.1]; rfl,
    (trackImage_length_agreement sampleEnv sampleParams sampleState1 1 sampleImg Mat.none
      sampleEnv_flowOK sampleEnv_ransacOK
      (by rw [sampleState1_pairs.1, sampleState1_pairs.2.2]; rfl)
      (by rw [sampleState1_pairs.1, sampleState1_pairs.2.1]; rfl)).1,
    (trackImage_length_agreement sampleEnv sampleParams sampleState1 1 sampleImg Mat.none
      sampleEnv_flowOK sampleEnv_ransacOK
      (by rw [sampleState1_pairs.1, sampleState1_pairs.2.2]; rfl)
      (by rw [sampleState1_pairs.1, sampleState1_pairs.2.1]; rfl)).2.2.2.1⟩

/-- Witness for C7: identity 0, assigned in the first frame of the sample run. -/
theorem velocity_zero_on_creation_witness :
    Reachable (FeatureTracker.create false false 10) ∧ OraclesOK sampleEnv ∧
    ((FeatureTracker.create false false 10).trackImage sampleEnv sampleParams 0 sampleImg
      Mat.none).1.ids[0]? = some 0 ∧
    (0 : Int) ∉ (FeatureTracker.create false false 10).ids ∧
    ((FeatureTracker.create false false 10).trackImage sampleEnv sampleParams 0 sampleImg
      Mat.none).1.pts_velocity[0]? = some ⟨0, 0⟩ :=
  ⟨create_reachable false false 10, sampleEnv_ok, by rw [sampleFrame1_ids]; rfl,
    by simp [FeatureTracker.create],
    (velocity_zero_on_creation sampleEnv sampleParams (FeatureTracker.create false false 10) 0
      sampleImg Mat.none (create_reachable false false 10) sampleEnv_ok 0 0
      (by rw [sampleFrame1_ids]; rfl) (by simp [FeatureTracker.create])).1⟩

/-- C8. `removeOutliers(S)` on a tracker whose `prev_pts`, `ids` and `track_cnt` have one
length keeps exactly the entries whose identity is not in `S`: `ids` becomes its
subsequence of identities outside `S`, `prev_pts` and `track_cnt` keep the same positions
(the zipped triples are the original triples with identity outside `S`, in order), the
three lengths agree again, and the call changes nothing when `S` is empty or when it is
repeated with the same `S`. -/
theorem removeOutliers_discards_exactly (env : Env) (s : FeatureTracker) (S : Finset Int)
    (h1 : s.prev_pts.length = s.ids.length) (h2 : s.ids.length = s.track_cnt.length) :
    (s.removeOutliers env S).ids = s.ids.filter (fun id => decide (id ∉ S)) ∧
    (∀ id ∈ (s.removeOutliers env S).ids, id ∉ S) ∧
    List.zip (s.removeOutliers env S).prev_pts
        (List.zip (s.removeOutliers env S).ids (s.removeOutliers env S).track_cnt)
      = (List.zip s.prev_pts (List.zip s.ids s.track_cnt)).filter (fun t => decide (t.2.1 ∉ S)) ∧
    (s.removeOutliers env S).prev_pts.length = (s.removeOutliers env S).ids.length ∧
    (s.removeOutliers env S).ids.length = (s.removeOutliers env S).track_cnt.length ∧
    s.removeOutliers env ∅ = s ∧
    (s.removeOutliers env S).removeOutliers env S = s.removeOutliers env S := by
  have hids := removeOutliers_ids env s S
  have hnot : ∀ id ∈ (s.removeOutliers env S).ids, id ∉ S := by
    intro id hid
    rw [hids] at hid
    simpa using (List.mem_filter.1 hid).2
  obtain ⟨f1, f2, f3⟩ := removeOutliers_fields env s S
  have hl1 : (s.removeOutliers env S).prev_pts.length = (s.removeOutliers env S).ids.length := by
    rw [f1, f2]
    exact reduceVector_length_eq _ _ _ _ _ h1 (by simp [h1])
  have hl2 : (s.removeOutliers env S).ids.length = (s.removeOutliers env S).track_cnt.length := by
    rw [f1, f3]
    exact reduceVector_length_eq _ _ _ _ _ h2 (by simp)
  refine ⟨hids, hnot, ?_, hl1, hl2, ?_, ?_⟩
  · rw [f1, f2, f3, reduceVector_zip3 _ _ _ _ _ _ _ h1 h2 (by simp [h1]),
      ← zip3_map_mid (fun id => if id ∈ S then 0 else 1) s.prev_pts s.ids s.track_cnt h1 h2,
      reduceVector_map_self]
    congr 1
    funext t
    by_cases h : t.2.1 ∈ S <;> simp [h]
  · exact removeOutliers_noop env s ∅ h1 h2 (fun id _ => by simp)
  · exact removeOutliers_noop env _ S hl1 hl2 hnot

/-- Witness for C8: removing identity 0 after the first frame of the sample run. -/
theorem removeOutliers_discards_exactly_witness :
    sampleState1.prev_pts.length = sampleState1.ids.length ∧
    sampleState1.ids.length = sampleState1.track_cnt.length ∧
    (sampleState1.removeOutliers sampleEnv {0}).ids
      = sampleState1.ids.filter (fun id => decide (id ∉ ({0} : Finset Int))) :=
  ⟨by rw [sampleState1_pairs.1, sampleState1_pairs.2.2]; rfl,
    by rw [sampleState1_pairs.1, sampleState1_pairs.2.1]; rfl,
    (removeOutliers_discards_exactly sampleEnv sampleState1 {0}
      (by rw [sampleState1_pairs.1, sampleState1_pairs.2.2]; rfl)
      (by rw [sampleState1_pairs.1, sampleState1_pairs.2.1]; rfl)).1⟩

/-! ## `ptsVelocity` -/

theorem velocityLoop_shift (idAt : Nat → Int) (prev : IdMap Point2f) (dt : ℚ)
    (pts : List Point2f) :
    ∀ i, velocityLoop idAt prev dt (i + 1) pts
      = velocityLoop (fun j => idAt (j + 1)) prev dt i pts := by
  induction pts with
  | nil => intro i; rfl
  | cons p rest ih => intro i; simp only [velocityLoop, ih]

/-- With `ids` at least as long as `pts`, the velocity loop maps the zipped pairs to their
velocities and collects the squared speeds of the pairs with a previous observation. -/
theorem velocityLoop_eq_zip (prev : IdMap Point2f) (dt : ℚ) (pts : List Point2f) :
    ∀ (o : Nat → Int) (ids : List Int), pts.length ≤ ids.length →
      velocityLoop (readAt o ids) prev dt 0 pts
        = ((List.zip ids pts).map (fun ip => velocityOf prev dt ip.1 ip.2),
           (List.zip ids pts).filterMap (fun ip => squaredSpeedOf prev dt ip.1 ip.2)) := by
  induction pts with
  | nil => intro o ids _; simp [velocityLoop]
  | cons p rest ih =>
    intro o ids h
    cases ids with
    | nil => simp at h
    | cons id ids =>
      have hshift : velocityLoop (readAt o (id :: ids)) prev dt 1 rest
          = velocityLoop (readAt (fun j => o (j + 1)) ids) prev dt 0 rest := by
        rw [velocityLoop_shift]
        simp only [readAt_cons_succ]
      have hrest := ih (fun j => o (j + 1)) ids (by simpa using h)
      have h0 : readAt o (id :: ids) 0 = id := by simp [readAt]
      simp only [velocityLoop, hshift, hrest, h0, List.zip_cons_cons, List.map_cons,
        List.filterMap_cons, velocityOf, squaredSpeedOf]
      cases hf : prev.find id with
      | none => simp
      | some q => simp

theorem find_append_single {α : Type} (k : Int) (v : α) (k' : Int) :
    ∀ (l : IdMap α), (l ++ [(k, v)]).find k' = match l.find k' with
      | some w => some w
      | Option.none => if k = k' then some v else Option.none := by
  intro l
  induction l with
  | nil => simp [IdMap.find]
  | cons a rest ih =>
    obtain ⟨ka, va⟩ := a
    by_cases h : ka = k'
    · simp [IdMap.find, h]
    · simp only [List.cons_append, IdMap.find, h, if_false]
      exact ih

theorem find_insert_of_some {α : Type} (m : IdMap α) (k : Int) (v : α) (k' : Int) (w : α)
    (h : m.find k' = some w) : (m.insert k v).find k' = some w := by
  unfold IdMap.insert
  cases hk : m.find k with
  | some u => exact h
  | none =>
    simp only
    rw [find_append_single, h]

theorem find_insert_of_none {α : Type} (m : IdMap α) (k : Int) (v : α) (k' : Int)
    (h : m.find k' = Option.none) :
    (m.insert k v).find k' = if k = k' then some v else Option.none := by
  unfold IdMap.insert
  cases hk : m.find k with
  | some u =>
    simp only
    have hne : ¬ k = k' := by
      intro e
      rw [e, h] at hk
      simp at hk
    rw [h, if_neg hne]
  | none =>
    simp only
    rw [find_append_single, h]

theorem fillIdPts_shift (ptAt : Nat → Point2f) (ids : List Int) :
    ∀ (i : Nat) (m : IdMap Point2f),
      fillIdPts ptAt (i + 1) ids m = fillIdPts (fun j => ptAt (j + 1)) i ids m := by
  induction ids with
  | nil => intro i m; rfl
  | cons id rest ih => intro i m; simp only [fillIdPts, ih]

/-- A key already in the map keeps its value through the filling loop. -/
theorem fillIdPts_find_of_some (ptAt : Nat → Point2f) (ids : List Int) :
    ∀ (i : Nat) (m : IdMap Point2f) (k : Int) (v : Point2f), m.find k = some v →
      (fillIdPts ptAt i ids m).find k = some v := by
  induction ids with
  | nil => intro i m k v h; exact h
  | cons id rest ih =>
    intro i m k v h
    simp only [fillIdPts]
    apply ih
    exact find_insert_of_some m id _ k v h

/-- With pairwise distinct `ids` that are not yet keys, the filling loop maps `ids[j]` to
the point read at index `i + j`. -/
theorem fillIdPts_find (ptAt : Nat → Point2f) (ids : List Int) :
    ∀ (i : Nat) (m : IdMap Point2f), ids.Nodup → (∀ id ∈ ids, m.find id = Option.none) →
      ∀ (j : Nat) (id : Int), ids[j]? = some id →
        (fillIdPts ptAt i ids m).find id = some (ptAt (i + j)) := by
  induction ids with
  | nil => intro i m _ _ j id h; simp at h
  | cons a rest ih =>
    intro i m hnd hnone j id hj
    obtain ⟨hna, hnd'⟩ := List.nodup_cons.1 hnd
    have ha : m.find a = Option.none := hnone a (List.mem_cons_self _ _)
    simp only [fillIdPts]
    cases j with
    | zero =>
      simp only [List.getElem?_cons_zero, Option.some.injEq] at hj
      subst hj
      apply fillIdPts_find_of_some
      rw [find_insert_of_none m a _ a ha]
      simp
    | succ j' =>
      simp only [List.getElem?_cons_succ] at hj
      have hid : id ∈ rest := List.getElem?_mem hj
      have := ih (i + 1) (m.insert a (ptAt i)) hnd' (by
        intro x hx
        rw [find_insert_of_none m a _ x (hnone x (List.mem_cons_of_mem _ hx))]
        have hne : ¬ a = x := fun e => hna (e ▸ hx)
        simp [hne]) j' id hj
      rw [this]
      congr 2
      omega

theorem mem_keys_iff_find {α : Type} (m : IdMap α) (k : Int) :
    k ∈ m.keys ↔ ∃ v, m.find k = some v := by
  induction m with
  | nil => simp [IdMap.keys, IdMap.find]
  | cons a rest ih =>
    obtain ⟨ka, va⟩ := a
    by_cases h : ka = k
    · simp [IdMap.keys, IdMap.find, h]
    · have h' : ¬ k = ka := fun e => h e.symm
      simp only [IdMap.keys, List.map_cons, List.mem_cons, h', false_or, IdMap.find, h, if_false]
      exact ih

theorem keys_fillIdPts_iff (ptAt : Nat → Point2f) (ids : List Int) :
    ∀ (i : Nat) (m : IdMap Point2f) (k : Int),
      k ∈ (fillIdPts ptAt i ids m).keys ↔ k ∈ m.keys ∨ k ∈ ids := by
  induction ids with
  | nil => intro i m k; simp [fillIdPts]
  | cons a rest ih =>
    intro i m k
    simp only [fillIdPts]
    rw [ih, mem_keys_iff_find, mem_keys_iff_find]
    constructor
    · rintro (⟨v, hv⟩ | h)
      · cases hk : m.find k with
        | some w => exact Or.inl ⟨w, rfl⟩
        | none =>
          rw [find_insert_of_none m a _ k hk] at hv
          split_ifs at hv with hc
          exact Or.inr (by simp [hc])
      · exact Or.inr (List.mem_cons_of_mem _ h)
    · rintro (⟨v, hv⟩ | h)
      · exact Or.inl ⟨v, find_insert_of_some m a _ k v hv⟩
      · rcases List.mem_cons.1 h with e | e
        · left
          cases hk : m.find k with
          | some w => exact ⟨w, find_insert_of_some m a _ k w hk⟩
          | none =>
            refine ⟨ptAt i, ?_⟩
            rw [find_insert_of_none m a _ k hk, if_pos e.symm]
        · exact Or.inr e

theorem ptsVelocity_unfold (env : Env) (s : FeatureTracker) (ids : List Int)
    (pts : List Point2f) (prev : IdMap Point2f) (hlen : ids.length = pts.length)
    (hprev : prev ≠ []) :
    s.ptsVelocity env ids pts prev
      = ((List.zip ids pts).map (fun ip => velocityOf prev (s.cur_time - s.prev_time) ip.1 ip.2),
         fillIdPts (readAt (env.oobPoint 1) pts) 0 ids [],
         if 0 < ((List.zip ids pts).filterMap
              (fun ip => squaredSpeedOf prev (s.cur_time - s.prev_time) ip.1 ip.2)).length
         then FlowSpeed.meanOfRoots ((List.zip ids pts).filterMap
              (fun ip => squaredSpeedOf prev (s.cur_time - s.prev_time) ip.1 ip.2))
         else FlowSpeed.doubleMax) := by
  unfold FeatureTracker.ptsVelocity
  simp only [if_pos hprev, velocityLoop_eq_zip prev _ pts _ ids (by omega)]

/-- C13. The function `ptsVelocity(ids, pts, cur_id_pts, prev_id_pts)` with `|ids| = |pts|`,
pairwise distinct `ids`, a non-empty `prev_id_pts` and `cur_time != prev_time`: afterwards
the keys of `cur_id_pts` are the elements of `ids` and `cur_id_pts` maps `ids[i]` to
`pts[i]`; the returned sequence has one entry per point, entry `i` being
`(pts[i] - q) / (cur_time - prev_time)` when `prev_id_pts` maps `ids[i]` to `q`, and
`(0, 0)` when `ids[i]` is not a key of `prev_id_pts`. -/
theorem ptsVelocity_entries (env : Env) (s : FeatureTracker) (ids : List Int)
    (pts : List Point2f) (prev : IdMap Point2f) (hlen : ids.length = pts.length)
    (hnd : ids.Nodup) (hprev : prev ≠ []) (hdt : s.cur_time ≠ s.prev_time) :
    (∀ k, k ∈ (s.ptsVelocity env ids pts prev).2.1.keys ↔ k ∈ ids) ∧
    (∀ (i : Nat) (id : Int) (p : Point2f), ids[i]? = some id → pts[i]? = some p →
      (s.ptsVelocity env ids pts prev).2.1.find id = some p) ∧
    (s.ptsVelocity env ids pts prev).1.length = pts.length ∧
    (∀ (i : Nat) (id : Int) (p : Point2f), ids[i]? = some id → pts[i]? = some p →
      (∀ q, prev.find id = some q →
        (s.ptsVelocity env ids pts prev).1[i]?
          = some ⟨(p.x - q.x) / (s.cur_time - s.prev_time),
                  (p.y - q.y) / (s.cur_time - s.prev_time)⟩) ∧
      (id ∉ prev.keys → (s.ptsVelocity env ids pts prev).1[i]? = some ⟨0, 0⟩)) := by
  have _hdt := hdt
  rw [ptsVelocity_unfold env s ids pts prev hlen hprev]
  refine ⟨?_, ?_, ?_, ?_⟩
  · intro k
    rw [keys_fillIdPts_iff]
    simp [IdMap.keys]
  · intro i id p hi hp
    have hfind := fillIdPts_find (readAt (env.oobPoint 1) pts) ids 0 [] hnd
      (fun _ _ => rfl) i id hi
    have hilt : i < pts.length := by
      by_contra h
      rw [List.getElem?_eq_none (by omega)] at hp
      simp at hp
    rw [List.getElem?_eq_getElem hilt] at hp
    show (fillIdPts (readAt (env.oobPoint 1) pts) 0 ids []).find id = some p
    rw [hfind, Nat.zero_add, readAt_of_lt _ _ _ hilt, Option.some.inj hp]
  · simp [List.length_zip, hlen]
  · intro i id p hi hp
    have hz : (List.zip ids pts)[i]? = some (id, p) := by
      rw [List.getElem?_zip_eq_some]
      exact ⟨hi, hp⟩
    have hentry : ((List.zip ids pts).map
        (fun ip => velocityOf prev (s.cur_time - s.prev_time) ip.1 ip.2))[i]?
        = some (velocityOf prev (s.cur_time - s.prev_time) id p) := by
      rw [List.getElem?_map, hz]; rfl
    refine ⟨?_, ?_⟩
    · intro q hq
      show ((List.zip ids pts).map _)[i]? = _
      rw [hentry]
      simp [velocityOf, hq]
    · intro hk
      show ((List.zip ids pts).map _)[i]? = _
      rw [hentry]
      simp [velocityOf, find_eq_none_of_not_mem_keys prev id hk]

set_option maxRecDepth 100000 in
/-- The first frame of the sample run leaves `prev_un_pts_map` with the keys 0 and 1. -/
theorem sampleState1_prev_map :
    sampleState1.prev_un_pts_map = [(0, ⟨1, 5⟩), (1, ⟨40, 40⟩)] := by
  with_unfolding_all decide

set_option maxRecDepth 100000 in
/-- Witness for C13: identity 0 at `(3/4, 5)` one second after the first frame of the sample
run, where it was at `(1, 5)`. -/
theorem ptsVelocity_entries_witness :
    ([0] : List Int).length = [(⟨3 / 4, 5⟩ : Point2f)].length ∧ ([0] : List Int).Nodup ∧
    sampleState1.prev_un_pts_map ≠ [] ∧
    ({ sampleState1 with cur_time := 1 } : FeatureTracker).cur_time
      ≠ ({ sampleState1 with cur_time := 1 } : FeatureTracker).prev_time ∧
    (({ sampleState1 with cur_time := 1 } : FeatureTracker).ptsVelocity sampleEnv [0]
      [⟨3 / 4, 5⟩] sampleState1.prev_un_pts_map).1.length = 1 :=
  ⟨rfl, by decide, by rw [sampleState1_prev_map]; simp, by with_unfolding_all decide,
    (ptsVelocity_entries sampleEnv { sampleState1 with cur_time := 1 } [0] [⟨3 / 4, 5⟩]
      sampleState1.prev_un_pts_map rfl (by decide) (by rw [sampleState1_prev_map]; simp)
      (by with_unfolding_all decide)).2.2.1⟩

/-! ## Emission -/

theorem updateRecord_find (m : IdMap FeaturePerFrame) (k : Int)
    (f : FeaturePerFrame → FeaturePerFrame) (k' : Int) :
    (updateRecord m k f).find k'
      = if k = k' then some (f ((m.find k).getD FeaturePerFrame.blank)) else m.find k' := by
  induction m with
  | nil => simp [updateRecord, IdMap.find]
  | cons a rest ih =>
    obtain ⟨ka, va⟩ := a
    simp only [updateRecord]
    by_cases h1 : ka = k
    · subst h1
      by_cases h2 : ka = k' <;> simp [IdMap.find, h2]
    · simp only [h1, if_false, IdMap.find, ih]
      by_cases h2 : ka = k'
      · have : ¬ k = k' := fun e => h1 (h2.trans e.symm)
        simp [h2, this]
      · simp [h2]

/-- A record present before the right-view loop is present after it with the same
left-view fields; its `is_stereo` flag is set exactly when it was set before or its
identity occurs in `ids_right`. -/
theorem emitRight_find_some (env : Env) (s : FeatureTracker) (ids_right : List Int) :
    ∀ (i : Nat) (m : IdMap FeaturePerFrame) (k : Int) (r : FeaturePerFrame),
      m.find k = some r →
      ∃ r', (s.emitRight env i ids_right m).find k = some r' ∧
        r'.point = r.point ∧ r'.uv = r.uv ∧ r'.velocity = r.velocity ∧
        r'.is_depth = r.is_depth ∧ r'.depth = r.depth ∧
        (r'.is_stereo = true ↔ (r.is_stereo = true ∨ k ∈ ids_right)) := by
  induction ids_right with
  | nil => intro i m k r h; exact ⟨r, h, rfl, rfl, rfl, rfl, rfl, by simp⟩
  | cons a rest ih =>
    intro i m k r h
    simp only [FeatureTracker.emitRight]
    by_cases hak : a = k
    · have h1 := updateRecord_find m a (fun r =>
        { r with
          pointRight := ⟨(readAt (env.oobPoint 11) s.cur_un_right_pts i).x,
            (readAt (env.oobPoint 11) s.cur_un_right_pts i).y, 1⟩
          uvRight := readAt (env.oobPoint 12) s.cur_right_pts i
          velocityRight := readAt (env.oobPoint 13) s.right_pts_velocity i
          is_stereo := true }) k
      subst hak
      rw [if_pos rfl, h] at h1
      obtain ⟨r', h2, e1, e2, e3, e4, e5, e6⟩ := ih (i + 1) _ a _ h1
      refine ⟨r', h2, e1, e2, e3, e4, e5, ?_⟩
      rw [e6]
      simp
    · have h1 := updateRecord_find m a (fun r =>
        { r with
          pointRight := ⟨(readAt (env.oobPoint 11) s.cur_un_right_pts i).x,
            (readAt (env.oobPoint 11) s.cur_un_right_pts i).y, 1⟩
          uvRight := readAt (env.oobPoint 12) s.cur_right_pts i
          velocityRight := readAt (env.oobPoint 13) s.right_pts_velocity i
          is_stereo := true }) k
      rw [if_neg hak, h] at h1
      obtain ⟨r', h2, e1, e2, e3, e4, e5, e6⟩ := ih (i + 1) _ k r h1
      refine ⟨r', h2, e1, e2, e3, e4, e5, ?_⟩
      rw [e6]
      have : ¬ k = a := fun e => hak e.symm
      simp [this]

/-- An identity that is neither a key nor in `ids_right` is not a key after the right-view
loop. -/
theorem emitRight_find_none (env : Env) (s : FeatureTracker) (ids_right : List Int) :
    ∀ (i : Nat) (m : IdMap FeaturePerFrame) (k : Int),
      m.find k = Option.none → k ∉ ids_right →
      (s.emitRight env i ids_right m).find k = Option.none := by
  induction ids_right with
  | nil => intro i m k h _; exact h
  | cons a rest ih =>
    intro i m k h hk
    simp only [List.mem_cons, not_or] at hk
    simp only [FeatureTracker.emitRight]
    apply ih (i + 1) _ k _ hk.2
    rw [updateRecord_find, if_neg (fun e => hk.1 e.symm)]
    exact h

/-- A record found after the left-view loop was there before or is the record built for
an index of `ids`. -/
theorem emitLeft_find_cases (env : Env) (s : FeatureTracker) (ids : List Int) :
    ∀ (i : Nat) (m : IdMap FeaturePerFrame) (k : Int) (r : FeaturePerFrame),
      (s.emitLeft env i ids m).find k = some r →
      m.find k = some r ∨ ∃ j, r = s.leftRecord env j := by
  induction ids with
  | nil => intro i m k r h; exact Or.inl h
  | cons a rest ih =>
    intro i m k r h
    simp only [FeatureTracker.emitLeft] at h
    rcases ih (i + 1) _ k r h with h1 | h1
    · rw [find_assign] at h1
      split_ifs at h1 with hc
      · exact Or.inr ⟨i, (Option.some.inj h1).symm⟩
      · exact Or.inl h1
    · exact Or.inr h1

theorem emitLeft_find_mem (env : Env) (s : FeatureTracker) (ids : List Int) :
    ∀ (i : Nat) (m : IdMap FeaturePerFrame) (k : Int), k ∈ ids →
      ∃ r, (s.emitLeft env i ids m).find k = some r := by
  induction ids with
  | nil => intro i m k h; simp at h
  | cons a rest ih =>
    intro i m k hk
    simp only [FeatureTracker.emitLeft]
    by_cases hr : k ∈ rest
    · exact ih (i + 1) _ k hr
    · rcases List.mem_cons.1 hk with e | e
      · rw [emitLeft_find_notin env s rest (i + 1) _ k hr, find_assign, if_pos e.symm]
        exact ⟨_, rfl⟩
      · exact absurd e hr

/-- The keys of the map built by the left-view loop from the empty map are the elements
of `ids`. -/
theorem emitLeft_keys (env : Env) (s : FeatureTracker) (ids : List Int) (k : Int) :
    (∃ r, (s.emitLeft env 0 ids []).find k = some r) ↔ k ∈ ids := by
  constructor
  · rintro ⟨r, hr⟩
    by_contra hk
    rw [emitLeft_find_notin env s ids 0 [] k hk] at hr
    simp [IdMap.find] at hr
  · exact emitLeft_find_mem env s ids 0 [] k

theorem stereoTrack_stereo (env : Env) (P : Params) (s : FeatureTracker) (rightImg : Mat) :
    (s.stereoTrack env P rightImg).stereo = s.stereo ∧
    (s.stereoTrack env P rightImg).depth = s.depth := by
  unfold FeatureTracker.stereoTrack
  dsimp only
  split_ifs <;> exact ⟨rfl, rfl⟩

theorem augment_flags (env : Env) (P : Params) (s : FeatureTracker) (img1 : Mat) :
    (s.augment env P img1).stereo = s.stereo ∧ (s.augment env P img1).depth = s.depth := by
  unfold FeatureTracker.augment
  dsimp only
  by_cases h1 : (!img1.empty && s.stereo) = true
  · rw [if_pos h1]; exact stereoTrack_stereo env P s _
  · rw [if_neg h1]
    by_cases h2 : (!img1.empty && s.depth) = true
    · rw [if_pos h2]; exact ⟨rfl, rfl⟩
    · rw [if_neg h2]; exact ⟨rfl, rfl⟩

theorem trackImageState_stereo (env : Env) (P : Params) (s : FeatureTracker) (t : ℚ)
    (img img1 : Mat) : (s.trackImageState env P t img img1).stereo = s.stereo := by
  show (FeatureTracker.augment env P _ img1).stereo = _
  rw [(augment_flags env P _ img1).1]
  exact trackImageState_stereo_flag env P s t img

/-- In stereo mode with a right image, `ids_right` is a subsequence of `ids` after
`trackImage`. -/
theorem trackImageState_ids_right (env : Env) (P : Params) (s : FeatureTracker) (t : ℚ)
    (img img1 : Mat) (hstereo : s.stereo = true) (himg : img1.empty = false) :
    (s.trackImageState env P t img img1).ids_right.Sublist
      (s.trackImageState env P t img img1).ids := by
  have hflag := trackImageState_stereo_flag env P s t img
  show (FeatureTracker.augment env P _ img1).ids_right.Sublist
    (FeatureTracker.augment env P _ img1).ids
  rw [augment_stereo env P _ img1 (hflag.trans hstereo) himg]
  rw [(stereoTrack_left env P _ _).2.1]
  exact stereoTrack_ids_right_sublist env P _ _

/-- The returned map in terms of the two emission loops. -/
theorem trackImage_map (env : Env) (P : Params) (s : FeatureTracker) (t : ℚ) (img img1 : Mat) :
    (s.trackImage env P t img img1).2
      = if s.stereo = true ∧ img1.empty = false then
          (s.trackImageState env P t img img1).emitRight env 0
            (s.trackImageState env P t img img1).ids_right
            ((s.trackImageState env P t img img1).emitLeft env 0
              (s.trackImageState env P t img img1).ids [])
        else (s.trackImageState env P t img img1).emitLeft env 0
              (s.trackImageState env P t img img1).ids [] := by
  show (s.trackImageState env P t img img1).emit env img1 = _
  unfold FeatureTracker.emit
  dsimp only
  rw [trackImageState_stereo]
  by_cases h1 : s.stereo = true <;> by_cases h2 : img1.empty = true <;> simp [h1, h2]

theorem readAt_of_getElem? {α : Type} (oob : Nat → α) (v : List α) (i : Nat) (a : α)
    (h : v[i]? = some a) : readAt oob v i = a := by
  simp [readAt, List.getD_eq_getElem?_getD, h]

/-- The record found under a key of the returned map carries the depth flag and depth of a
left-view record. -/
theorem trackImage_record_left (env : Env) (P : Params) (s : FeatureTracker) (t : ℚ)
    (img img1 : Mat) (k : Int) (r : FeaturePerFrame)
    (h : (s.trackImage env P t img img1).2.find k = some r) :
    ∃ j, r.is_depth = ((s.trackImageState env P t img img1).leftRecord env j).is_depth ∧
      r.depth = ((s.trackImageState env P t img img1).leftRecord env j).depth := by
  rw [trackImage_map] at h
  split_ifs at h with hc
  · obtain ⟨hst, him⟩ := hc
    cases hl : ((s.trackImageState env P t img img1).emitLeft env 0
        (s.trackImageState env P t img img1).ids []).find k with
    | none =>
      by_cases hk : k ∈ (s.trackImageState env P t img img1).ids_right
      · have hk' := (trackImageState_ids_right env P s t img img1 hst him).subset hk
        obtain ⟨r0, hr0⟩ := emitLeft_find_mem env _ _ 0 [] k hk'
        rw [hr0] at hl
        exact absurd hl (by simp)
      · rw [emitRight_find_none env _ _ 0 _ k hl hk] at h
        exact absurd h (by simp)
    | some r0 =>
      obtain ⟨r', h1, _, _, _, e4, e5, _⟩ := emitRight_find_some env
        (s.trackImageState env P t img img1) (s.trackImageState env P t img img1).ids_right 0 _ k r0 hl
      rw [h] at h1
      have hr : r = r' := Option.some.inj h1
      rcases emitLeft_find_cases env _ _ 0 [] k r0 hl with h2 | ⟨j, h2⟩
      · simp [IdMap.find] at h2
      · exact ⟨j, by rw [hr, e4, h2], by rw [hr, e5, h2]⟩
  · rcases emitLeft_find_cases env _ _ 0 [] k r h with h2 | ⟨j, h2⟩
    · simp [IdMap.find] at h2
    · exact ⟨j, by rw [h2], by rw [h2]⟩

/-- C11. Emission: when the identities at the end of `trackImage` are pairwise distinct, the
keys of the returned map are exactly the elements of `ids` (in stereo mode too: the
right-view loop adds no key), and the record under `ids[i]` has
`point = (cur_un_pts[i].x, cur_un_pts[i].y, 1)`, `uv = cur_pts[i]` and
`velocity = pts_velocity[i]`; in stereo mode with a right image its `is_stereo` flag is
true exactly when `ids[i]` occurs in `ids_right`. -/
theorem emission_records (env : Env) (P : Params) (s : FeatureTracker) (t : ℚ)
    (img img1 : Mat) (hnd : (s.trackImage env P t img img1).1.ids.Nodup) :
    (∀ k : Int, k ∈ (s.trackImage env P t img img1).2.keys ↔
      k ∈ (s.trackImage env P t img img1).1.ids) ∧
    (∀ (i : Nat) (id : Int), (s.trackImage env P t img img1).1.ids[i]? = some id →
      ∃ r, (s.trackImage env P t img img1).2.find id = some r ∧
        (∀ u, (s.trackImage env P t img img1).1.cur_un_pts[i]? = some u →
          r.point = ⟨u.x, u.y, 1⟩) ∧
        (∀ p, (s.trackImage env P t img img1).1.cur_pts[i]? = some p → r.uv = p) ∧
        (∀ v, (s.trackImage env P t img img1).1.pts_velocity[i]? = some v → r.velocity = v) ∧
        (s.stereo = true → img1.empty = false →
          (r.is_stereo = true ↔ id ∈ (s.trackImage env P t img img1).1.ids_right))) := by
  have hst : (s.trackImage env P t img img1).1 = s.trackImageState env P t img img1 := rfl
  rw [hst] at hnd ⊢
  constructor
  · intro k
    rw [mem_keys_iff_find, trackImage_map]
    split_ifs with hc
    · obtain ⟨hs, him⟩ := hc
      constructor
      · rintro ⟨r, hr⟩
        cases hl : ((s.trackImageState env P t img img1).emitLeft env 0
            (s.trackImageState env P t img img1).ids []).find k with
        | none =>
          by_cases hk : k ∈ (s.trackImageState env P t img img1).ids_right
          · exact (trackImageState_ids_right env P s t img img1 hs him).subset hk
          · rw [emitRight_find_none env _ _ 0 _ k hl hk] at hr
            exact absurd hr (by simp)
        | some r0 => exact (emitLeft_keys env _ _ k).1 ⟨r0, hl⟩
      · intro hk
        obtain ⟨r0, hr0⟩ := emitLeft_find_mem env (s.trackImageState env P t img img1) _ 0 [] k hk
        obtain ⟨r', h1, _⟩ := emitRight_find_some env (s.trackImageState env P t img img1)
          (s.trackImageState env P t img img1).ids_right 0 _ k r0 hr0
        exact ⟨r', h1⟩
    · exact emitLeft_keys env _ _ k
  · intro i id hi
    have hl := emitLeft_find env (s.trackImageState env P t img img1) _ 0 [] hnd i id hi
    rw [Nat.zero_add] at hl
    have hp : ∀ u, (s.trackImageState env P t img img1).cur_un_pts[i]? = some u →
        ((s.trackImageState env P t img img1).leftRecord env i).point = ⟨u.x, u.y, 1⟩ := by
      intro u hu
      simp only [FeatureTracker.leftRecord, readAt_of_getElem? _ _ _ _ hu]
    have huv : ∀ p, (s.trackImageState env P t img img1).cur_pts[i]? = some p →
        ((s.trackImageState env P t img img1).leftRecord env i).uv = p := by
      intro p hp'
      simp only [FeatureTracker.leftRecord, readAt_of_getElem? _ _ _ _ hp']
    have hv : ∀ v, (s.trackImageState env P t img img1).pts_velocity[i]? = some v →
        ((s.trackImageState env P t img img1).leftRecord env i).velocity = v := by
      intro v hv'
      simp only [FeatureTracker.leftRecord, readAt_of_getElem? _ _ _ _ hv']
    rw [trackImage_map]
    split_ifs with hc
    · obtain ⟨r', h1, e1, e2, e3, _, _, e6⟩ := emitRight_find_some env
        (s.trackImageState env P t img img1) (s.trackImageState env P t img img1).ids_right 0 _ id _ hl
      refine ⟨r', h1, fun u hu => e1.trans (hp u hu), fun p hp' => e2.trans (huv p hp'),
        fun v hv' => e3.trans (hv v hv'), fun _ _ => ?_⟩
      rw [e6]
      simp [FeatureTracker.leftRecord]
    · refine ⟨_, hl, hp, huv, hv, fun h1 h2 => absurd ⟨h1, h2⟩ hc⟩

set_option maxRecDepth 100000 in
/-- Witness for C11: the first stereo frame on the sample inputs, where the right view keeps
only identity 0. -/
theorem emission_records_witness :
    ((FeatureTracker.create false true 10).trackImage dropRightEnv sampleParams 0 sampleImg
      sampleImg).1.ids = [0, 1] ∧
    ((FeatureTracker.create false true 10).trackImage dropRightEnv sampleParams 0 sampleImg
      sampleImg).2.keys = [0, 1] ∧
    (∀ k : Int, k ∈ ((FeatureTracker.create false true 10).trackImage dropRightEnv sampleParams 0
        sampleImg sampleImg).2.keys ↔
      k ∈ ((FeatureTracker.create false true 10).trackImage dropRightEnv sampleParams 0
        sampleImg sampleImg).1.ids) :=
  ⟨by with_unfolding_all decide, by with_unfolding_all decide,
    (emission_records dropRightEnv sampleParams (FeatureTracker.create false true 10) 0
      sampleImg sampleImg (by with_unfolding_all decide)).1⟩

/-- C12. Depth validity of emitted records: every record of the map returned by `trackImage`
has `depth > 0` if its `is_depth` flag is true and `depth = -1` if the flag is false. -/
theorem emitted_depth_valid (env : Env) (P : Params) (s : FeatureTracker) (t : ℚ)
    (img img1 : Mat) (k : Int) (r : FeaturePerFrame)
    (h : (s.trackImage env P t img img1).2.find k = some r) :
    (r.is_depth = true → 0 < r.depth) ∧ (r.is_depth = false → r.depth = -1) := by
  obtain ⟨j, e1, e2⟩ := trackImage_record_left env P s t img img1 k r h
  rw [e1, e2]
  simp only [FeatureTracker.leftRecord]
  constructor
  · intro hd
    rw [if_pos hd]
    simp only [Bool.and_eq_true, decide_eq_true_eq] at hd
    exact hd.2
  · intro hd
    rw [if_neg (by simp [hd])]

/-! ## `setPrediction`, `setDepth`, `removeOutliers` -/

theorem predictLoop_length (env : Env) (pred : IdMap Vector3d) (prevAt : Nat → Point2f)
    (ids : List Int) : ∀ i, (predictLoop env pred prevAt i ids).1.length = ids.length := by
  induction ids with
  | nil => intro i; rfl
  | cons id rest ih =>
    intro i
    simp only [predictLoop]
    cases pred.find id <;> simp [ih (i + 1)]

theorem predictLoop_getElem? (env : Env) (pred : IdMap Vector3d) (prevAt : Nat → Point2f)
    (ids : List Int) : ∀ (i j : Nat) (id : Int), ids[j]? = some id →
      (predictLoop env pred prevAt i ids).1[j]?
        = some (match pred.find id with
                | some ray => env.spaceToPlane 0 ray
                | Option.none => prevAt (i + j)) := by
  induction ids with
  | nil => intro i j id h; simp at h
  | cons a rest ih =>
    intro i j id h
    cases j with
    | zero =>
      simp only [List.getElem?_cons_zero, Option.some.injEq] at h
      subst h
      simp only [predictLoop]
      cases pred.find a <;> simp
    | succ j =>
      simp only [List.getElem?_cons_succ] at h
      have h1 := ih (i + 1) j id h
      have e : i + 1 + j = i + (j + 1) := by omega
      rw [e] at h1
      simp only [predictLoop]
      cases pred.find a <;> simpa using h1

/-- C15. The function `setPrediction(pred)`: on a state with `|prev_pts| = |ids|`, afterwards
`hasPrediction` is true and `predict_pts` has `|ids|` entries; entry `i` is the projection
of `pred[ids[i]]` through `spaceToPlane` of camera 0 when `ids[i]` is a key of `pred`, and
`prev_pts[i]` otherwise; `ids`, `prev_pts` and `track_cnt` are unchanged. -/
theorem setPrediction_spec (env : Env) (s : FeatureTracker) (pred : IdMap Vector3d)
    (hlen : s.prev_pts.length = s.ids.length) :
    (s.setPrediction env pred).hasPrediction = true ∧
    (s.setPrediction env pred).predict_pts.length = s.ids.length ∧
    (∀ (i : Nat) (id : Int), s.ids[i]? = some id →
      (∀ ray, pred.find id = some ray →
        (s.setPrediction env pred).predict_pts[i]? = some (env.spaceToPlane 0 ray)) ∧
      (pred.find id = Option.none →
        (s.setPrediction env pred).predict_pts[i]? = s.prev_pts[i]? ∧
        ∃ p, s.prev_pts[i]? = some p)) ∧
    (s.setPrediction env pred).ids = s.ids ∧
    (s.setPrediction env pred).prev_pts = s.prev_pts ∧
    (s.setPrediction env pred).track_cnt = s.track_cnt := by
  refine ⟨rfl, predictLoop_length env pred _ s.ids 0, ?_, rfl, rfl, rfl⟩
  intro i id hi
  have h := predictLoop_getElem? env pred (readAt (env.oobPoint 7) s.prev_pts) s.ids 0 i id hi
  have hi' : i < s.prev_pts.length := by
    rw [hlen]
    exact (List.getElem?_eq_some_iff.1 hi).1
  constructor
  · intro ray hray
    rw [hray] at h
    exact h
  · intro hnone
    rw [hnone, Nat.zero_add, readAt_of_lt _ _ _ hi'] at h
    exact ⟨h.trans (List.getElem?_eq_getElem hi').symm, ⟨_, List.getElem?_eq_getElem hi'⟩⟩

set_option maxRecDepth 100000 in
/-- Witness for C15: a prediction for identity 1 only, on the sample tracker after its first
frame. -/
theorem setPrediction_spec_witness :
    sampleState1.prev_pts.length = sampleState1.ids.length ∧
    (sampleState1.setPrediction sampleEnv [(1, ⟨7, 9, 1⟩)]).predict_pts = [⟨1, 5⟩, ⟨7, 9⟩] ∧
    (sampleState1.setPrediction sampleEnv [(1, ⟨7, 9, 1⟩)]).predict_pts.length
      = sampleState1.ids.length :=
  ⟨by with_unfolding_all decide, by with_unfolding_all decide,
    (setPrediction_spec sampleEnv sampleState1 [(1, ⟨7, 9, 1⟩)]
      (by with_unfolding_all decide)).2.1⟩

/-- C19. Depth range rule: `setDepth` gives `pts_depth` one entry per point of `cur_pts`;
with `d` the sample at row `(int) y`, column `(int) x` times 0.001, the entry is `d` when
`DEPTH_MIN < d < DEPTH_MAX` (both strict) and `-1` otherwise; `cur_pts`, `ids` and
`track_cnt` are unchanged. -/
theorem setDepth_spec (P : Params) (s : FeatureTracker) (depth_img : Mat) :
    (s.setDepth P depth_img).pts_depth.length = s.cur_pts.length ∧
    (s.setDepth P depth_img).pts_depth
      = s.cur_pts.map (fun p =>
          if P.DEPTH_MIN < (depth_img.px (truncToInt p.y) (truncToInt p.x) : ℚ) * (1 / 1000) ∧
              (depth_img.px (truncToInt p.y) (truncToInt p.x) : ℚ) * (1 / 1000) < P.DEPTH_MAX
          then (depth_img.px (truncToInt p.y) (truncToInt p.x) : ℚ) * (1 / 1000) else -1) ∧
    (s.setDepth P depth_img).cur_pts = s.cur_pts ∧
    (s.setDepth P depth_img).ids = s.ids ∧
    (s.setDepth P depth_img).track_cnt = s.track_cnt := by
  refine ⟨by simp [FeatureTracker.setDepth], ?_, rfl, rfl, rfl⟩
  simp only [FeatureTracker.setDepth]
  apply List.map_congr_left
  intro p _
  simp only [depthAt, gt_iff_lt]
  by_cases h1 : P.DEPTH_MIN < (depth_img.px (truncToInt p.y) (truncToInt p.x) : ℚ) * (1 / 1000)
  · by_cases h2 : (depth_img.px (truncToInt p.y) (truncToInt p.x) : ℚ) * (1 / 1000) < P.DEPTH_MAX
    · rw [if_pos ⟨h2, h1⟩, if_pos ⟨h1, h2⟩]
    · rw [if_neg (fun h => h2 h.1), if_neg (fun h => h2 h.2)]
  · rw [if_neg (fun h => h1 h.2), if_neg (fun h => h1 h.1)]

/-- C20. The function `removeOutliers` changes only `prev_pts`, `ids` and `track_cnt`:
`prev_un_pts`, `prev_un_pts_map`, `prevLeftPtsMap`, `cur_pts`, `cur_un_pts`,
`pts_velocity`, `predict_pts`, `hasPrediction` and `n_id` are as before.  Hence, on a state
with `|prev_pts| = |ids|`, a call that removes an identity leaves `prev_un_pts` longer
than `prev_pts` if they had one length, and likewise `predict_pts`. -/
theorem removeOutliers_frame (env : Env) (s : FeatureTracker) (S : Finset Int) :
    ((s.removeOutliers env S).prev_un_pts = s.prev_un_pts ∧
     (s.removeOutliers env S).prev_un_pts_map = s.prev_un_pts_map ∧
     (s.removeOutliers env S).prevLeftPtsMap = s.prevLeftPtsMap ∧
     (s.removeOutliers env S).cur_pts = s.cur_pts ∧
     (s.removeOutliers env S).cur_un_pts = s.cur_un_pts ∧
     (s.removeOutliers env S).pts_velocity = s.pts_velocity ∧
     (s.removeOutliers env S).predict_pts = s.predict_pts ∧
     (s.removeOutliers env S).hasPrediction = s.hasPrediction ∧
     (s.removeOutliers env S).n_id = s.n_id) ∧
    (s.prev_pts.length = s.ids.length → (∃ id ∈ s.ids, id ∈ S) →
      (s.prev_un_pts.length = s.prev_pts.length →
        (s.removeOutliers env S).prev_pts.length < (s.removeOutliers env S).prev_un_pts.length) ∧
      (s.predict_pts.length = s.prev_pts.length →
        (s.removeOutliers env S).prev_pts.length < (s.removeOutliers env S).predict_pts.length)) := by
  refine ⟨⟨rfl, rfl, rfl, rfl, rfl, rfl, rfl, rfl, rfl⟩, ?_⟩
  intro hlen hex
  obtain ⟨f1, f2, _⟩ := removeOutliers_fields env s S
  have hl1 : (s.removeOutliers env S).prev_pts.length = (s.removeOutliers env S).ids.length := by
    rw [f1, f2]
    exact reduceVector_length_eq _ _ _ _ _ hlen (by simp [hlen])
  have hlt : (s.removeOutliers env S).ids.length < s.ids.length := by
    rw [removeOutliers_ids]
    apply List.length_filter_lt_length_iff_exists.2
    obtain ⟨id, hid, hS⟩ := hex
    exact ⟨id, hid, by simp [hS]⟩
  have e1 : (s.removeOutliers env S).prev_un_pts = s.prev_un_pts := rfl
  have e2 : (s.removeOutliers env S).predict_pts = s.predict_pts := rfl
  constructor
  · intro h
    rw [e1, hl1, h, hlen]
    exact hlt
  · intro h
    rw [e2, hl1, h, hlen]
    exact hlt

set_option maxRecDepth 100000 in
/-- Witness for C20: removing identity 0 from the sample tracker after its first frame
leaves one previous point and two previous undistorted points. -/
theorem removeOutliers_frame_witness :
    (sampleState1.removeOutliers sampleEnv {0}).prev_pts.length = 1 ∧
    (sampleState1.removeOutliers sampleEnv {0}).prev_un_pts.length = 2 ∧
    (sampleState1.removeOutliers sampleEnv {0}).prev_pts.length
      < (sampleState1.removeOutliers sampleEnv {0}).prev_un_pts.length :=
  ⟨by with_unfolding_all decide, by with_unfolding_all decide,
    ((removeOutliers_frame sampleEnv sampleState1 {0}).2 (by with_unfolding_all decide)
      ⟨0, by with_unfolding_all decide, by decide⟩).1 (by with_unfolding_all decide)⟩

set_option maxRecDepth 100000 in
/-- Witness for C12: the first frame of a depth-mode tracker with a depth image of constant
sample 2000; the record under identity 0 has `is_depth` set and depth 2. -/
theorem emitted_depth_valid_witness :
    ((FeatureTracker.create true false 10).trackImage sampleEnv sampleParams 0 sampleImg
      sampleDepthImg).2.find 0
      = some ⟨⟨1, 5, 1⟩, ⟨1, 5⟩, ⟨0, 0⟩, true, false, 2, ⟨0, 0, 0⟩, ⟨0, 0⟩, ⟨0, 0⟩⟩ ∧
    (0 : ℚ) < 2 :=
  ⟨by with_unfolding_all decide,
    (emitted_depth_valid sampleEnv sampleParams (FeatureTracker.create true false 10) 0 sampleImg
      sampleDepthImg 0 ⟨⟨1, 5, 1⟩, ⟨1, 5⟩, ⟨0, 0⟩, true, false, 2, ⟨0, 0, 0⟩, ⟨0, 0⟩, ⟨0, 0⟩⟩
      (by with_unfolding_all decide)).1 rfl⟩

/-! ## Length disagreements -/

set_option maxRecDepth 100000 in
/-- C16. In the second frame of the nine-corner run the optical flow drops one of the nine
points, so `rejectWithF` runs with 8 current points and a status of 8 entries, while
`cur_un_pts` still holds the 9 points of the frame before: the status is shorter than
`cur_un_pts`, and after `rejectWithF` the sequences `prev_pts`, `cur_pts`, `ids` and
`track_cnt` have 8 entries and `cur_un_pts` has 9. -/
theorem rejectWithF_stale_cur_un_pts :
    nineBeforeReject.cur_pts.length = 8 ∧
    nineBeforeReject.cur_un_pts.length = 9 ∧
    (nineBeforeReject.ransacStatus nineEnv sampleParams).length = 8 ∧
    (nineBeforeReject.rejectWithF nineEnv sampleParams).prev_pts.length = 8 ∧
    (nineBeforeReject.rejectWithF nineEnv sampleParams).cur_pts.length = 8 ∧
    (nineBeforeReject.rejectWithF nineEnv sampleParams).ids.length = 8 ∧
    (nineBeforeReject.rejectWithF nineEnv sampleParams).track_cnt.length = 8 ∧
    (nineBeforeReject.rejectWithF nineEnv sampleParams).cur_un_pts.length = 9 := by
  refine ⟨?_, ?_, ?_, ?_, ?_, ?_, ?_, ?_⟩ <;> with_unfolding_all decide

set_option maxRecDepth 100000 in
/-- C17. On a tracker with two previous points, `trackImageGPU` at time stamp 0 skips the
temporal block, keeps the two old entries of `ids` and `track_cnt` and appends two new
ones: `cur_pts`, `cur_un_pts` and `pts_velocity` have 2 entries, `ids` and `track_cnt`
have 4. -/
theorem trackImageGPU_lengths_at_time_zero :
    sampleGpuState1.prev_pts.length = 2 ∧
    sampleGpuState1.ids.length = 2 ∧
    sampleGpuState1.track_cnt.length = 2 ∧
    (sampleGpuState1.trackImageGPU sampleEnv sampleParams 0 sampleImg Mat.none).1.cur_pts.length = 2 ∧
    (sampleGpuState1.trackImageGPU sampleEnv sampleParams 0 sampleImg Mat.none).1.ids = [0, 1, 2, 3] ∧
    (sampleGpuState1.trackImageGPU sampleEnv sampleParams 0 sampleImg Mat.none).1.track_cnt
      = [2, 2, 1, 1] ∧
    (sampleGpuState1.trackImageGPU sampleEnv sampleParams 0 sampleImg Mat.none).1.cur_un_pts.length
      = 2 ∧
    (sampleGpuState1.trackImageGPU sampleEnv sampleParams 0 sampleImg Mat.none).1.pts_velocity.length
      = 2 := by
  refine ⟨?_, ?_, ?_, ?_, ?_, ?_, ?_, ?_⟩ <;> with_unfolding_all decide

set_option maxRecDepth 100000 in
/-- C18. A tracker constructed in depth mode: after a `trackImage` call without a second
image, and after a call with a second image when stereo mode is set too, `pts_depth` is
empty while `cur_pts` and `ids` have two entries. -/
theorem pts_depth_length_without_setDepth :
    (FeatureTracker.create true false 10).depth = true ∧
    ((FeatureTracker.create true false 10).trackImage sampleEnv sampleParams 0 sampleImg
      Mat.none).1.pts_depth.length = 0 ∧
    ((FeatureTracker.create true false 10).trackImage sampleEnv sampleParams 0 sampleImg
      Mat.none).1.cur_pts.length = 2 ∧
    ((FeatureTracker.create true false 10).trackImage sampleEnv sampleParams 0 sampleImg
      Mat.none).1.ids.length = 2 ∧
    ((FeatureTracker.create true true 10).trackImage sampleEnv sampleParams 0 sampleImg
      sampleDepthImg).1.pts_depth.length = 0 ∧
    ((FeatureTracker.create true true 10).trackImage sampleEnv sampleParams 0 sampleImg
      sampleDepthImg).1.ids.length = 2 := by
  refine ⟨?_, ?_, ?_, ?_, ?_, ?_⟩ <;> with_unfolding_all decide

/-! ## `reduceVector` as written -/

theorem reduceVectorLoop_append {α : Type} (read : Nat → Nat) (l1 l2 : List α) :
    ∀ k, reduceVectorLoop read k (l1 ++ l2)
      = reduceVectorLoop read k l1 ++ reduceVectorLoop read (k + l1.length) l2 := by
  induction l1 with
  | nil => intro k; simp [reduceVectorLoop]
  | cons a rest ih =>
    intro k
    have e : k + 1 + rest.length = k + (rest.length + 1) := by omega
    have h := ih (k + 1)
    rw [e] at h
    simp only [List.cons_append, reduceVectorLoop, List.length_cons]
    split_ifs <;> simp [h]

/-- The loop invariant of `reduceVector`: after the iterations `0, ..., i - 1` the first `j`
elements are the kept ones among the first `i`, and the elements from index `i` on are
untouched. -/
theorem reduceVector_invariant {α : Type} (read : Nat → Nat) (v : List α) :
    ∀ i, i ≤ v.length →
      ((List.range i).foldl (reduceVectorStep read) (v, 0)).1.length = v.length ∧
      ((List.range i).foldl (reduceVectorStep read) (v, 0)).2 ≤ i ∧
      ((List.range i).foldl (reduceVectorStep read) (v, 0)).1.take
          ((List.range i).foldl (reduceVectorStep read) (v, 0)).2
        = reduceVectorLoop read 0 (v.take i) ∧
      ((List.range i).foldl (reduceVectorStep read) (v, 0)).1.drop i = v.drop i := by
  intro i
  induction i with
  | zero => intro _; simp [reduceVectorLoop]
  | succ i ih =>
    intro hi
    have hi' : i < v.length := by omega
    obtain ⟨h1, h2, h3, h4⟩ := ih (by omega)
    rw [List.range_succ, List.foldl_append]
    simp only [List.foldl_cons, List.foldl_nil]
    generalize (List.range i).foldl (reduceVectorStep read) (v, 0) = st at h1 h2 h3 h4
    obtain ⟨u, j⟩ := st
    simp only at h1 h2 h3 h4
    have hui : u[i]? = some v[i] := by
      have e1 : (u.drop i)[0]? = (v.drop i)[0]? := by rw [h4]
      simpa [List.getElem?_drop, List.getElem?_eq_getElem hi'] using e1
    have htake : v.take (i + 1) = v.take i ++ [v[i]] := by
      rw [List.take_succ, List.getElem?_eq_getElem hi']; rfl
    have hlen : (v.take i).length = i := by simp; omega
    have hdrop : u.drop (i + 1) = v.drop (i + 1) := by
      have := congrArg (List.drop 1) h4
      simpa [List.drop_drop, Nat.add_comm] using this
    by_cases hr : read i = 0
    · have hstep : reduceVectorStep read (u, j) i = (u, j) := by simp [reduceVectorStep, hr]
      rw [hstep]
      refine ⟨h1, by omega, ?_, hdrop⟩
      rw [htake, reduceVectorLoop_append, hlen]
      simp [reduceVectorLoop, hr, h3]
    · have hstep : reduceVectorStep read (u, j) i = (u.set j v[i], j + 1) := by
        simp [reduceVectorStep, hr, hui]
      rw [hstep]
      have hj : j < u.length := by omega
      refine ⟨by simp [h1], by omega, ?_, ?_⟩
      · rw [htake, reduceVectorLoop_append, hlen]
        simp only [reduceVectorLoop, Nat.zero_add, ne_eq, hr, not_false_eq_true, if_true]
        rw [← h3]
        show (u.set j v[i]).take (j + 1) = u.take j ++ [v[i]]
        rw [List.take_succ, List.set_take, List.set_eq_of_length_le (by simp)]
        simp [hj]
      · show (u.set j v[i]).drop (i + 1) = v.drop (i + 1)
        rw [List.drop_set_of_lt _ _ (by omega)]
        exact hdrop

/-- The loop as written computes the list-level `reduceVector`. -/
theorem reduceVectorInPlace_eq {α : Type} (oob : Nat → Nat) (v : List α) (status : List Nat) :
    reduceVectorInPlace oob v status = reduceVector oob v status := by
  obtain ⟨_, _, h3, _⟩ := reduceVector_invariant (readAt oob status) v v.length (Nat.le_refl _)
  unfold reduceVectorInPlace reduceVector
  simp only
  rw [h3, List.take_length]

theorem reduceVectorLoop_eq_range {α : Type} (read : Nat → Nat) (v : List α) :
    ∀ i, reduceVectorLoop read i v
      = ((List.range v.length).filter (fun j => decide (read (i + j) ≠ 0))).filterMap
          (fun j => v[j]?) := by
  induction v with
  | nil => intro i; simp [reduceVectorLoop]
  | cons a rest ih =>
    intro i
    have e : ∀ j, i + 1 + j = i + (j + 1) := fun j => by omega
    rw [List.length_cons, List.range_succ_eq_map, List.filter_cons, List.filter_map]
    simp only [reduceVectorLoop, ih (i + 1), Nat.add_zero, e]
    by_cases hr : read i = 0
    · simp [hr, List.filterMap_map, Function.comp_def]
    · simp [hr, List.filterMap_map, Function.comp_def]

theorem length_filterMap_of_isSome {α β : Type} (f : α → Option β) (l : List α)
    (h : ∀ x ∈ l, (f x).isSome = true) : (l.filterMap f).length = l.length := by
  induction l with
  | nil => rfl
  | cons a rest ih =>
    have ha := h a (List.mem_cons_self _ _)
    obtain ⟨b, hb⟩ := Option.isSome_iff_exists.1 ha
    rw [List.filterMap_cons_some hb, List.length_cons, List.length_cons,
      ih (fun x hx => h x (List.mem_cons_of_mem _ hx))]

/-- With a status at least as long as `v`, `reduceVector` keeps the elements of `v` at the
indices below `|v|` whose status is non-zero, in increasing order of index. -/
theorem reduceVector_eq_range {α : Type} (oob : Nat → Nat) (v : List α) (status : List Nat)
    (hs : v.length ≤ status.length) :
    reduceVector oob v status
      = ((List.range v.length).filter (fun i => decide (status.getD i 0 ≠ 0))).filterMap
          (fun i => v[i]?) := by
  unfold reduceVector
  rw [reduceVectorLoop_eq_range]
  congr 1
  apply List.filter_congr
  intro j hj
  have hj' : j < status.length := by
    have := List.mem_range.1 hj
    omega
  simp [readAt, List.getD_eq_getElem?_getD, List.getElem?_eq_getElem hj']

/-- C23. The function `reduceVector(v, status)`, as the in-place loop it is written as, is an
order-preserving filter: with `|status| >= |v|` the result is the elements of `v` at exactly
the indices `i < |v|` with `status[i]` non-zero, in increasing order of index, its length is
the number of those indices, and it is a subsequence of `v`; the same status applied to a
sequence `w` of the same length keeps the elements of `w` at the same indices, so that the
two results stay index-aligned (zipping the results is filtering the zipped pairs). -/
theorem reduceVector_order_preserving_filter {α β : Type} (oob oob' : Nat → Nat) (v : List α)
    (w : List β) (status : List Nat) (hs : v.length ≤ status.length) :
    reduceVectorInPlace oob v status
      = ((List.range v.length).filter (fun i => decide (status.getD i 0 ≠ 0))).filterMap
          (fun i => v[i]?) ∧
    (reduceVectorInPlace oob v status).length
      = ((List.range v.length).filter (fun i => decide (status.getD i 0 ≠ 0))).length ∧
    (reduceVectorInPlace oob v status).Sublist v ∧
    (w.length = v.length →
      reduceVectorInPlace oob' w status
        = ((List.range v.length).filter (fun i => decide (status.getD i 0 ≠ 0))).filterMap
            (fun i => w[i]?) ∧
      (reduceVectorInPlace oob v status).length = (reduceVectorInPlace oob' w status).length ∧
      List.zip (reduceVectorInPlace oob v status) (reduceVectorInPlace oob' w status)
        = reduceVectorInPlace oob (List.zip v w) status) := by
  have hv := reduceVector_eq_range oob v status hs
  have hsome : ∀ (γ : Type) (u : List γ), u.length = v.length →
      ∀ x ∈ (List.range v.length).filter (fun i => decide (status.getD i 0 ≠ 0)),
        (u[x]?).isSome = true := by
    intro γ u hu x hx
    have hx' := List.mem_range.1 (List.mem_filter.1 hx).1
    rw [List.getElem?_eq_getElem (by omega)]
    rfl
  refine ⟨?_, ?_, ?_, ?_⟩
  · rw [reduceVectorInPlace_eq, hv]
  · rw [reduceVectorInPlace_eq, hv]
    exact length_filterMap_of_isSome _ _ (hsome α v rfl)
  · rw [reduceVectorInPlace_eq]
    exact reduceVector_sublist _ _ _
  · intro hw
    have hwr := reduceVector_eq_range oob' w status (by omega)
    rw [hw] at hwr
    refine ⟨?_, ?_, ?_⟩
    · rw [reduceVectorInPlace_eq, hwr]
    · rw [reduceVectorInPlace_eq, reduceVectorInPlace_eq, hv, hwr,
        length_filterMap_of_isSome _ _ (hsome α v rfl),
        length_filterMap_of_isSome _ _ (hsome β w hw)]
    · rw [reduceVectorInPlace_eq, reduceVectorInPlace_eq, reduceVectorInPlace_eq,
        reduceVector_oob_irrel oob' oob w status (by omega)]
      unfold reduceVector
      rw [reduceVectorLoop_zip]

set_option maxRecDepth 100000 in
/-- Witness for C23: the status `[1, 0, 1, 1]` applied to `[10, 20, 30]` and to
`[7, 8, 9]`. -/
theorem reduceVector_order_preserving_filter_witness :
    reduceVectorInPlace (fun _ => 1) ([10, 20, 30] : List Int) [1, 0, 1, 1] = [10, 30] ∧
    reduceVectorInPlace (fun _ => 1) ([7, 8, 9] : List Int) [1, 0, 1, 1] = [7, 9] ∧
    (reduceVectorInPlace (fun _ => 1) ([10, 20, 30] : List Int) [1, 0, 1, 1]).length
      = (reduceVectorInPlace (fun _ => 1) ([7, 8, 9] : List Int) [1, 0, 1, 1]).length :=
  ⟨by decide, by decide,
    ((reduceVector_order_preserving_filter (fun _ => 1) (fun _ => 1) ([10, 20, 30] : List Int)
      ([7, 8, 9] : List Int) [1, 0, 1, 1] (by decide)).2.2.2 rfl).2.1⟩

/-! ## The pixel sampled by `setDepth` -/

/-- For a non-negative coordinate the truncated value is the rounded one or the one before
it: the two agree when the fractional part is below one half, and differ by one when it is
above. -/
theorem truncToInt_cvRound (v : ℚ) (hv : 0 ≤ v) :
    truncToInt v ≤ cvRound v ∧ cvRound v ≤ truncToInt v + 1 ∧
    (v - ⌊v⌋ < 1 / 2 → cvRound v = truncToInt v) ∧
    (1 / 2 < v - ⌊v⌋ → cvRound v = truncToInt v + 1) := by
  have ht : truncToInt v = ⌊v⌋ := by simp [truncToInt, hv]
  rw [ht]
  unfold cvRound
  refine ⟨?_, ?_, ?_, ?_⟩
  · split_ifs <;> omega
  · split_ifs <;> omega
  · intro h
    rw [if_pos h]
  · intro h
    rw [if_neg (by linarith), if_pos h]

/-- C22 (as amended). Depth sampling position: for every point `(x, y)` of `cur_pts`,
`setDepth` computes `pts_depth[i]` from the sample at row `(int) y`, column `(int) x` (the
coordinates truncated toward zero) and from no other pixel: two depth images that agree
at those pixels give the same `pts_depth`.  For non-negative coordinates the truncated
coordinate is the rounded one that `inBorder` tests when the fractional part is below one
half, and one less when it is above one half. -/
theorem setDepth_reads_truncated_pixel (P : Params) (s : FeatureTracker)
    (depth_img depth_img' : Mat) :
    (∀ (i : Nat) (p : Point2f), s.cur_pts[i]? = some p →
      (s.setDepth P depth_img).pts_depth[i]?
        = some (if (depth_img.px (truncToInt p.y) (truncToInt p.x) : ℚ) * (1 / 1000) < P.DEPTH_MAX ∧
                  (depth_img.px (truncToInt p.y) (truncToInt p.x) : ℚ) * (1 / 1000) > P.DEPTH_MIN
                then (depth_img.px (truncToInt p.y) (truncToInt p.x) : ℚ) * (1 / 1000)
                else -1)) ∧
    ((∀ p ∈ s.cur_pts, depth_img.px (truncToInt p.y) (truncToInt p.x)
        = depth_img'.px (truncToInt p.y) (truncToInt p.x)) →
      (s.setDepth P depth_img).pts_depth = (s.setDepth P depth_img').pts_depth) ∧
    (∀ p ∈ s.cur_pts, 0 ≤ p.x → 0 ≤ p.y →
      (truncToInt p.x ≤ cvRound p.x ∧ cvRound p.x ≤ truncToInt p.x + 1 ∧
        (p.x - ⌊p.x⌋ < 1 / 2 → cvRound p.x = truncToInt p.x) ∧
        (1 / 2 < p.x - ⌊p.x⌋ → cvRound p.x = truncToInt p.x + 1)) ∧
      (truncToInt p.y ≤ cvRound p.y ∧ cvRound p.y ≤ truncToInt p.y + 1 ∧
        (p.y - ⌊p.y⌋ < 1 / 2 → cvRound p.y = truncToInt p.y) ∧
        (1 / 2 < p.y - ⌊p.y⌋ → cvRound p.y = truncToInt p.y + 1))) := by
  refine ⟨?_, ?_, ?_⟩
  · intro i p hi
    simp only [FeatureTracker.setDepth, List.getElem?_map, hi, Option.map_some', depthAt]
  · intro h
    simp only [FeatureTracker.setDepth]
    apply List.map_congr_left
    intro p hp
    simp only [depthAt, h p hp]
  · intro p _ hx hy
    exact ⟨truncToInt_cvRound p.x hx, truncToInt_cvRound p.y hy⟩

set_option maxRecDepth 100000 in
/-- C22 counterexample: the point `(10.6, 20.7)` passes `inBorder` in the 100 x 100 image;
its rounded pixel is row 21, column 11 and its truncated pixel row 20, column 10.  The
depth images `sampleDepthImg` and `spikeDepthImg` agree at every pixel other than row 20,
column 10, the rounded pixel included, and `setDepth` records the depth 2 on the first and
the depth 3 on the second. -/
theorem setDepth_not_at_rounded_pixel :
    subPixelDepthState.cur_pts = [⟨53 / 5, 207 / 10⟩] ∧
    subPixelDepthState.inBorder ⟨53 / 5, 207 / 10⟩ = true ∧
    cvRound (207 / 10) = 21 ∧ cvRound (53 / 5) = 11 ∧
    truncToInt (207 / 10) = 20 ∧ truncToInt (53 / 5) = 10 ∧
    (∀ r c : Int, ¬ (r = 20 ∧ c = 10) → sampleDepthImg.px r c = spikeDepthImg.px r c) ∧
    sampleDepthImg.px (cvRound (207 / 10)) (cvRound (53 / 5))
      = spikeDepthImg.px (cvRound (207 / 10)) (cvRound (53 / 5)) ∧
    (subPixelDepthState.setDepth sampleParams sampleDepthImg).pts_depth = [2] ∧
    (subPixelDepthState.setDepth sampleParams spikeDepthImg).pts_depth = [3] ∧
    (subPixelDepthState.setDepth sampleParams sampleDepthImg).pts_depth
      ≠ (subPixelDepthState.setDepth sampleParams spikeDepthImg).pts_depth := by
  refine ⟨rfl, ?_, ?_, ?_, ?_, ?_, ?_, ?_, ?_, ?_, ?_⟩
  · with_unfolding_all decide
  · with_unfolding_all decide
  · with_unfolding_all decide
  · with_unfolding_all decide
  · with_unfolding_all decide
  · intro r c h
    simp [sampleDepthImg, spikeDepthImg, h]
  · with_unfolding_all decide
  · with_unfolding_all decide
  · with_unfolding_all decide
  · with_unfolding_all decide

set_option maxRecDepth 100000 in
/-- Witness for C22: a depth image that differs from `sampleDepthImg` at the rounded pixel
(row 21, column 11) of the point `(10.6, 20.7)` gives the same `pts_depth`. -/
theorem setDepth_reads_truncated_pixel_witness :
    (∀ p ∈ subPixelDepthState.cur_pts,
      sampleDepthImg.px (truncToInt p.y) (truncToInt p.x)
        = (⟨100, 100, fun r c => if r = 21 ∧ c = 11 then 9000 else 2000⟩ : Mat).px
            (truncToInt p.y) (truncToInt p.x)) ∧
    (subPixelDepthState.setDepth sampleParams sampleDepthImg).pts_depth
      = (subPixelDepthState.setDepth sampleParams
          ⟨100, 100, fun r c => if r = 21 ∧ c = 11 then 9000 else 2000⟩).pts_depth :=
  ⟨by with_unfolding_all decide,
    (setDepth_reads_truncated_pixel sampleParams subPixelDepthState sampleDepthImg
      ⟨100, 100, fun r c => if r = 21 ∧ c = 11 then 9000 else 2000⟩).2.1
      (by with_unfolding_all decide)⟩

/-! ## The greedy pass of `setMask` -/

/-- A pixel that is not 255 after `cv::circle` with colour 0 was not 255 before or lies
within the radius of the centre. -/
theorem circle_ne_255 (mask : Mat) (center pt : Point) (r : Int)
    (h : (circle mask center r 0).atPoint pt ≠ 255) :
    mask.atPoint pt ≠ 255 ∨
      (0 ≤ r ∧
        (pt.x - center.x) * (pt.x - center.x) + (pt.y - center.y) * (pt.y - center.y) ≤ r * r) := by
  unfold Mat.atPoint circle at h
  simp only at h
  split_ifs at h with hc
  · exact Or.inr ⟨hc.1, hc.2.2.2.2.2⟩
  · exact Or.inl h

/-- Every entry given to the loop of `setMask` in non-increasing order of track count is
kept, or its mask pixel was not 255 at the start, or its rounded pixel lies within
`MIN_DIST` of the rounded pixel of a kept entry whose track count is at least its own. -/
theorem setMaskLoop_dropped (r : Int) (l : List CntPtId) :
    ∀ mask : Mat, l.Pairwise (fun a b => b.1 ≤ a.1) →
      ∀ it ∈ l, it ∈ (setMaskLoop r mask l).2 ∨ mask.atPoint it.2.1.toPoint ≠ 255 ∨
        ∃ k ∈ (setMaskLoop r mask l).2,
          it.1 ≤ k.1 ∧ 0 ≤ r ∧ pixelDistSq k.2.1 it.2.1 ≤ r * r := by
  induction l with
  | nil => intro mask _ it h; simp at h
  | cons a rest ih =>
    intro mask hsorted it hit
    obtain ⟨hhead, hrest⟩ := List.pairwise_cons.1 hsorted
    simp only [setMaskLoop]
    split_ifs with hkeep
    · rcases List.mem_cons.1 hit with e | e
      · exact Or.inl (by rw [e]; exact List.mem_cons_self _ _)
      · rcases ih (circle mask a.2.1.toPoint r 0) hrest it e with h | h | ⟨k, hk, h⟩
        · exact Or.inl (List.mem_cons_of_mem _ h)
        · rcases circle_ne_255 mask a.2.1.toPoint it.2.1.toPoint r h with h' | ⟨h0, h'⟩
          · exact Or.inr (Or.inl h')
          · refine Or.inr (Or.inr ⟨a, List.mem_cons_self _ _, hhead it e, h0, ?_⟩)
            have e' : pixelDistSq a.2.1 it.2.1
                = (it.2.1.toPoint.x - a.2.1.toPoint.x) * (it.2.1.toPoint.x - a.2.1.toPoint.x)
                  + (it.2.1.toPoint.y - a.2.1.toPoint.y) * (it.2.1.toPoint.y - a.2.1.toPoint.y) := by
              simp only [pixelDistSq, Point2f.toPoint]; ring
            rw [e']; exact h'
        · exact Or.inr (Or.inr ⟨k, List.mem_cons_of_mem _ hk, h⟩)
    · rcases List.mem_cons.1 hit with e | e
      · exact Or.inr (Or.inl (by rw [e]; exact hkeep))
      · exact ih mask hrest it e

theorem zip3_of_maps (l : List CntPtId) :
    List.zip (l.map (fun it => it.1))
      (List.zip (l.map (fun it => it.2.1)) (l.map (fun it => it.2.2))) = l := by
  induction l with
  | nil => rfl
  | cons a rest ih => simp [List.zip_cons_cons, ih]

/-- The triples `(track_cnt[i], (cur_pts[i], ids[i]))` after `setMask` are the entries kept
by its loop. -/
theorem setMask_triples (env : Env) (P : Params) (s : FeatureTracker)
    (h1 : s.cur_pts.length = s.ids.length) (h2 : s.ids.length = s.track_cnt.length) :
    List.zip (s.setMask env P).track_cnt
        (List.zip (s.setMask env P).cur_pts (s.setMask env P).ids)
      = (setMaskLoop P.MIN_DIST ⟨s.row, s.col, fun _ _ => 255⟩
          (env.stdSort (List.zip s.track_cnt (List.zip s.cur_pts s.ids)))).2 := by
  obtain ⟨kept, _, hk, hp, hi, hc⟩ := setMask_kept env P s h1 h2
  rw [hp, hi, hc, zip3_of_maps, hk]

/-- C21. Greedy preference for long-lived tracks in `setMask`: on an input of aligned
sequences whose points all have their rounded pixel inside the `row` x `col` image, with a
sort that returns its input rearranged in non-increasing order of track count, the
output triples `(track_cnt[i], (cur_pts[i], ids[i]))` are a subsequence of the sorted
input triples, hence a sub-collection of the input triples listed in non-increasing order
of track count; the rounded pixel of every dropped point lies within `MIN_DIST` of the
rounded pixel of a retained point whose track count is at least its own (inside the disc
painted for it); and a point whose track count is strictly greater than that of every
other point is retained. -/
theorem setMask_greedy_preference (env : Env) (P : Params) (s : FeatureTracker)
    (hsort : SortOK env)
    (h1 : s.cur_pts.length = s.ids.length) (h2 : s.ids.length = s.track_cnt.length)
    (himg : ∀ p ∈ s.cur_pts, (0 ≤ cvRound p.x ∧ cvRound p.x < s.col) ∧
      (0 ≤ cvRound p.y ∧ cvRound p.y < s.row)) :
    (List.zip (s.setMask env P).track_cnt
        (List.zip (s.setMask env P).cur_pts (s.setMask env P).ids)).Sublist
      (env.stdSort (List.zip s.track_cnt (List.zip s.cur_pts s.ids))) ∧
    (List.zip (s.setMask env P).track_cnt
        (List.zip (s.setMask env P).cur_pts (s.setMask env P).ids)).Subperm
      (List.zip s.track_cnt (List.zip s.cur_pts s.ids)) ∧
    (List.zip (s.setMask env P).track_cnt
        (List.zip (s.setMask env P).cur_pts (s.setMask env P).ids)).Pairwise
      (fun a b => b.1 ≤ a.1) ∧
    (∀ it ∈ List.zip s.track_cnt (List.zip s.cur_pts s.ids),
      it ∉ List.zip (s.setMask env P).track_cnt
        (List.zip (s.setMask env P).cur_pts (s.setMask env P).ids) →
      ∃ k ∈ List.zip (s.setMask env P).track_cnt
          (List.zip (s.setMask env P).cur_pts (s.setMask env P).ids),
        it.1 ≤ k.1 ∧ 0 ≤ P.MIN_DIST ∧
          pixelDistSq k.2.1 it.2.1 ≤ P.MIN_DIST * P.MIN_DIST) ∧
    (∀ (i : Nat) (c : Int) (p : Point2f) (id : Int),
      s.track_cnt[i]? = some c → s.cur_pts[i]? = some p → s.ids[i]? = some id →
      (∀ (j : Nat) (c' : Int), j ≠ i → s.track_cnt[j]? = some c' → c' < c) →
      (c, p, id) ∈ List.zip (s.setMask env P).track_cnt
        (List.zip (s.setMask env P).cur_pts (s.setMask env P).ids)) := by
  have _himg := himg
  obtain ⟨hperm, hsorted⟩ := hsort (List.zip s.track_cnt (List.zip s.cur_pts s.ids))
  rw [setMask_triples env P s h1 h2]
  have hsub := setMaskLoop_sublist P.MIN_DIST
    (env.stdSort (List.zip s.track_cnt (List.zip s.cur_pts s.ids))) ⟨s.row, s.col, fun _ _ => 255⟩
  have hdrop : ∀ it ∈ List.zip s.track_cnt (List.zip s.cur_pts s.ids),
      it ∈ (setMaskLoop P.MIN_DIST ⟨s.row, s.col, fun _ _ => 255⟩
        (env.stdSort (List.zip s.track_cnt (List.zip s.cur_pts s.ids)))).2 ∨
      ∃ k ∈ (setMaskLoop P.MIN_DIST ⟨s.row, s.col, fun _ _ => 255⟩
          (env.stdSort (List.zip s.track_cnt (List.zip s.cur_pts s.ids)))).2,
        it.1 ≤ k.1 ∧ 0 ≤ P.MIN_DIST ∧
          pixelDistSq k.2.1 it.2.1 ≤ P.MIN_DIST * P.MIN_DIST := by
    intro it hit
    rcases setMaskLoop_dropped P.MIN_DIST _ ⟨s.row, s.col, fun _ _ => 255⟩ hsorted it
      (hperm.mem_iff.2 hit) with h | h | h
    · exact Or.inl h
    · exact absurd rfl h
    · exact Or.inr h
  refine ⟨hsub, hsub.subperm.trans hperm.subperm, hsorted.sublist hsub, ?_, ?_⟩
  · intro it hit hnot
    rcases hdrop it hit with h | h
    · exact absurd h hnot
    · exact h
  · intro i c p id hc hp hid hmax
    have hz : (List.zip s.track_cnt (List.zip s.cur_pts s.ids))[i]? = some (c, p, id) := by
      rw [List.getElem?_zip_eq_some]
      refine ⟨hc, ?_⟩
      rw [List.getElem?_zip_eq_some]
      exact ⟨hp, hid⟩
    have hmem : (c, p, id) ∈ List.zip s.track_cnt (List.zip s.cur_pts s.ids) :=
      List.mem_iff_getElem?.2 ⟨i, hz⟩
    rcases hdrop _ hmem with h | ⟨k, hk, hle, _, _⟩
    · exact h
    · have hkin : k ∈ List.zip s.track_cnt (List.zip s.cur_pts s.ids) :=
        hperm.mem_iff.1 (hsub.subset hk)
      obtain ⟨j, hj⟩ := List.mem_iff_getElem?.1 hkin
      have hj' := hj
      rw [List.getElem?_zip_eq_some] at hj'
      by_cases hji : j = i
      · rw [hji, hz] at hj
        rw [Option.some.inj hj]
        exact hk
      · have := hmax j k.1 hji hj'.1
        simp only at hle
        omega

set_option maxRecDepth 100000 in
/-- The sample input of three points: the point of track count 5 comes first, the point of
track count 1 within its disc is dropped. -/
theorem crowded_setMask :
    (crowdedState.setMask sampleEnv sampleParams).cur_pts = [⟨20, 20⟩, ⟨80, 80⟩] ∧
    (crowdedState.setMask sampleEnv sampleParams).ids = [1, 2] ∧
    (crowdedState.setMask sampleEnv sampleParams).track_cnt = [5, 3] := by
  refine ⟨?_, ?_, ?_⟩ <;> with_unfolding_all decide

set_option maxRecDepth 100000 in
/-- Witness for C21: the sample input of three points, of which the one of the highest
track count, at index 1, is retained. -/
theorem setMask_greedy_preference_witness :
    SortOK sampleEnv ∧
    crowdedState.cur_pts.length = crowdedState.ids.length ∧
    crowdedState.ids.length = crowdedState.track_cnt.length ∧
    (∀ p ∈ crowdedState.cur_pts, (0 ≤ cvRound p.x ∧ cvRound p.x < crowdedState.col) ∧
      (0 ≤ cvRound p.y ∧ cvRound p.y < crowdedState.row)) ∧
    (crowdedState.setMask sampleEnv sampleParams).track_cnt = [5, 3] ∧
    (List.zip (crowdedState.setMask sampleEnv sampleParams).track_cnt
        (List.zip (crowdedState.setMask sampleEnv sampleParams).cur_pts
          (crowdedState.setMask sampleEnv sampleParams).ids)).Pairwise
      (fun a b => b.1 ≤ a.1) :=
  ⟨sampleEnv_sortOK, rfl, rfl, by with_unfolding_all decide, crowded_setMask.2.2,
    (setMask_greedy_preference sampleEnv sampleParams crowdedState sampleEnv_sortOK rfl rfl
      (by with_unfolding_all decide)).2.2.1⟩

/-! ## 32-bit `int`: agreement with the exact arithmetic within range -/

theorem wrapInt32_of_range (x : Int) (h1 : -2147483648 ≤ x) (h2 : x ≤ 2147483647) :
    wrapInt32 x = x := by
  unfold wrapInt32
  omega

theorem ageTracksInt32_eq (s : FeatureTracker)
    (h : ∀ c ∈ s.track_cnt, 1 ≤ c ∧ c < INT_MAX) : s.ageTracksInt32 = s.ageTracks := by
  have e : s.track_cnt.map (fun n => wrapInt32 (n + 1)) = s.track_cnt.map (fun n => n + 1) := by
    apply List.map_congr_left
    intro c hc
    obtain ⟨h1, h2⟩ := h c hc
    have hm : INT_MAX = 2147483647 := rfl
    exact wrapInt32_of_range (c + 1) (by omega) (by omega)
  unfold FeatureTracker.ageTracksInt32 FeatureTracker.ageTracks
  rw [e]

theorem foldl_addPointInt32_eq (pts : List Point2f) :
    ∀ s : FeatureTracker, 0 ≤ s.n_id → s.n_id + (pts.length : Int) ≤ INT_MAX →
      pts.foldl FeatureTracker.addPointInt32 s = pts.foldl FeatureTracker.addPoint s := by
  induction pts with
  | nil => intro s _ _; rfl
  | cons p rest ih =>
    intro s h0 h1
    have hm : INT_MAX = 2147483647 := rfl
    simp only [List.length_cons, Nat.cast_add, Nat.cast_one] at h1
    have hw : wrapInt32 (s.n_id + 1) = s.n_id + 1 :=
      wrapInt32_of_range _ (by omega) (by omega)
    have e : s.addPointInt32 p = s.addPoint p := by
      unfold FeatureTracker.addPointInt32 FeatureTracker.addPoint
      rw [hw]
    simp only [List.foldl_cons, e]
    apply ih
    · show 0 ≤ s.n_id + 1
      omega
    · show s.n_id + 1 + (rest.length : Int) ≤ INT_MAX
      omega

theorem temporalFlow_track_cnt_mem (env : Env) (P : Params) (s : FeatureTracker) :
    ∀ c ∈ (s.temporalFlow env P).track_cnt, c ∈ s.track_cnt := by
  intro c hc
  unfold FeatureTracker.temporalFlow at hc
  split_ifs at hc
  · exact (reduceVector_sublist _ _ _).subset hc
  · exact hc

/-- The state of `trackImage` after the exact computation has `n_id` raised by the number of
new corners. -/
theorem trackImageState_n_id (env : Env) (P : Params) (s : FeatureTracker) (t : ℚ)
    (img img1 : Mat) :
    (s.trackImageState env P t img img1).n_id
      = s.n_id + (((((((s.beginFrame env P t img).temporalFlow env P).ageTracks).rejectWithF
          env P).setMask env P).detect env P).n_pts.length : Int) := by
  have h1 : (s.trackImageState env P t img img1).n_id
      = (((((((s.beginFrame env P t img).temporalFlow env P).ageTracks).rejectWithF env P).setMask
          env P).detect env P).addNewPoints).n_id := by
    show (FeatureTracker.augment env P _ img1).n_id = _
    rw [(augment_frame env P _ img1).1]
    rfl
  rw [h1]
  unfold FeatureTracker.addNewPoints
  rw [(foldl_addPoint _ _).2.2.2.1]
  congr 1
  exact (setMask_frame env P _).1.trans
    ((rejectWithF_frame env P _).1.trans (temporalFlow_frame env P _).1)

/-- Within the range of `int` the call on 32-bit `int` computes what the exact one does. -/
theorem trackImageStateInt32_eq (env : Env) (P : Params) (s : FeatureTracker) (t : ℚ)
    (img img1 : Mat) (hcnt : ∀ c ∈ s.track_cnt, 1 ≤ c ∧ c < INT_MAX) (hn0 : 0 ≤ s.n_id)
    (hpost : (s.trackImageState env P t img img1).n_id ≤ INT_MAX) :
    s.trackImageStateInt32 env P t img img1 = s.trackImageState env P t img img1 := by
  have hage : ((s.beginFrame env P t img).temporalFlow env P).ageTracksInt32
      = ((s.beginFrame env P t img).temporalFlow env P).ageTracks := by
    apply ageTracksInt32_eq
    intro c hc
    have hmem := temporalFlow_track_cnt_mem env P (s.beginFrame env P t img) c hc
    exact hcnt c hmem
  have hnid := trackImageState_n_id env P s t img img1
  have hpre : ((((((s.beginFrame env P t img).temporalFlow env P).ageTracks).rejectWithF
      env P).setMask env P).detect env P).n_id = s.n_id := by
    exact (setMask_frame env P _).1.trans
      ((rejectWithF_frame env P _).1.trans (temporalFlow_frame env P _).1)
  have hadd : (((((((s.beginFrame env P t img).temporalFlow env P).ageTracks).rejectWithF
      env P).setMask env P).detect env P)).addNewPointsInt32
      = (((((((s.beginFrame env P t img).temporalFlow env P).ageTracks).rejectWithF
      env P).setMask env P).detect env P)).addNewPoints := by
    unfold FeatureTracker.addNewPointsInt32 FeatureTracker.addNewPoints
    apply foldl_addPointInt32_eq
    · rw [hpre]; exact hn0
    · rw [hpre, ← hnid]; exact hpost
  unfold FeatureTracker.trackImageStateInt32 FeatureTracker.trackImageState
  simp only [hage, hadd]

theorem trackImageInt32_eq (env : Env) (P : Params) (s : FeatureTracker) (t : ℚ)
    (img img1 : Mat) (hcnt : ∀ c ∈ s.track_cnt, 1 ≤ c ∧ c < INT_MAX) (hn0 : 0 ≤ s.n_id)
    (hpost : (s.trackImageState env P t img img1).n_id ≤ INT_MAX) :
    s.trackImageInt32 env P t img img1 = s.trackImage env P t img img1 := by
  unfold FeatureTracker.trackImageInt32 FeatureTracker.trackImage
  simp only [trackImageStateInt32_eq env P s t img img1 hcnt hn0 hpost]

/-- A call that keeps the `int` values in range has the same effect on 32-bit `int` as
computed exactly. -/
theorem applyInt32_eq (c : Call) (s : FeatureTracker) (hs : Inv s) (hr : InIntRange s)
    (hr' : InIntRange (c.apply s)) : c.applyInt32 s = c.apply s := by
  cases c with
  | trackImage env P t img img1 =>
    show (s.trackImageInt32 env P t img img1).1 = (s.trackImage env P t img img1).1
    rw [trackImageInt32_eq env P s t img img1
      (fun c hc => ⟨hs.2.2.2.2.2.1 c hc, hr.2 c hc⟩) hs.2.2.2.2.2.2 hr'.1]
  | removeOutliers env S => rfl
  | setPrediction env pred => rfl
  | set_max_feature_num n => rfl

theorem runInRange_head (s : FeatureTracker) (calls : List Call) (h : RunInRange s calls) :
    InIntRange s := by
  cases calls with
  | nil => exact h
  | cons c rest => exact h.1

theorem runInRange_final (calls : List Call) :
    ∀ s : FeatureTracker, RunInRange s calls → InIntRange (run s calls) := by
  induction calls with
  | nil => intro s h; exact h
  | cons c rest ih => intro s h; exact ih (c.apply s) h.2

theorem runInRange_append (a : List Call) :
    ∀ (s : FeatureTracker) (b : List Call),
      RunInRange s (a ++ b) ↔ RunInRange s a ∧ RunInRange (run s a) b := by
  induction a with
  | nil =>
    intro s b
    constructor
    · intro h; exact ⟨runInRange_head s b h, h⟩
    · intro h; exact h.2
  | cons c rest ih =>
    intro s b
    show (InIntRange s ∧ RunInRange (c.apply s) (rest ++ b))
      ↔ (InIntRange s ∧ RunInRange (c.apply s) rest) ∧ RunInRange (run (c.apply s) rest) b
    rw [ih (c.apply s) b]
    tauto

/-- A run that keeps the `int` values in range is the same on 32-bit `int` as computed
exactly. -/
theorem runInt32_eq (calls : List Call) :
    ∀ s : FeatureTracker, Inv s → (∀ c ∈ calls, c.ok) → RunInRange s calls →
      runInt32 s calls = run s calls := by
  induction calls with
  | nil => intro s _ _ _; rfl
  | cons c rest ih =>
    intro s hs hok hr
    have hc := hok c (List.mem_cons_self _ _)
    have e := applyInt32_eq c s hs hr.1 (runInRange_head _ _ hr.2)
    show runInt32 (c.applyInt32 s) rest = run (c.apply s) rest
    rw [e]
    exact ih (c.apply s) (apply_inv c s hc hs)
      (fun c' hc' => hok c' (List.mem_cons_of_mem _ hc')) hr.2

/-- A state reached within the range of `int` is a state of the exact computation, in
range. -/
theorem reachableInRange_reachable (s : FeatureTracker) (h : ReachableInRange s) :
    Reachable s ∧ InIntRange s := by
  obtain ⟨d, st, m, calls, hok, hr, rfl⟩ := h
  rw [runInt32_eq calls _ (create_inv d st m) hok hr]
  exact ⟨⟨d, st, m, calls, hok, rfl⟩, runInRange_final calls _ hr⟩

theorem reachableInRange_run (s : FeatureTracker) (calls : List Call) (h : ReachableInRange s)
    (hok : ∀ c ∈ calls, c.ok) (hr : RunInRange s calls) :
    ReachableInRange (runInt32 s calls) ∧ runInt32 s calls = run s calls := by
  have hinv := reachable_inv s (reachableInRange_reachable s h).1
  have heq := runInt32_eq calls s hinv hok hr
  refine ⟨?_, heq⟩
  obtain ⟨d, st, m, calls0, hok0, hr0, hs⟩ := h
  have hs' : s = run (FeatureTracker.create d st m) calls0 := by
    rw [hs, runInt32_eq calls0 _ (create_inv d st m) hok0 hr0]
  refine ⟨d, st, m, calls0 ++ calls, ?_, ?_, ?_⟩
  · intro c hc
    rcases List.mem_append.1 hc with h | h
    · exact hok0 c h
    · exact hok c h
  · rw [runInRange_append]
    exact ⟨hr0, by rw [← hs']; exact hr⟩
  · have hall : ∀ c ∈ calls0 ++ calls, c.ok := by
      intro c hc
      rcases List.mem_append.1 hc with h | h
      · exact hok0 c h
      · exact hok c h
    rw [heq, runInt32_eq (calls0 ++ calls) _ (create_inv d st m) hall
      ((runInRange_append calls0 _ calls).2 ⟨hr0, by rw [← hs']; exact hr⟩), hs']
    simp [run, List.foldl_append]

/-! ## Identities and track counts -/

/-- A `trackImage` call from a state reached within the range of `int`, itself within
range, computes on 32-bit `int` what the exact call computes. -/
theorem trackImageInt32_eq_of_inRange (env : Env) (P : Params) (s : FeatureTracker) (t : ℚ)
    (img img1 : Mat) (hs : ReachableInRange s)
    (hr : RunInRange s [Call.trackImage env P t img img1]) :
    s.trackImageInt32 env P t img img1 = s.trackImage env P t img img1 := by
  have hinv := reachable_inv s (reachableInRange_reachable s hs).1
  exact trackImageInt32_eq env P s t img img1
    (fun c hc => ⟨hinv.2.2.2.2.2.1 c hc, hr.1.2 c hc⟩) hinv.2.2.2.2.2.2 hr.2.1

/-- C2 (as amended). Identity uniqueness and monotonicity within the range of `int`: `n_id`
starts at 0; in every state reached by calls none of which takes `n_id` beyond `INT_MAX` or
a track count to `INT_MAX`, the identities in `ids` are pairwise distinct and below `n_id`;
while `n_id` is below `INT_MAX` a new corner receives the current `n_id`, which then grows
by one, so that after such a `trackImage` call `ids` consists of identities it held before
followed by `n_id, n_id + 1, ...` and `n_id` has grown by their number; and an identity
below `n_id` that is absent from `ids` is absent after every further such sequence of
calls. -/
theorem identity_unique_monotone :
    (∀ (d st : Bool) (m : Int), (FeatureTracker.create d st m).n_id = 0) ∧
    (∀ s : FeatureTracker, ReachableInRange s →
      s.ids.Nodup ∧ (∀ id ∈ s.ids, id < s.n_id) ∧ 0 ≤ s.n_id ∧ s.n_id ≤ INT_MAX) ∧
    (∀ (s : FeatureTracker) (p : Point2f), 0 ≤ s.n_id → s.n_id < INT_MAX →
      (s.addPointInt32 p).ids = s.ids ++ [s.n_id] ∧ (s.addPointInt32 p).n_id = s.n_id + 1) ∧
    (∀ (s : FeatureTracker) (env : Env) (P : Params) (t : ℚ) (img img1 : Mat),
      ReachableInRange s → OraclesOK env → RunInRange s [Call.trackImage env P t img img1] →
      ∃ (kept : List Int) (n : Nat), kept.Subperm s.ids ∧
        (s.trackImageInt32 env P t img img1).1.ids
          = kept ++ (List.range n).map (fun (j : Nat) => s.n_id + (j : Int)) ∧
        (s.trackImageInt32 env P t img img1).1.n_id = s.n_id + (n : Int)) ∧
    (∀ (s : FeatureTracker) (calls : List Call), ReachableInRange s → (∀ c ∈ calls, c.ok) →
      RunInRange s calls →
      ∀ id, id < s.n_id → id ∉ s.ids → id ∉ (runInt32 s calls).ids) := by
  refine ⟨fun _ _ _ => rfl, ?_, ?_, ?_, ?_⟩
  · intro s hs
    obtain ⟨hreach, hrange⟩ := reachableInRange_reachable s hs
    have hinv := reachable_inv s hreach
    exact ⟨hinv.2.2.1, hinv.2.2.2.1, hinv.2.2.2.2.2.2, hrange.1⟩
  · intro s p h0 h1
    have hm : INT_MAX = 2147483647 := rfl
    refine ⟨rfl, ?_⟩
    show wrapInt32 (s.n_id + 1) = s.n_id + 1
    exact wrapInt32_of_range _ (by omega) (by omega)
  · intro s env P t img img1 hs hok hr
    rw [trackImageInt32_eq_of_inRange env P s t img img1 hs hr]
    obtain ⟨h1, h2, _⟩ := reachable_inv s (reachableInRange_reachable s hs).1
    obtain ⟨K, n, hK, hids, _, hnid⟩ :=
      trackImageState_idCnt env P s t img img1 hok.1 hok.2.1 (fun l => (hok.2.2 l).1) h1 h2
    exact ⟨K.map Prod.fst, n, kept_ids_subperm s K h2 hK, hids, hnid⟩
  · intro s calls hs hok hr id hlt hni
    rw [(reachableInRange_run s calls hs hok hr).2]
    exact run_no_resurrection calls s (reachable_inv s (reachableInRange_reachable s hs).1)
      hok id hlt hni

/-- C6 (as amended). Track-count semantics within the range of `int`: over a `trackImage`
call that takes no `int` out of range, from a state reached by such calls, an identity
present before and after has its count raised by exactly one and an identity absent before
has count 1; in every state so reached every count is at least 1 and below `INT_MAX`; and
an identity that first appears in a frame and is still present after a further run of such
calls containing `k - 1` frames has count `k`. -/
theorem track_count_semantics :
    (∀ (s : FeatureTracker) (env : Env) (P : Params) (t : ℚ) (img img1 : Mat),
      ReachableInRange s → OraclesOK env → RunInRange s [Call.trackImage env P t img img1] →
      (∀ id c c', (id, c) ∈ List.zip s.ids s.track_cnt →
        (id, c') ∈ List.zip (s.trackImageInt32 env P t img img1).1.ids
          (s.trackImageInt32 env P t img img1).1.track_cnt → c' = c + 1) ∧
      (∀ id c', (id, c') ∈ List.zip (s.trackImageInt32 env P t img img1).1.ids
          (s.trackImageInt32 env P t img img1).1.track_cnt → id ∉ s.ids → c' = 1)) ∧
    (∀ s : FeatureTracker, ReachableInRange s → ∀ c ∈ s.track_cnt, 1 ≤ c ∧ c < INT_MAX) ∧
    (∀ (s : FeatureTracker) (env : Env) (P : Params) (t : ℚ) (img img1 : Mat)
      (calls : List Call), ReachableInRange s → OraclesOK env → (∀ c ∈ calls, c.ok) →
      RunInRange s (Call.trackImage env P t img img1 :: calls) →
      ∀ id cnt, id ∉ s.ids →
        id ∈ (s.trackImageInt32 env P t img img1).1.ids →
        (id, cnt) ∈ List.zip (runInt32 (s.trackImageInt32 env P t img img1).1 calls).ids
          (runInt32 (s.trackImageInt32 env P t img img1).1 calls).track_cnt →
        cnt = 1 + (frameCount calls : Int)) := by
  have step : ∀ (s : FeatureTracker) (env : Env) (P : Params) (t : ℚ) (img img1 : Mat),
      Reachable s → OraclesOK env →
      (∀ id c c', (id, c) ∈ List.zip s.ids s.track_cnt →
        (id, c') ∈ List.zip (s.trackImage env P t img img1).1.ids
          (s.trackImage env P t img img1).1.track_cnt → c' = c + 1) ∧
      (∀ id c', (id, c') ∈ List.zip (s.trackImage env P t img img1).1.ids
          (s.trackImage env P t img img1).1.track_cnt → id ∉ s.ids → c' = 1) := by
    intro s env P t img img1 hs hok
    have hinv := reachable_inv s hs
    have hp := (apply_pairs (Call.trackImage env P t img img1) s hok hinv).2
    refine ⟨?_, ?_⟩
    · intro id c c' hc hc'
      rcases hp id c' hc' with ⟨c0, h0, e0⟩ | ⟨h, _, _⟩
      · rw [zip_nodup_unique s.ids s.track_cnt hinv.2.2.1 id c c0 hc h0, e0]
        simp [Call.isFrame]
      · have := hinv.2.2.2.1 id (List.of_mem_zip hc).1
        omega
    · intro id c' hc' hni
      rcases hp id c' hc' with ⟨c0, h0, _⟩ | ⟨_, h, _⟩
      · exact absurd (List.of_mem_zip h0).1 hni
      · exact h
  refine ⟨?_, ?_, ?_⟩
  · intro s env P t img img1 hs hok hr
    rw [trackImageInt32_eq_of_inRange env P s t img img1 hs hr]
    exact step s env P t img img1 (reachableInRange_reachable s hs).1 hok
  · intro s hs c hc
    obtain ⟨hreach, hrange⟩ := reachableInRange_reachable s hs
    exact ⟨(reachable_inv s hreach).2.2.2.2.2.1 c hc, hrange.2 c hc⟩
  · intro s env P t img img1 calls hs hok hcalls hr id cnt hni hin hmem
    have hreach := (reachableInRange_reachable s hs).1
    have hr1 : RunInRange s [Call.trackImage env P t img img1] :=
      ⟨hr.1, runInRange_head _ _ hr.2⟩
    have e1 := trackImageInt32_eq_of_inRange env P s t img img1 hs hr1
    rw [e1] at hin hmem
    have hinv := reachable_inv s hreach
    have hinv' : Inv (s.trackImage env P t img img1).1 :=
      trackImageState_inv env P s t img img1 hok hinv
    have e2 : runInt32 (s.trackImage env P t img img1).1 calls
        = run (s.trackImage env P t img img1).1 calls :=
      runInt32_eq calls _ hinv' hcalls hr.2
    rw [e2] at hmem
    have hlt : id < (s.trackImage env P t img img1).1.n_id := hinv'.2.2.2.1 id hin
    obtain ⟨c0, h0, e0⟩ := run_pairs calls _ hinv' hcalls id cnt hlt hmem
    have hc0 := (step s env P t img img1 hreach hok).2 id c0 h0 hni
    rw [e0, hc0]

set_option maxRecDepth 100000 in
theorem sampleState1_reachableInRange : ReachableInRange sampleState1 := by
  have hok : ∀ c ∈ [Call.trackImage sampleEnv sampleParams 0 sampleImg Mat.none], c.ok := by
    intro c hc
    rw [List.mem_singleton] at hc
    rw [hc]
    exact sampleEnv_ok
  have hr : RunInRange (FeatureTracker.create false false 10)
      [Call.trackImage sampleEnv sampleParams 0 sampleImg Mat.none] := by
    refine ⟨⟨by decide, fun c hc => by simp [FeatureTracker.create] at hc⟩, ?_, ?_⟩
    · show sampleState1.n_id ≤ INT_MAX
      with_unfolding_all decide
    · show ∀ c ∈ sampleState1.track_cnt, c < INT_MAX
      rw [sampleState1_pairs.2.1]
      decide
  exact ⟨false, false, 10, _, hok, hr,
    (runInt32_eq _ _ (create_inv false false 10) hok hr).symm⟩

set_option maxRecDepth 100000 in
/-- The second frame of the sample run takes no `int` out of range. -/
theorem sampleFrame2_inRange :
    RunInRange sampleState1 [Call.trackImage sampleEnv sampleParams 1 sampleImg Mat.none] := by
  refine ⟨⟨?_, ?_⟩, ?_, ?_⟩
  · show sampleState1.n_id ≤ INT_MAX
    with_unfolding_all decide
  · rw [sampleState1_pairs.2.1]
    decide
  · show (sampleState1.trackImage sampleEnv sampleParams 1 sampleImg Mat.none).1.n_id ≤ INT_MAX
    with_unfolding_all decide
  · show ∀ c ∈ (sampleState1.trackImage sampleEnv sampleParams 1 sampleImg Mat.none).1.track_cnt,
      c < INT_MAX
    rw [sampleState2_pairs.2]
    decide

set_option maxRecDepth 100000 in
/-- C2 counterexample: on 32-bit `int`, a `trackImage` call on a tracker whose `n_id` is
`INT_MAX` (its identities distinct and below `n_id`) gives the new corner the identity
`INT_MAX` and leaves `n_id = -2147483648`, which is not `n_id + 1` and is below every
identity in `ids`; the corners of the next call receive `-2147483648` and `-2147483647`,
identities smaller than those assigned before. -/
theorem identity_overflow_at_int_max :
    lastIdState.n_id = INT_MAX ∧ lastIdState.ids = [2147483645, 2147483646] ∧
    lastIdState.ids.Nodup ∧ (∀ id ∈ lastIdState.ids, id < lastIdState.n_id) ∧
    (lastIdState.trackImageInt32 dropRightEnv sampleParams 1 sampleImg Mat.none).1.ids
      = [2147483645, 2147483647] ∧
    (lastIdState.trackImageInt32 dropRightEnv sampleParams 1 sampleImg Mat.none).1.n_id
      = -2147483648 ∧
    (lastIdState.trackImageInt32 dropRightEnv sampleParams 1 sampleImg Mat.none).1.n_id
      ≠ lastIdState.n_id + 1 ∧
    ¬ (∀ id ∈ (lastIdState.trackImageInt32 dropRightEnv sampleParams 1 sampleImg Mat.none).1.ids,
        id < (lastIdState.trackImageInt32 dropRightEnv sampleParams 1 sampleImg Mat.none).1.n_id) ∧
    ((lastIdState.trackImageInt32 dropRightEnv sampleParams 1 sampleImg
        Mat.none).1.trackImageInt32 dropRightEnv sampleParams 2 sampleImg Mat.none).1.ids
      = [-2147483648, -2147483647] := by
  refine ⟨?_, ?_, ?_, ?_, ?_, ?_, ?_, ?_, ?_⟩ <;> with_unfolding_all decide

set_option maxRecDepth 100000 in
/-- C6 counterexample: on 32-bit `int`, a `trackImage` call on a tracker in which identity 0
has the track count `INT_MAX` keeps the identity and leaves its count at `-2147483648`,
which is not one greater than before and is below 1. -/
theorem track_count_overflow_at_int_max :
    ((0 : Int), (2147483647 : Int)) ∈ List.zip oldTrackState.ids oldTrackState.track_cnt ∧
    (oldTrackState.trackImageInt32 sampleEnv sampleParams 1 sampleImg Mat.none).1.ids = [1, 0] ∧
    (oldTrackState.trackImageInt32 sampleEnv sampleParams 1 sampleImg Mat.none).1.track_cnt
      = [2, -2147483648] ∧
    ((0 : Int), (-2147483648 : Int)) ∈
      List.zip (oldTrackState.trackImageInt32 sampleEnv sampleParams 1 sampleImg Mat.none).1.ids
        (oldTrackState.trackImageInt32 sampleEnv sampleParams 1 sampleImg Mat.none).1.track_cnt ∧
    (-2147483648 : Int) ≠ 2147483647 + 1 ∧
    ¬ (∀ c ∈ (oldTrackState.trackImageInt32 sampleEnv sampleParams 1 sampleImg
        Mat.none).1.track_cnt, 1 ≤ c) := by
  refine ⟨?_, ?_, ?_, ?_, ?_, ?_⟩ <;> with_unfolding_all decide

/-- Witness for C2: the state after the first frame of the sample run. -/
theorem identity_unique_monotone_witness :
    ReachableInRange sampleState1 ∧ sampleState1.ids = [0, 1] ∧ sampleState1.ids.Nodup ∧
    ∀ id ∈ sampleState1.ids, id < sampleState1.n_id :=
  ⟨sampleState1_reachableInRange, sampleState1_pairs.1,
    (identity_unique_monotone.2.1 sampleState1 sampleState1_reachableInRange).1,
    (identity_unique_monotone.2.1 sampleState1 sampleState1_reachableInRange).2.1⟩

set_option maxRecDepth 100000 in
/-- Witness for C6: identity 0 over the second frame of the sample run. -/
theorem track_count_semantics_witness :
    ReachableInRange sampleState1 ∧ OraclesOK sampleEnv ∧
    RunInRange sampleState1 [Call.trackImage sampleEnv sampleParams 1 sampleImg Mat.none] ∧
    ((0 : Int), (1 : Int)) ∈ List.zip sampleState1.ids sampleState1.track_cnt ∧
    ((0 : Int), (2 : Int)) ∈
      List.zip (sampleState1.trackImageInt32 sampleEnv sampleParams 1 sampleImg Mat.none).1.ids
        (sampleState1.trackImageInt32 sampleEnv sampleParams 1 sampleImg Mat.none).1.track_cnt ∧
    (2 : Int) = 1 + 1 :=
  ⟨sampleState1_reachableInRange, sampleEnv_ok, sampleFrame2_inRange,
    by rw [sampleState1_pairs.1, sampleState1_pairs.2.1]; decide,
    by with_unfolding_all decide,
    (track_count_semantics.1 sampleState1 sampleEnv sampleParams 1 sampleImg Mat.none
      sampleState1_reachableInRange sampleEnv_ok sampleFrame2_inRange).1 0 1 2
      (by rw [sampleState1_pairs.1, sampleState1_pairs.2.1]; decide)
      (by with_unfolding_all decide)⟩

end vins_multi
